import Mathlib

/-!
# ai_proxy: the request-dispatch pipeline of `main.go`

A shallow embedding of the key rotator (`GetAvailableKey`), the notifier
(`sendNotification`), the model listing (`handleModels`), the request handler
(`handleRequest`) and the retry loop (`forwardWithRetry`).

Conventions.
* Go strings are Lean strings; instants (`time.Time`) are integers counting
  nanoseconds; `time.Duration` is a signed 64-bit count of nanoseconds.
* The three `sync.Map` globals are total functions into `Option`.
* The per-upstream counter is a `uint64`: `atomic.AddUint64` is `(c + 1) % 2 ^ 64`.
* Calls are sequential; whatever the code reads from outside (the clock, the
  upstream's answers, the JSON and URL libraries) is an explicit argument. A call
  of `GetAvailableKey` reads the clock as one instant `now`.
* The loop variable `retry` of `forwardWithRetry` is a 64-bit `int`. `retryLoop`
  follows the loop with a natural number, which is the loop for `MaxRetries` below
  the largest `int`, where `retry++` does not overflow; `retryLoop64` follows it
  with the wrapping `int` over the whole range.
* Logging and `time.Sleep` have no effect on the state and are left out.
-/

namespace AiProxy

/-! ## Data model (`main.go` lines 24-68) -/

/-- The `Upstream` struct of the configuration. -/
structure Upstream where
  Name : String
  BaseURL : String
  Models : List String
  Keys : List String
deriving DecidableEq, Repr

/-- The `NotificationRecord` struct. -/
structure NotificationRecord where
  Upstream : String
  ModelName : String
  StatusCode : Int
  LastSent : Int
deriving DecidableEq, Repr

/-- The `ProjectKey` struct of the configuration. -/
structure ProjectKey where
  ProjectName : String
  APIKey : String
  AllowedModels : List String
deriving DecidableEq, Repr

/-- The `ServerConfig` struct. `AutoModels` is a Go map: an association list with
one pair per key, whose order stands for the order in which `range` visits it. -/
structure ServerConfig where
  Port : String
  MaxRetries : Int
  CoolDownMinutes : Int
  NotificationWebhook : String
  AutoModels : List (String × String)
deriving DecidableEq, Repr

/-- The `Config` struct. -/
structure Config where
  Server : ServerConfig
  Upstreams : List Upstream
  ProjectAuth : List ProjectKey
deriving DecidableEq, Repr

/-- A delivery goroutine started by `sendNotification` (line 192): the record key
it was started for and the text it posts. -/
structure Delivery where
  key : String
  content : String
deriving DecidableEq, Repr

/-- The process-wide mutable state: the globals `blacklist`, `upstreamStates`,
`notifyRecords`, and the delivery goroutines started so far (oldest first). -/
structure State where
  blacklist : String → Option Int
  upstreamStates : String → Option Nat
  notifyRecords : String → Option NotificationRecord
  deliveries : List Delivery

/-- The state of a freshly started process. -/
def State.init : State :=
  { blacklist := fun _ => none, upstreamStates := fun _ => none,
    notifyRecords := fun _ => none, deliveries := [] }

/-- The method `Store` of `sync.Map`. -/
def mapStore {β : Type} (m : String → Option β) (k : String) (v : β) : String → Option β :=
  fun x => if x = k then some v else m x

/-- The method `Delete` of `sync.Map`. -/
def mapDelete {β : Type} (m : String → Option β) (k : String) : String → Option β :=
  fun x => if x = k then none else m x

/-! ## Key rotator (`main.go` lines 127-149) -/

/-- The modulus of `uint64` arithmetic. -/
def uint64Size : Nat := 2 ^ 64

/-- What `GetAvailableKey` hands back: a key, one of its two errors, or the run-time
fault of an out-of-range index at `u.Keys[idx]`. -/
inductive KeyResult where
  | key (k : String)
  | notConfigured (msg : String)
  | allCooling (msg : String)
  | indexOutOfRange
deriving DecidableEq, Repr

/-- The `for i := 0; i < numKeys; i++` loop of `GetAvailableKey`, lines 136-147.
`remaining` is `numKeys - i`, `c` the counter value and `bl` the blacklist. The
result is `none` when the loop runs to its end. -/
def keyLoop (keys : List String) (now : Int) :
    Nat → Nat → (String → Option Int) → Option KeyResult × Nat × (String → Option Int)
  | 0, c, bl => (none, c, bl)
  | remaining + 1, c, bl =>
    let c1 := (c + 1) % uint64Size
    let idx := c1 % keys.length
    match keys[idx]? with
    | none => (some KeyResult.indexOutOfRange, c1, bl)
    | some key =>
      match bl key with
      | some untilT =>
        if now < untilT then keyLoop keys now remaining c1 bl
        else (some (KeyResult.key key), c1, mapDelete bl key)
      | none => (some (KeyResult.key key), c1, bl)

/-- The function `GetAvailableKey`, lines 127-149, called at instant `now`. -/
def GetAvailableKey (u : Upstream) (now : Int) (s : State) : KeyResult × State :=
  if u.Keys.length = 0 then
    (KeyResult.notConfigured ("上游 '" ++ u.Name ++ "' 未配置 Key"), s)
  else
    let c0 := (s.upstreamStates u.Name).getD 0
    let r := keyLoop u.Keys now u.Keys.length c0 s.blacklist
    let s1 : State := { s with upstreamStates := mapStore s.upstreamStates u.Name r.2.1,
                               blacklist := r.2.2 }
    match r.1 with
    | some res => (res, s1)
    | none => (KeyResult.allCooling ("上游 '" ++ u.Name ++ "' 所有 Key 均在冷却中"), s1)

/-- The counter of an upstream as `LoadOrStore(u.Name, new(uint64))` sees it. -/
def counterOf (s : State) (name : String) : Nat := (s.upstreamStates name).getD 0

/-- A key is in cooldown at `now`: the blacklist holds an expiry after `now`. -/
def cooling (bl : String → Option Int) (now : Int) (k : String) : Bool :=
  match bl k with
  | some untilT => decide (now < untilT)
  | none => false

/-- `n` sequential calls of `GetAvailableKey` at the same instant; the results in
call order and the final state. -/
def callsOf (u : Upstream) (now : Int) : Nat → State → List KeyResult × State
  | 0, s => ([], s)
  | n + 1, s =>
    let r := GetAvailableKey u now s
    let rest := callsOf u now n r.2
    (r.1 :: rest.1, rest.2)

/-- The index tried at the `i`-th increment from counter `c` over `n` keys. -/
def triedIdx (c n i : Nat) : Nat := ((c + i) % uint64Size) % n

/-- The keys at the first `i - 1` tried indices are all in cooldown. -/
def allCoolingBefore (keys : List String) (bl : String → Option Int) (now : Int)
    (c j : Nat) : Prop :=
  ∀ i, 1 ≤ i → i < j → ∃ k, keys[triedIdx c keys.length i]? = some k ∧ cooling bl now k = true

/-! ## String helpers of the Go standard library -/

/-- The function `strings.TrimPrefix`. -/
def TrimPrefix (s pre : String) : String :=
  if pre.data.isPrefixOf s.data then ⟨s.data.drop pre.data.length⟩ else s

/-- Cut a text at its first `sep`: the text before it and the text after it. -/
def cutAt (sep : Char) : List Char → Option (List Char × List Char)
  | [] => none
  | c :: cs =>
    if c = sep then some ([], cs)
    else match cutAt sep cs with
      | some (a, b) => some (c :: a, b)
      | none => none

/-- The call `strings.SplitN(s, ":", 2)`: two parts when `s` holds a colon, cut at
the first one, and `s` alone otherwise. -/
def splitColon2 (s : String) : List String :=
  match cutAt ':' s.data with
  | some (a, b) => [⟨a⟩, ⟨b⟩]
  | none => [s]

/-! ## Notifier (`main.go` lines 152-232) -/

/-- Bytes that a slice has cut off their character: they are no character, and each
is shown as U+FFFD, the form in which `json.Marshal` (line 199) posts it. -/
def strayBytes (n : Nat) : List Char := List.replicate n (Char.ofNat 65533)

/-- The first `n` bytes of a text in UTF-8, the slice `s[:n]`. -/
def takeBytes : Nat → List Char → List Char
  | _, [] => []
  | n, c :: cs =>
    if c.utf8Size ≤ n then c :: takeBytes (n - c.utf8Size) cs else strayBytes n

/-- A text in UTF-8 without its first `n` bytes, the slice `s[n:]`. -/
def dropBytes : Nat → List Char → List Char
  | _, [] => []
  | n, c :: cs =>
    if n = 0 then c :: cs
    else if c.utf8Size ≤ n then dropBytes (n - c.utf8Size) cs
    else strayBytes (c.utf8Size - n) ++ cs

/-- The function `maskKey`, lines 152-157. `len(key)` and the two slices count bytes
of UTF-8. -/
def maskKey (key : String) : String :=
  if key.utf8ByteSize ≤ 8 then "****"
  else ⟨takeBytes 4 key.data⟩ ++ "..." ++ ⟨dropBytes (key.utf8ByteSize - 4) key.data⟩

/-- The function `getNotifyKey`, lines 160-162: `fmt.Sprintf("%s|%s|%d", ...)`. -/
def getNotifyKey (upstream model : String) (statusCode : Int) : String :=
  upstream ++ "|" ++ model ++ "|" ++ toString statusCode

/-- One minute, `time.Minute`, in nanoseconds. -/
def minuteNs : Int := 60000000000

/-- Reduction of an integer to the range of `int64` (two's complement). -/
def wrapInt64 (x : Int) : Int := (x + 2 ^ 63) % 2 ^ 64 - 2 ^ 63

/-- The method `Time.Sub`: the difference of two instants as a `time.Duration`,
saturating at the ends of the `int64` range. -/
def timeSub (t u : Int) : Int := max (-(2 ^ 63)) (min (2 ^ 63 - 1) (t - u))

/-- The function `sendNotification`, lines 165-232, called at instant `now`. The
goroutine it starts is recorded in `deliveries`; its HTTP exchange is not part of
the state. -/
def sendNotification (webhookURL upstream model : String) (statusCode : Int)
    (content : String) (now : Int) (s : State) : State :=
  if webhookURL = "" then s
  else
    let key := getNotifyKey upstream model statusCode
    let sent : State :=
      { s with notifyRecords := mapStore s.notifyRecords key
                 { Upstream := upstream, ModelName := model, StatusCode := statusCode,
                   LastSent := now },
               deliveries := s.deliveries ++ [{ key := key, content := content }] }
    match s.notifyRecords key with
    | some record => if timeSub now record.LastSent < 5 * minuteNs then s else sent
    | none => sent

/-! ## Replies and the outside world -/

/-- An entry of the model listing, the local type `ModelResponse` of `handleModels`. -/
structure ModelResponse where
  ID : String
  Object : String
  Created : Int
  OwnedBy : String
deriving DecidableEq, Repr

/-- What the client receives. -/
inductive Reply where
  /-- A JSON error object written by the proxy with the given status. -/
  | abortJSON (status : Nat) (error : String)
  /-- The 200 answer of `handleModels`. -/
  | models (data : List ModelResponse)
  /-- The upstream response streamed through with the upstream status. -/
  | relayed (status : Int)
  /-- The 503 answer of `forwardWithRetry`, lines 637-640. -/
  | unavailable (msg : String)
  /-- The handler returns without writing an answer (line 587). -/
  | disconnected
  /-- A run-time fault inside the handler: it writes nothing, and the `Recovery`
  middleware of line 261 takes over. -/
  | panicked
deriving DecidableEq, Repr

/-- The HTTP status of a reply, when one is written by the handler. -/
def Reply.status : Reply → Option Int
  | Reply.abortJSON st _ => some st
  | Reply.models _ => some 200
  | Reply.relayed st => some st
  | Reply.unavailable _ => some 503
  | Reply.disconnected => none
  | Reply.panicked => none

/-- The outcome of `httpClient.Do(req)`, line 581. -/
inductive DoResult where
  /-- An error that is `io.EOF`. The request body is a buffer in memory (lines 429
  and 567), so the end of stream is the upstream's: it closed the connection before
  answering. -/
  | eof
  /-- An error that is the error of the request context: the client went away or
  its deadline passed. -/
  | contextError
  /-- Any other error, with its text. -/
  | networkError (err : String)
  /-- A response with this status code. -/
  | response (status : Int)
deriving DecidableEq, Repr

/-- What one pass of the retry loop reads from outside. -/
structure AttemptEnv where
  /-- The clock as `GetAvailableKey` reads it. -/
  nowKey : Int
  /-- The outcome of the upstream call. -/
  result : DoResult
  /-- The clock at `blacklist.Store`, line 598. -/
  nowStore : Int
  /-- The text of `time.Now().Format("15:04:05")`, line 602. -/
  clockText : String
  /-- The clock inside `sendNotification`, line 603. -/
  nowNotify : Int

/-- What a call of `forwardWithRetry` reads from outside. -/
structure ForwardEnv where
  /-- Whether `url.Parse(upstream.BaseURL)` succeeds, line 557. -/
  urlParseOk : Bool
  /-- Whether `http.NewRequest` succeeds, line 567. -/
  newRequestOk : Bool
  /-- The environment of the pass with loop variable `retry`. -/
  attempt : Nat → AttemptEnv
  /-- The clock inside the final `sendNotification`, line 635. -/
  nowFinal : Int

/-- What `json.Unmarshal(bodyBytes, &jsonBody)` of line 456 leaves, `jsonBody` being
declared without a value (a nil map) on line 455. -/
inductive Decoded (α : Type) where
  /-- The call returns an error. -/
  | error
  /-- The call returns no error and `jsonBody` is still nil: the body is the JSON
  literal `null`. -/
  | nilMap
  /-- The call returns no error and `jsonBody` is this map. -/
  | object (m : α)
deriving DecidableEq, Repr

/-- The part of `encoding/json` the handler uses. A `map[string]interface{}` is held
as its entries, one for each key. -/
structure JsonLib where
  /-- What an `interface{}` of a decoded map holds. -/
  Val : Type
  /-- A Go string held in an `interface{}`. -/
  ofString : String → Val
  /-- The field `Model` after `json.Unmarshal(bodyBytes, &reqInfo)`, line 439. -/
  decodeModel : String → String
  /-- The call `json.Unmarshal(bodyBytes, &jsonBody)`, line 456. -/
  decodeObject : String → Decoded (List (String × Val))
  /-- The call `json.Marshal(jsonBody)`, line 458; `none` on error. -/
  encodeObject : List (String × Val) → Option String

/-- The assignment `m[k] = v` on a map that is not nil, held as its entries. -/
def setMember {β : Type} (k : String) (v : β) : List (String × β) → List (String × β)
  | [] => [(k, v)]
  | (k1, v1) :: rest => if k1 = k then (k, v) :: rest else (k1, v1) :: setMember k v rest

/-- The value `m[k]` of a map held as its entries. -/
def mapGet {β : Type} (k : String) : List (String × β) → Option β
  | [] => none
  | (k1, v1) :: rest => if k1 = k then some v1 else mapGet k rest

/-- The inbound request as the handlers read it from the `gin.Context`. -/
structure Request where
  Method : String
  /-- The parameter `c.Param("path")`. -/
  Path : String
  /-- The header `c.GetHeader("Authorization")`. -/
  Authorization : String
  /-- The result of `c.GetRawData()`; `none` when reading fails. -/
  RawData : Option String
deriving DecidableEq, Repr

/-- A request sent to an upstream by `httpClient.Do`. -/
structure OutboundCall where
  Upstream : String
  Key : String
  Body : String
deriving DecidableEq, Repr

/-- The observable result of a handler run. -/
structure HandlerResult where
  reply : Reply
  state : State
  /-- The number of calls of `GetAvailableKey`. -/
  attempts : Nat
  /-- The upstream calls made, oldest first. -/
  calls : List OutboundCall

/-! ## Forwarder (`main.go` lines 541-641) -/

/-- The call `blacklist.Store(k, untilT)` of line 598. -/
def blacklistStore (s : State) (k : String) (untilT : Int) : State :=
  { s with blacklist := mapStore s.blacklist k untilT }

/-- The state with the blacklist entry of `k` removed. -/
def blacklistDelete (s : State) (k : String) : State :=
  { s with blacklist := mapDelete s.blacklist k }

/-- The test of line 594 on the upstream status. -/
def retryableStatus (status : Int) : Bool :=
  status == 401 || status == 429 || decide (status ≥ 500)

/-- The value `time.Duration(srvCfg.CoolDownMinutes) * time.Minute` of line 598, an
`int64` product. -/
def coolDown (srvCfg : ServerConfig) : Int := wrapInt64 (srvCfg.CoolDownMinutes * minuteNs)

/-- The text of `lastErr` under the verb `%v`. -/
def errText : Option String → String
  | some e => e
  | none => "<nil>"

/-- The alert text of lines 601-602. -/
def alertMsg (upstreamName : String) (status : Int) (realKey projectName modelName
    clockText : String) : String :=
  "⚠️ [AI-Proxy Alert]\nUpstream: " ++ upstreamName ++ "\nStatus: " ++ toString status
    ++ "\nKey: " ++ maskKey realKey ++ "\nProject: " ++ projectName ++ "\nModel: " ++ modelName
    ++ "\nTime: " ++ clockText

/-- The text of line 634. -/
def failMsg (projectName modelName : String) (lastErr : Option String) : String :=
  "❌ [AI-Proxy Fail]\nAll retries exhausted for Project: " ++ projectName ++ " (Model: "
    ++ modelName ++ ").\nLast Error: " ++ errText lastErr

/-- Lines 633-640: the code after the retry loop. -/
def retriesExhausted (upstream : Upstream) (srvCfg : ServerConfig)
    (projectName modelName : String) (env : ForwardEnv) (lastErr : Option String)
    (s : State) : HandlerResult :=
  { reply := Reply.unavailable ("Retries exhausted. Last error: " ++ errText lastErr),
    state := sendNotification srvCfg.NotificationWebhook upstream.Name modelName 0
               (failMsg projectName modelName lastErr) env.nowFinal s,
    attempts := 0, calls := [] }

/-- One more pass of the loop was made before `r`, with the upstream calls `cs`. -/
def afterAttempt (cs : List OutboundCall) (r : HandlerResult) : HandlerResult :=
  { r with attempts := r.attempts + 1, calls := cs ++ r.calls }

/-- How one pass of the retry loop ends. -/
inductive PassResult where
  /-- The handler returns (lines 560, 570, 587 and 630). -/
  | finished (r : HandlerResult)
  /-- No key was available: the `continue` of line 550, with the new `lastErr` and
  the new state. -/
  | noKey (lastErr : String) (s : State)
  /-- The upstream call failed with `shouldRetry` set, lines 590 and 606; with the
  upstream calls made, the new `lastErr` and the new state. -/
  | failed (calls : List OutboundCall) (lastErr : String) (s : State)

/-- The body of the retry loop, lines 545-630, for loop variable `retry`. -/
def attemptPass (upstream : Upstream) (srvCfg : ServerConfig) (body projectName
    modelName : String) (env : ForwardEnv) (retry : Nat) (s : State) : PassResult :=
  let e := env.attempt retry
  match GetAvailableKey upstream e.nowKey s with
  | (KeyResult.indexOutOfRange, s1) =>
    PassResult.finished { reply := Reply.panicked, state := s1, attempts := 1, calls := [] }
  | (KeyResult.notConfigured msg, s1) => PassResult.noKey msg s1
  | (KeyResult.allCooling msg, s1) => PassResult.noKey msg s1
  | (KeyResult.key realKey, s1) =>
    if !env.urlParseOk then
      PassResult.finished
        { reply := Reply.abortJSON 500 "Config error: invalid base_url", state := s1,
          attempts := 1, calls := [] }
    else if !env.newRequestOk then
      PassResult.finished
        { reply := Reply.abortJSON 500 "NewRequest failed", state := s1,
          attempts := 1, calls := [] }
    else
      let call : OutboundCall := { Upstream := upstream.Name, Key := realKey, Body := body }
      match e.result with
      | DoResult.eof =>
        PassResult.finished
          { reply := Reply.disconnected, state := s1, attempts := 1, calls := [call] }
      | DoResult.contextError =>
        PassResult.finished
          { reply := Reply.disconnected, state := s1, attempts := 1, calls := [call] }
      | DoResult.networkError err => PassResult.failed [call] err s1
      | DoResult.response status =>
        if retryableStatus status then
          let s2 := blacklistStore s1 realKey (e.nowStore + coolDown srvCfg)
          let s3 := sendNotification srvCfg.NotificationWebhook upstream.Name modelName status
            (alertMsg upstream.Name status realKey projectName modelName e.clockText)
            e.nowNotify s2
          PassResult.failed [call] ("status " ++ toString status) s3
        else
          PassResult.finished
            { reply := Reply.relayed status, state := s1, attempts := 1, calls := [call] }

/-- The loop `for retry := 0; retry <= srvCfg.MaxRetries; retry++` of lines 544-631
for `MaxRetries` below the largest `int`, where `retry++` does not overflow.
`remaining` counts the passes still allowed by the loop condition, so that
`remaining = MaxRetries + 1 - retry` while the condition holds and `0` when it
fails; `lastErr` is the variable of line 542. After a pass with `shouldRetry` set the
loop goes on when `retry < MaxRetries` (lines 612-615) and ends otherwise; after the
`continue` of line 550 it goes on when `retry + 1 <= MaxRetries`, the same test.
`retryLoop64` is the loop over the whole range of `int`. -/
def retryLoop (upstream : Upstream) (srvCfg : ServerConfig) (body projectName
    modelName : String) (env : ForwardEnv) :
    Nat → Nat → Option String → State → HandlerResult
  | 0, _, lastErr, s => retriesExhausted upstream srvCfg projectName modelName env lastErr s
  | remaining + 1, retry, _, s =>
    match attemptPass upstream srvCfg body projectName modelName env retry s with
    | PassResult.finished r => r
    | PassResult.noKey err s1 =>
      afterAttempt []
        (if (retry : Int) < srvCfg.MaxRetries then
          retryLoop upstream srvCfg body projectName modelName env remaining (retry + 1)
            (some err) s1
        else retriesExhausted upstream srvCfg projectName modelName env (some err) s1)
    | PassResult.failed cs err s1 =>
      afterAttempt cs
        (if (retry : Int) < srvCfg.MaxRetries then
          retryLoop upstream srvCfg body projectName modelName env remaining (retry + 1)
            (some err) s1
        else retriesExhausted upstream srvCfg projectName modelName env (some err) s1)

/-- The function `forwardWithRetry`, lines 541-641, for `MaxRetries` below the
largest `int`. -/
def forwardWithRetry (upstream : Upstream) (srvCfg : ServerConfig) (body projectName
    modelName : String) (env : ForwardEnv) (s : State) : HandlerResult :=
  retryLoop upstream srvCfg body projectName modelName env (srvCfg.MaxRetries + 1).toNat 0 none s

/-- How far a run of the retry loop has got. -/
inductive LoopRun where
  /-- The handler has returned with this result. -/
  | ended (r : HandlerResult)
  /-- The loop is still running after this many passes. -/
  | running (attempts : Nat)

/-- One more pass was made before the run, with the upstream calls `cs`. -/
def LoopRun.after (cs : List OutboundCall) : LoopRun → LoopRun
  | LoopRun.ended r => LoopRun.ended (afterAttempt cs r)
  | LoopRun.running n => LoopRun.running (n + 1)

/-- The statement `retry++` on the loop variable, an `int` of 64 bits. -/
def nextRetry (retry : Int) : Int := wrapInt64 (retry + 1)

/-- The loop of lines 544-631 with its variable `retry` as the 64-bit `int` it is,
followed for at most `fuel` passes: `pass` is the number of passes made so far, which
selects what the pass reads from outside. The loop condition `retry <= MaxRetries` is
tested before each pass; the `continue` of line 550 and the one of line 614 are
followed by `retry++`; the `break` of line 616 leads to the code after the loop. -/
def retryLoop64 (upstream : Upstream) (srvCfg : ServerConfig) (body projectName
    modelName : String) (env : ForwardEnv) :
    Nat → Nat → Int → Option String → State → LoopRun
  | 0, _, _, _, _ => LoopRun.running 0
  | fuel + 1, pass, retry, lastErr, s =>
    if retry ≤ srvCfg.MaxRetries then
      match attemptPass upstream srvCfg body projectName modelName env pass s with
      | PassResult.finished r => LoopRun.ended r
      | PassResult.noKey err s1 =>
        (retryLoop64 upstream srvCfg body projectName modelName env fuel (pass + 1)
          (nextRetry retry) (some err) s1).after []
      | PassResult.failed cs err s1 =>
        if retry < srvCfg.MaxRetries then
          (retryLoop64 upstream srvCfg body projectName modelName env fuel (pass + 1)
            (nextRetry retry) (some err) s1).after cs
        else
          LoopRun.ended (afterAttempt cs
            (retriesExhausted upstream srvCfg projectName modelName env (some err) s1))
    else LoopRun.ended (retriesExhausted upstream srvCfg projectName modelName env lastErr s)

/-- The function `forwardWithRetry`, lines 541-641, over the whole range of
`MaxRetries`, followed for at most `fuel` passes of its loop. -/
def forwardWithRetry64 (upstream : Upstream) (srvCfg : ServerConfig) (body projectName
    modelName : String) (env : ForwardEnv) (fuel : Nat) (s : State) : LoopRun :=
  retryLoop64 upstream srvCfg body projectName modelName env fuel 0 0 none s

/-! ## Model listing (`main.go` lines 283-393) -/

/-- The first entry of `authList` whose `APIKey` is the client key: the loops of
lines 297-303 and 415-421. -/
def findProject (clientKey : String) : List ProjectKey → Option ProjectKey
  | [] => none
  | p :: ps => if p.APIKey = clientKey then some p else findProject clientKey ps

/-- The membership loops of lines 322-327, 338-343 and 370-375. -/
def hasModel (m : String) : List String → Bool
  | [] => false
  | x :: xs => if x = m then true else hasModel m xs

/-- The loop over `u.Models`, lines 331-355; `acc` is `responseList` and `seen` the
set of ids met so far. -/
def listModelsOf (allowAll : Bool) (allowedModels : List String) (owner : String)
    (nowUnix : Int) : List String → List ModelResponse × List String →
    List ModelResponse × List String
  | [], acc => acc
  | m :: ms, (out, seen) =>
    if m = "*" then listModelsOf allowAll allowedModels owner nowUnix ms (out, seen)
    else if !hasModel m seen then
      let isAllowed := allowAll || hasModel m allowedModels
      if isAllowed then
        listModelsOf allowAll allowedModels owner nowUnix ms
          (out ++ [{ ID := m, Object := "model", Created := nowUnix, OwnedBy := owner }],
           m :: seen)
      else listModelsOf allowAll allowedModels owner nowUnix ms (out, seen)
    else listModelsOf allowAll allowedModels owner nowUnix ms (out, seen)

/-- The loop over `upstreams`, lines 330-356. -/
def listPhysical (allowAll : Bool) (allowedModels : List String) (nowUnix : Int) :
    List Upstream → List ModelResponse × List String → List ModelResponse × List String
  | [], acc => acc
  | u :: us, acc =>
    listPhysical allowAll allowedModels nowUnix us
      (listModelsOf allowAll allowedModels u.Name nowUnix u.Models acc)

/-- The real model of an alias target, lines 360-366 and 447-453. -/
def realModelOf (mapVal : String) : String :=
  match splitColon2 mapVal with
  | [_, b] => b
  | a :: _ => a
  | [] => ""

/-- The loop over `srvCfg.AutoModels`, lines 359-387. -/
def listAuto (allowAll : Bool) (allowedModels : List String) (nowUnix : Int) :
    List (String × String) → List ModelResponse × List String →
    List ModelResponse × List String
  | [], acc => acc
  | (reqKey, mapVal) :: rest, (out, seen) =>
    let canUseTarget := allowAll || hasModel (realModelOf mapVal) allowedModels
    if canUseTarget && !hasModel reqKey seen then
      listAuto allowAll allowedModels nowUnix rest
        (out ++ [{ ID := reqKey, Object := "model", Created := nowUnix,
                   OwnedBy := "system-auto-map" }],
         reqKey :: seen)
    else listAuto allowAll allowedModels nowUnix rest (out, seen)

/-- The function `handleModels`, lines 283-393; `nowUnix` is `time.Now().Unix()`. -/
def handleModels (cfg : Config) (req : Request) (nowUnix : Int) : Reply :=
  let clientKey := TrimPrefix req.Authorization "Bearer "
  match findProject clientKey cfg.ProjectAuth with
  | none => Reply.abortJSON 401 "Invalid API Key"
  | some p =>
    let allowedModels := p.AllowedModels
    let allowAll := hasModel "*" allowedModels
    let phys := listPhysical allowAll allowedModels nowUnix cfg.Upstreams ([], [])
    Reply.models (listAuto allowAll allowedModels nowUnix cfg.Server.AutoModels phys).1

/-! ## Request handler (`main.go` lines 395-539) -/

/-- The map lookup `srvCfg.AutoModels[k]`, line 445. -/
def autoLookup (k : String) : List (String × String) → Option String
  | [] => none
  | (a, v) :: rest => if a = k then some v else autoLookup k rest

/-- Lines 435-440: the field `reqInfo.Model` after the body is decoded. -/
def requestedModel (lib : JsonLib) (bodyBytes : String) : String :=
  if bodyBytes.length > 0 then lib.decodeModel bodyBytes else ""

/-- Lines 443-462 without the body rewrite: the pinned upstream name (empty when
none) and the effective model. -/
def resolveAlias (autoModels : List (String × String)) (reqModel : String) : String × String :=
  match autoLookup reqModel autoModels with
  | some mapVal =>
    match splitColon2 mapVal with
    | [a, b] => (a, b)
    | a :: _ => ("", a)
    | [] => ("", reqModel)
  | none => ("", reqModel)

/-- Lines 455-461: the new value of `bodyBytes`, the body with its top-level `model`
replaced, or the body as it was when it does not decode or encode; `none` when the
assignment of line 457 is made to a nil map, a run-time panic. -/
def rewriteBody (lib : JsonLib) (bodyBytes model : String) : Option String :=
  match lib.decodeObject bodyBytes with
  | Decoded.error => some bodyBytes
  | Decoded.nilMap => none
  | Decoded.object jsonBody =>
    match lib.encodeObject (setMember "model" (lib.ofString model) jsonBody) with
    | some newBytes => some newBytes
    | none => some bodyBytes

/-- The value of `bodyBytes` after lines 445-462: rewritten when the requested model
is an alias, as received otherwise; `none` when line 457 panics. -/
def forwardedBody (lib : JsonLib) (autoModels : List (String × String))
    (bodyBytes : String) : Option String :=
  if (autoLookup (requestedModel lib bodyBytes) autoModels).isSome then
    rewriteBody lib bodyBytes (resolveAlias autoModels (requestedModel lib bodyBytes)).2
  else some bodyBytes

/-- The permission loop of lines 465-471. -/
def isAllowed (model : String) : List String → Bool
  | [] => false
  | m :: ms => if m = "*" ∨ m = model then true else isAllowed model ms

/-- The loop of lines 486-491. -/
def supportsModel (model : String) : List String → Bool
  | [] => false
  | m :: ms => if m = "*" ∨ m = model then true else supportsModel model ms

/-- The loop of lines 483-497: the first upstream with the pinned name, if it
supports the model. -/
def pinnedPass (name model : String) : List Upstream → Option Upstream
  | [] => none
  | u :: us =>
    if u.Name = name then (if supportsModel model u.Models then some u else none)
    else pinnedPass name model us

/-- The loops of lines 505-515 (with `m` the effective model) and 517-527 (with
`m` the text `*`): the first upstream whose models hold `m`. -/
def scanPass (m : String) : List Upstream → Option Upstream
  | [] => none
  | u :: us => if hasModel m u.Models then some u else scanPass m us

/-- Lines 480-536: the target upstream, or `none` when the request is answered
with 400. -/
def matchUpstream (upstreams : List Upstream) (targetUpstreamName model : String) :
    Option Upstream :=
  if targetUpstreamName ≠ "" then pinnedPass targetUpstreamName model upstreams
  else
    match scanPass model upstreams with
    | some u => some u
    | none => scanPass "*" upstreams

/-- The answer written when no target is found, lines 498-502 and 531-535. -/
def noUpstreamReply (targetUpstreamName model : String) : Reply :=
  if targetUpstreamName ≠ "" then
    Reply.abortJSON 400 ("Target upstream '" ++ targetUpstreamName
      ++ "' not found or does not support model '" ++ model ++ "'")
  else Reply.abortJSON 400 ("No upstream found for model: " ++ model)

/-- A handler run that ends without touching the state. -/
def answer (r : Reply) (s : State) : HandlerResult :=
  { reply := r, state := s, attempts := 0, calls := [] }

/-- The function `handleRequest`, lines 395-539. -/
def handleRequest (lib : JsonLib) (cfg : Config) (req : Request) (nowUnix : Int)
    (env : ForwardEnv) (s : State) : HandlerResult :=
  if req.Method = "GET" ∧ (req.Path = "/models" ∨ req.Path = "/models/") then
    answer (handleModels cfg req nowUnix) s
  else
    let clientKey := TrimPrefix req.Authorization "Bearer "
    let found := findProject clientKey cfg.ProjectAuth
    let projectName := match found with | some p => p.ProjectName | none => ""
    let allowedModels := match found with | some p => p.AllowedModels | none => []
    if projectName = "" then answer (Reply.abortJSON 401 "Unauthorized Project Key") s
    else
      match req.RawData with
      | none => answer (Reply.abortJSON 400 "Read body failed") s
      | some bodyBytes =>
        let reqModel := requestedModel lib bodyBytes
        let target := resolveAlias cfg.Server.AutoModels reqModel
        match forwardedBody lib cfg.Server.AutoModels bodyBytes with
        | none => answer Reply.panicked s
        | some body =>
          if !isAllowed target.2 allowedModels then
            answer (Reply.abortJSON 403 ("Model '" ++ target.2
              ++ "' is not allowed for project '" ++ projectName ++ "'")) s
          else
            match matchUpstream cfg.Upstreams target.1 target.2 with
            | none => answer (noUpstreamReply target.1 target.2) s
            | some u => forwardWithRetry u cfg.Server body projectName target.2 env s

/-! ## Notions used to state the properties of the request handler -/

/-- The effective model of a request: the real model of the alias target when the
requested model is a key of `auto_models`, the requested model otherwise. -/
def effectiveModel (autoModels : List (String × String)) (reqModel : String) : String :=
  match autoLookup reqModel autoModels with
  | some mapVal => realModelOf mapVal
  | none => reqModel

/-- The library decodes what it wrote for the map `m` back to the entries of `m`:
the round trip of `json.Marshal` and `json.Unmarshal` on a decoded map. -/
def RoundTrips (lib : JsonLib) (m : List (String × lib.Val)) : Prop :=
  ∀ b, lib.encodeObject m = some b →
    ∃ m2, lib.decodeObject b = Decoded.object m2 ∧ ∀ k, mapGet k m2 = mapGet k m

/-- The request is one that `handleRequest` hands to `handleModels`, line 397. -/
def isModelsRequest (req : Request) : Prop :=
  req.Method = "GET" ∧ (req.Path = "/models" ∨ req.Path = "/models/")

instance (req : Request) : Decidable (isModelsRequest req) := by
  unfold isModelsRequest; infer_instance

/-! ## Notions used to state the properties of the forwarder -/

/-- Every one of the next `n` passes of the retry loop, the first with loop variable
`retry` from state `s`, is a retryable failure. -/
def allPassesFail (upstream : Upstream) (srvCfg : ServerConfig) (body projectName
    modelName : String) (env : ForwardEnv) : Nat → Nat → State → Bool
  | 0, _, _ => true
  | n + 1, retry, s =>
    match attemptPass upstream srvCfg body projectName modelName env retry s with
    | PassResult.noKey _ s1 =>
      allPassesFail upstream srvCfg body projectName modelName env n (retry + 1) s1
    | PassResult.failed _ _ s1 =>
      allPassesFail upstream srvCfg body projectName modelName env n (retry + 1) s1
    | PassResult.finished _ => false

/-- Whether a pass is a retryable failure. -/
def PassResult.isFailed : PassResult → Bool
  | PassResult.noKey _ _ => true
  | PassResult.failed _ _ _ => true
  | PassResult.finished _ => false

/-- The state a pass leaves. -/
def PassResult.state : PassResult → State
  | PassResult.noKey _ s => s
  | PassResult.failed _ _ s => s
  | PassResult.finished r => r.state

/-! ## Concrete inputs used by the checks below -/

/-- Whether a result of `GetAvailableKey` is one of its two errors. -/
def KeyResult.isError : KeyResult → Bool
  | KeyResult.notConfigured _ => true
  | KeyResult.allCooling _ => true
  | _ => false

/-- An upstream with three keys. -/
def threeKeys : Upstream := { Name := "A", BaseURL := "http://a", Models := ["gpt-x"],
                              Keys := ["a", "b", "c"] }

/-- A state whose counter for `A` is `2 ^ 64 - 2` and whose blacklist holds `a` and
`b` until instant 10. -/
def nearWrapState : State :=
  { State.init with
    upstreamStates := fun _ => some (2 ^ 64 - 2),
    blacklist := fun k => if k = "a" ∨ k = "b" then some 10 else none }

/-- A server configuration without retries whose cooldown is `m` minutes. -/
def serverWith (maxRetries coolDownMinutes : Int) : ServerConfig :=
  { Port := "8080", MaxRetries := maxRetries, CoolDownMinutes := coolDownMinutes,
    NotificationWebhook := "http://hook", AutoModels := [] }

/-- An environment in which every upstream call is answered with status `st` and
every clock reading is 0. -/
def alwaysStatus (st : Int) : ForwardEnv :=
  { urlParseOk := true, newRequestOk := true,
    attempt := fun _ => { nowKey := 0, result := DoResult.response st, nowStore := 0,
                          clockText := "12:00:00", nowNotify := 0 },
    nowFinal := 0 }

/-- The body `\x7b"model":"m"\x7d`. -/
def modelBody (m : String) : String := "\x7b\"model\":\"" ++ m ++ "\"\x7d"

/-- A configuration with the upstream `threeKeys`, one project and one alias. -/
def sampleConfig (projectName : String) (allowed : List String) (aliasTarget : String) :
    Config :=
  { Server := { Port := "8080", MaxRetries := 0, CoolDownMinutes := 5,
                NotificationWebhook := "http://hook", AutoModels := [("fast", aliasTarget)] },
    Upstreams := [threeKeys],
    ProjectAuth := [{ ProjectName := projectName, APIKey := "t1", AllowedModels := allowed }] }

/-- A `POST /v1/chat/completions` with token `t1` asking for model `m`. -/
def postFor (m : String) : Request :=
  { Method := "POST", Path := "/chat/completions", Authorization := "Bearer t1",
    RawData := some (modelBody m) }

/-- A `GET /v1/models` with token `t1`. -/
def getModels : Request :=
  { Method := "GET", Path := "/models", Authorization := "Bearer t1", RawData := some "" }

/-- A state whose counter for `A` is `2 ^ 64 - 1`, with an empty blacklist. -/
def lastCounterState : State :=
  { State.init with upstreamStates := fun _ => some (2 ^ 64 - 1) }

/-- The result of the call that stops with the counter at `j`: the key at index
`j % n` when it is not in cooldown. -/
def pickAt (keys : List String) (bl : String → Option Int) (now : Int) (j : Nat) :
    Option KeyResult :=
  match keys[j % keys.length]? with
  | some k => if cooling bl now k then none else some (KeyResult.key k)
  | none => none

/-- The state after one notification for `(A, gpt-x, 500)` was sent at instant 0. -/
def notifiedAtZero : State :=
  sendNotification "http://hook" "A" "gpt-x" 500 "first" 0 State.init

/-! ## Headers (`main.go` lines 234-252) -/

/-- The type `http.Header`: the values held under each name, `none` for a name the
map does not hold. -/
abbrev Header := String → Option (List String)

/-- The bytes allowed in a header name, `validHeaderFieldByte` of `net/textproto`. -/
def validHeaderFieldChar (c : Char) : Bool :=
  c.isAlphanum || "!#$%&'*+-.^_`|~".data.contains c

/-- The letter-case pass of `net/textproto`: upper case at the start and after a
hyphen, lower case elsewhere. -/
def canonicalCase : Bool → List Char → List Char
  | _, [] => []
  | upper, c :: cs =>
    let c1 := if upper then c.toUpper else c.toLower
    c1 :: canonicalCase (c1 == '-') cs

/-- The function `http.CanonicalHeaderKey` of the Go standard library: a name made
of valid bytes is put in canonical letter case, any other name is returned as is. -/
def CanonicalHeaderKey (s : String) : String :=
  if s.data.all validHeaderFieldChar then ⟨canonicalCase true s.data⟩ else s

/-- The method `Header.Add`: the value is appended under the canonical name. -/
def headerAdd (canon : String → String) (h : Header) (k v : String) : Header :=
  mapStore h (canon k) ((h (canon k)).getD [] ++ [v])

/-- The names of the `case` of `isHopByHop`, lines 247-248. -/
def hopByHopNames : List String :=
  ["Connection", "Keep-Alive", "Proxy-Authenticate", "Proxy-Authorization",
   "Te", "Trailers", "Transfer-Encoding", "Upgrade"]

/-- The function `isHopByHop`, lines 245-252; `canon` is `http.CanonicalHeaderKey`. -/
def isHopByHop (canon : String → String) (h : String) : Bool :=
  decide (canon h ∈ hopByHopNames)

/-- The loop `for _, v := range vv`, lines 239-241. -/
def addValues (canon : String → String) (k : String) : List String → Header → Header
  | [], dst => dst
  | v :: vs, dst => addValues canon k vs (headerAdd canon dst k v)

/-- The function `copyHeaders`, lines 234-243. The source map is given as its
entries in the order in which `range` visits them. -/
def copyHeaders (canon : String → String) : List (String × List String) → Header → Header
  | [], dst => dst
  | (k, vv) :: rest, dst =>
    if isHopByHop canon k then copyHeaders canon rest dst
    else copyHeaders canon rest (addValues canon k vv dst)

/-- The values of the source entries that are not hop-by-hop and whose canonical
name is `name`, entry after entry, each entry's values in their order. -/
def copiedValues (canon : String → String) (name : String) :
    List (String × List String) → List String
  | [] => []
  | (k, vv) :: rest =>
    (if canon k ∉ hopByHopNames ∧ canon k = name then vv else [])
      ++ copiedValues canon name rest

/-- A source map with hop-by-hop names in several letter cases. -/
def mixedCaseHeaders : List (String × List String) :=
  [("connection", ["close"]), ("KEEP-ALIVE", ["timeout=5"]), ("x-trace", ["1", "2"]),
   ("transfer-Encoding", ["chunked"]), ("Accept", ["*/*"])]

/-! ## Notions used to state the properties of the model listing -/

/-- The first set of C14: a model other than `*` that some upstream lists and the
allow-list permits. -/
def inPhysicalSet (cfg : Config) (allowed : List String) (m : String) : Prop :=
  m ≠ "*" ∧ (∃ u ∈ cfg.Upstreams, m ∈ u.Models) ∧ ("*" ∈ allowed ∨ m ∈ allowed)

/-- The second set of C14: an alias key whose target has a real model that the
allow-list permits. -/
def inAliasSet (cfg : Config) (allowed : List String) (a : String) : Prop :=
  ∃ v, (a, v) ∈ cfg.Server.AutoModels ∧ ("*" ∈ allowed ∨ realModelOf v ∈ allowed)

/-- A configuration with the upstream `threeKeys`, the project `P` with token `t1`
and one alias. -/
def configWithAlias (allowed : List String) (aliasKey aliasTarget : String) : Config :=
  { Server := { Port := "8080", MaxRetries := 0, CoolDownMinutes := 5,
                NotificationWebhook := "http://hook",
                AutoModels := [(aliasKey, aliasTarget)] },
    Upstreams := [threeKeys],
    ProjectAuth := [{ ProjectName := "P", APIKey := "t1", AllowedModels := allowed }] }

/-! ## A model of `encoding/json` on flat objects

The handler takes the library as a parameter. `sampleJson` is its behaviour on the
bodies used as examples below: the literal `null`, and objects whose members are
texts, non-negative integers below `2 ^ 54`, booleans and `null`, written with the
two-character escapes and without `\u`. A body that is not a JSON text is rejected,
as the library does; a JSON text outside this fragment (nested values, fractions,
exponents, signs, `\u` escapes, integers from `2 ^ 54` on) is rejected too, which is
not claimed of the library. -/

/-- The value of a top-level member in the fragment. -/
inductive JsonValue where
  | null
  | bool (b : Bool)
  | int (n : Nat)
  | text (s : String)
deriving DecidableEq, Repr

/-- The four hexadecimal digits, in lower case, of a code point below `2 ^ 16`. -/
def hex4 (n : Nat) : List Char :=
  [Nat.digitChar (n / 4096 % 16), Nat.digitChar (n / 256 % 16),
   Nat.digitChar (n / 16 % 16), Nat.digitChar (n % 16)]

/-- How `json.Marshal` writes one character of a string: the quote and the backslash
after a backslash; backspace, form feed, line feed, carriage return and tab as
`\b`, `\f`, `\n`, `\r`, `\t` (Go 1.22 and later); the other control characters, `<`,
`>`, `&`, U+2028 and U+2029 as `\u` and four digits; any other character as it is. -/
def escapeChar (c : Char) : List Char :=
  let n := c.toNat
  if n = 34 then [Char.ofNat 92, c]
  else if n = 92 then [Char.ofNat 92, c]
  else if n = 8 then [Char.ofNat 92, 'b']
  else if n = 12 then [Char.ofNat 92, 'f']
  else if n = 10 then [Char.ofNat 92, 'n']
  else if n = 13 then [Char.ofNat 92, 'r']
  else if n = 9 then [Char.ofNat 92, 't']
  else if n < 32 ∨ n = 60 ∨ n = 62 ∨ n = 38 ∨ n = 8232 ∨ n = 8233 then
    Char.ofNat 92 :: 'u' :: hex4 n
  else [c]

/-- The characters of a string as `json.Marshal` writes them between the quotes. -/
def escapeChars : List Char → List Char
  | [] => []
  | c :: cs => escapeChar c ++ escapeChars cs

/-- The JSON text of a string. -/
def renderString (s : String) : String :=
  ⟨Char.ofNat 34 :: (escapeChars s.data ++ [Char.ofNat 34])⟩

/-- The JSON text of a value. -/
def renderValue : JsonValue → String
  | JsonValue.null => "null"
  | JsonValue.bool true => "true"
  | JsonValue.bool false => "false"
  | JsonValue.int n => toString n
  | JsonValue.text s => renderString s

/-- The JSON text of the members of an object, in the order given. -/
def renderMembers : List (String × JsonValue) → String
  | [] => ""
  | [(k, v)] => renderString k ++ ":" ++ renderValue v
  | (k, v) :: rest => renderString k ++ ":" ++ renderValue v ++ "," ++ renderMembers rest

/-- The JSON text of an object. -/
def renderObject (members : List (String × JsonValue)) : String :=
  "\x7b" ++ renderMembers members ++ "\x7d"

/-- The `float64` nearest to an integer `n < 2 ^ 54`, ties to even: `n` itself up to
`2 ^ 53`; above, where the `float64` values are the even integers, an odd `n` goes
to its neighbour that is a multiple of 4. -/
def float64OfNat (n : Nat) : Nat :=
  if n ≤ 2 ^ 53 then n
  else if n % 2 = 0 then n
  else if (n + 1) % 4 = 0 then n + 1 else n - 1

/-- What a value becomes in a `map[string]interface{}`: a number becomes a
`float64`, any other value stays. -/
def goValue : JsonValue → JsonValue
  | JsonValue.int n => JsonValue.int (float64OfNat n)
  | v => v

/-- The map that decoding an object gives: member after member, a later member
with the same key replaces the earlier one. -/
def goMapOf : List (String × JsonValue) → List (String × JsonValue) →
    List (String × JsonValue)
  | [], acc => acc
  | (k, v) :: rest, acc => goMapOf rest (setMember k (goValue v) acc)

/-- The order of keys in `json.Marshal`: lexical, character by character. -/
def keyLess : List Char → List Char → Bool
  | _, [] => false
  | [], _ :: _ => true
  | a :: as, b :: bs =>
    if a.toNat < b.toNat then true
    else if b.toNat < a.toNat then false
    else keyLess as bs

/-- Insertion of an entry into entries sorted by key. -/
def insertByKey (e : String × JsonValue) :
    List (String × JsonValue) → List (String × JsonValue)
  | [] => [e]
  | e1 :: rest =>
    if keyLess e.1.data e1.1.data then e :: e1 :: rest else e1 :: insertByKey e rest

/-- The entries of a map in the order `json.Marshal` writes them, sorted by key. -/
def sortByKey : List (String × JsonValue) → List (String × JsonValue)
  | [] => []
  | e :: rest => insertByKey e (sortByKey rest)

/-- The field `Model` of `reqInfo` after decoding an object: the text of the last
member whose key is `model` up to letter case and whose value is a text. -/
def modelFieldOf : List (String × JsonValue) → String → String
  | [], acc => acc
  | (k, JsonValue.text s) :: rest, acc =>
    if k.data.map Char.toLower = "model".data then modelFieldOf rest s
    else modelFieldOf rest acc
  | (_, _) :: rest, acc => modelFieldOf rest acc

/-- JSON white space: space, tab, line feed, carriage return. -/
def isJsonSpace (c : Char) : Bool :=
  c.toNat = 32 || c.toNat = 9 || c.toNat = 10 || c.toNat = 13

/-- The text after its leading white space. -/
def skipSpace : List Char → List Char
  | [] => []
  | c :: cs => if isJsonSpace c then skipSpace cs else c :: cs

/-- The character a two-character escape stands for, given its second character. -/
def unescapeChar (e : Char) : Option Char :=
  if e.toNat = 34 ∨ e.toNat = 92 ∨ e.toNat = 47 then some e
  else if e = 'b' then some (Char.ofNat 8)
  else if e = 'f' then some (Char.ofNat 12)
  else if e = 'n' then some (Char.ofNat 10)
  else if e = 'r' then some (Char.ofNat 13)
  else if e = 't' then some (Char.ofNat 9)
  else none

/-- A string literal read from the character after its opening quote: its text and
what follows the closing quote. A control character ends the reading with a
failure. -/
def readString : List Char → Option (List Char × List Char)
  | [] => none
  | [c] => if c.toNat = 34 then some ([], []) else none
  | c :: d :: rest =>
    if c.toNat = 34 then some ([], d :: rest)
    else if c.toNat = 92 then
      match unescapeChar d, readString rest with
      | some x, some (t, r) => some (x :: t, r)
      | _, _ => none
    else if c.toNat < 32 then none
    else
      match readString (d :: rest) with
      | some (t, r) => some (c :: t, r)
      | none => none

/-- The digits at the start of a text, read as a decimal number continuing `acc`,
and what follows them. -/
def readDigits : List Char → Nat → Nat × List Char
  | [], acc => (acc, [])
  | c :: cs, acc =>
    if c.isDigit then readDigits cs (10 * acc + (c.toNat - 48)) else (acc, c :: cs)

/-- A value of the fragment read from the start of a text, and what follows it. -/
def readValue : List Char → Option (JsonValue × List Char)
  | 'n' :: 'u' :: 'l' :: 'l' :: rest => some (JsonValue.null, rest)
  | 't' :: 'r' :: 'u' :: 'e' :: rest => some (JsonValue.bool true, rest)
  | 'f' :: 'a' :: 'l' :: 's' :: 'e' :: rest => some (JsonValue.bool false, rest)
  | c :: rest =>
    if c.toNat = 34 then
      match readString rest with
      | some (t, r) => some (JsonValue.text ⟨t⟩, r)
      | none => none
    else if c = '0' then
      match rest with
      | d :: _ => if d.isDigit then none else some (JsonValue.int 0, rest)
      | [] => some (JsonValue.int 0, rest)
    else if c.isDigit then
      let p := readDigits (c :: rest) 0
      if p.1 < 2 ^ 54 then some (JsonValue.int p.1, p.2) else none
    else none
  | [] => none

/-- The members of an object read from the first character of a member to the end
of the text, which holds nothing but white space after the closing brace. `fuel`
bounds the number of members. -/
def readMembers : Nat → List Char → Option (List (String × JsonValue))
  | 0, _ => none
  | fuel + 1, cs =>
    match cs with
    | [] => none
    | q :: afterQuote =>
      if q.toNat ≠ 34 then none
      else
        match readString afterQuote with
        | none => none
        | some (k, afterKey) =>
          match skipSpace afterKey with
          | [] => none
          | colon :: afterColon =>
            if colon.toNat ≠ 58 then none
            else
              match readValue (skipSpace afterColon) with
              | none => none
              | some (v, afterValue) =>
                match skipSpace afterValue with
                | [] => none
                | e :: afterEnd =>
                  if e.toNat = 125 then
                    (if (skipSpace afterEnd).isEmpty then some [(⟨k⟩, v)] else none)
                  else if e.toNat = 44 then
                    match readMembers fuel (skipSpace afterEnd) with
                    | some ms => some ((⟨k⟩, v) :: ms)
                    | none => none
                  else none

/-- The members of the object a body is the JSON text of, in their order; `none`
for any other body. -/
def parseObject (body : String) : Option (List (String × JsonValue)) :=
  match skipSpace body.data with
  | [] => none
  | c :: rest =>
    if c.toNat ≠ 123 then none
    else
      match skipSpace rest with
      | [] => none
      | d :: rest2 =>
        if d.toNat = 125 then (if (skipSpace rest2).isEmpty then some [] else none)
        else readMembers body.length (d :: rest2)

/-- Whether a body is the JSON literal `null`, white space apart. -/
def isNullBody (body : String) : Bool :=
  match skipSpace body.data with
  | 'n' :: 'u' :: 'l' :: 'l' :: rest => (skipSpace rest).isEmpty
  | _ => false

/-- The behaviour of `encoding/json` on the bodies of the fragment. -/
@[reducible] def sampleJson : JsonLib :=
  { Val := JsonValue,
    ofString := JsonValue.text,
    decodeModel := fun b =>
      match parseObject b with
      | some o => modelFieldOf o ""
      | none => "",
    decodeObject := fun b =>
      if isNullBody b then Decoded.nilMap
      else
        match parseObject b with
        | some o => Decoded.object (goMapOf o [])
        | none => Decoded.error,
    encodeObject := fun m => some (renderObject (sortByKey m)) }

/-- An object asking for the alias `fast` with an integer member `seed`. -/
def seedObject (seed : Nat) : List (String × JsonValue) :=
  [("model", JsonValue.text "fast"), ("seed", JsonValue.int seed)]

/-- A `POST /v1/chat/completions` with token `t1` whose body is the text of
`members`. -/
def postObject (members : List (String × JsonValue)) : Request :=
  { Method := "POST", Path := "/chat/completions", Authorization := "Bearer t1",
    RawData := some (renderObject members) }

/-- A `POST /v1/chat/completions` with token `t1` and the given body. -/
def postBody (body : String) : Request :=
  { Method := "POST", Path := "/chat/completions", Authorization := "Bearer t1",
    RawData := some body }

/-- An upstream without keys. -/
def noKeys : Upstream := { Name := "A", BaseURL := "http://a", Models := ["gpt-x"], Keys := [] }

/-- An environment in which the upstream closes the connection of every call before
answering, and every clock reading is 0. -/
def upstreamCloses : ForwardEnv :=
  { urlParseOk := true, newRequestOk := true,
    attempt := fun _ => { nowKey := 0, result := DoResult.eof, nowStore := 0,
                          clockText := "12:00:00", nowNotify := 0 },
    nowFinal := 0 }

/-! ## Lemmas on the key rotator -/

theorem mapDelete_of_none {β : Type} (m : String → Option β) (k : String) (h : m k = none) :
    mapDelete m k = m := by
  funext x
  unfold mapDelete
  split
  · next hx => rw [hx, h]
  · rfl

theorem uint64_succ_add (c i : Nat) :
    ((c + 1) % uint64Size + i) % uint64Size = (c + (i + 1)) % uint64Size := by
  rw [Nat.add_mod, Nat.mod_mod, ← Nat.add_mod]
  congr 1
  omega

theorem triedIdx_succ (c n i : Nat) :
    triedIdx ((c + 1) % uint64Size) n i = triedIdx c n (i + 1) := by
  unfold triedIdx
  rw [uint64_succ_add]

/-- What the loop of `GetAvailableKey` does on a non-empty key list: either all
`r` tried keys are in cooldown and the loop ends, or it stops at the first tried
key that is not, returning it and deleting its blacklist entry. -/
theorem keyLoop_cases (keys : List String) (now : Int) (hn : 0 < keys.length) :
    ∀ (r c : Nat) (bl : String → Option Int),
      ((∃ c1, keyLoop keys now r c bl = (none, c1, bl) ∧ (1 ≤ r → c1 = (c + r) % uint64Size))
        ∧ allCoolingBefore keys bl now c (r + 1))
      ∨ ∃ j k, 1 ≤ j ∧ j ≤ r ∧ keys[triedIdx c keys.length j]? = some k
          ∧ cooling bl now k = false ∧ allCoolingBefore keys bl now c j
          ∧ keyLoop keys now r c bl
              = (some (KeyResult.key k), (c + j) % uint64Size, mapDelete bl k) := by
  intro r
  induction r with
  | zero =>
    intro c bl
    left
    refine ⟨⟨c, rfl, by omega⟩, ?_⟩
    intro i h1 h2
    omega
  | succ r ih =>
    intro c bl
    have hidx : (c + 1) % uint64Size % keys.length < keys.length := Nat.mod_lt _ hn
    obtain ⟨key, hkey⟩ : ∃ key, keys[(c + 1) % uint64Size % keys.length]? = some key :=
      ⟨keys[(c + 1) % uint64Size % keys.length], List.getElem?_eq_getElem hidx⟩
    have hkey1 : keys[triedIdx c keys.length 1]? = some key := hkey
    by_cases hc : cooling bl now key = true
    · -- the first tried key is in cooldown: the loop goes on
      have hstep : keyLoop keys now (r + 1) c bl
          = keyLoop keys now r ((c + 1) % uint64Size) bl := by
        unfold cooling at hc
        conv_lhs => unfold keyLoop
        simp only [hkey]
        cases hb : bl key with
        | none => rw [hb] at hc; simp at hc
        | some t =>
          rw [hb] at hc
          simp only [decide_eq_true_eq] at hc
          simp [hc]
      have hshift : ∀ j, allCoolingBefore keys bl now ((c + 1) % uint64Size) j →
          allCoolingBefore keys bl now c (j + 1) := by
        intro j hall i h1 h2
        by_cases hi : i = 1
        · subst hi; exact ⟨key, hkey1, hc⟩
        · obtain ⟨k, hk, hk2⟩ := hall (i - 1) (by omega) (by omega)
          rw [triedIdx_succ] at hk
          have : i - 1 + 1 = i := by omega
          rw [this] at hk
          exact ⟨k, hk, hk2⟩
      rcases ih ((c + 1) % uint64Size) bl with ⟨⟨c1, h1, h2⟩, h3⟩ | ⟨j, k, h1, h2, h3, h4, h5, h6⟩
      · left
        refine ⟨⟨c1, by rw [hstep, h1], ?_⟩, hshift _ h3⟩
        intro _
        by_cases hr : 1 ≤ r
        · rw [h2 hr, uint64_succ_add]
        · have hr0 : r = 0 := by omega
          subst hr0
          simp only [keyLoop, Prod.mk.injEq, true_and] at h1
          rw [← h1.1]
      · right
        refine ⟨j + 1, k, by omega, by omega, ?_, h4, hshift _ h5, ?_⟩
        · rw [← triedIdx_succ]; exact h3
        · rw [hstep, h6, uint64_succ_add]
    · -- the first tried key is returned
      right
      have hc2 : cooling bl now key = false := by simpa using hc
      refine ⟨1, key, le_refl _, by omega, hkey1, hc2, ?_, ?_⟩
      · intro i h1 h2; omega
      · unfold cooling at hc2
        conv_lhs => unfold keyLoop
        simp only [hkey]
        cases hb : bl key with
        | none => simp [mapDelete_of_none bl key hb]
        | some t =>
          rw [hb] at hc2
          simp only [decide_eq_false_iff_not] at hc2
          simp [hc2]

/-- The two ways a call of `GetAvailableKey` on a non-empty key list can end. -/
theorem GetAvailableKey_cases (u : Upstream) (now : Int) (s : State)
    (hn : 0 < u.Keys.length) :
    (allCoolingBefore u.Keys s.blacklist now (counterOf s u.Name) (u.Keys.length + 1)
      ∧ ∃ msg, GetAvailableKey u now s
          = (KeyResult.allCooling msg,
             { s with upstreamStates := mapStore s.upstreamStates u.Name
                        ((counterOf s u.Name + u.Keys.length) % uint64Size) }))
    ∨ ∃ j k, 1 ≤ j ∧ j ≤ u.Keys.length
        ∧ u.Keys[triedIdx (counterOf s u.Name) u.Keys.length j]? = some k
        ∧ cooling s.blacklist now k = false
        ∧ allCoolingBefore u.Keys s.blacklist now (counterOf s u.Name) j
        ∧ GetAvailableKey u now s
            = (KeyResult.key k,
               { s with upstreamStates := mapStore s.upstreamStates u.Name
                          ((counterOf s u.Name + j) % uint64Size),
                        blacklist := mapDelete s.blacklist k }) := by
  have hne : ¬ u.Keys.length = 0 := by omega
  rcases keyLoop_cases u.Keys now hn u.Keys.length (counterOf s u.Name) s.blacklist with
    ⟨⟨c1, h1, h2⟩, h3⟩ | ⟨j, k, h1, h2, h3, h4, h5, h6⟩
  · left
    refine ⟨h3, "上游 '" ++ u.Name ++ "' 所有 Key 均在冷却中", ?_⟩
    unfold GetAvailableKey
    unfold counterOf at h1 h2
    simp only [hne, if_false, h1]
    rw [h2 hn]
    rfl
  · right
    refine ⟨j, k, h1, h2, h3, h4, h5, ?_⟩
    unfold GetAvailableKey
    unfold counterOf at h6
    simp only [hne, if_false, h6]
    rfl

/-- Without wraparound the tried index is the plain residue of `c + i`. -/
theorem triedIdx_nowrap (c n i : Nat) (h : c + i < uint64Size) :
    triedIdx c n i = (c + i) % n := by
  unfold triedIdx
  rw [Nat.mod_eq_of_lt h]

/-- Without wraparound the `n` increments from `c` visit every index below `n`. -/
theorem triedIdx_covers (c n h : Nat) (hh : h < n) (hc : c + n < uint64Size) :
    ∃ i, 1 ≤ i ∧ i ≤ n ∧ triedIdx c n i = h := by
  have hdm := Nat.div_add_mod (c + 1) n
  have hd : (c + 1) % n < n := Nat.mod_lt _ (by omega)
  by_cases hle : (c + 1) % n ≤ h
  · refine ⟨1 + (h - (c + 1) % n), by omega, by omega, ?_⟩
    rw [triedIdx_nowrap c n _ (by omega)]
    have : c + (1 + (h - (c + 1) % n)) = n * ((c + 1) / n) + h := by omega
    rw [this, Nat.mul_add_mod, Nat.mod_eq_of_lt hh]
  · refine ⟨1 + (h + n - (c + 1) % n), by omega, by omega, ?_⟩
    rw [triedIdx_nowrap c n _ (by omega)]
    have : c + (1 + (h + n - (c + 1) % n)) = n * ((c + 1) / n + 1) + h := by
      rw [Nat.mul_add, Nat.mul_one]; omega
    rw [this, Nat.mul_add_mod, Nat.mod_eq_of_lt hh]

theorem mapDelete_comm {β : Type} (m : String → Option β) (a b : String) :
    mapDelete (mapDelete m a) b = mapDelete (mapDelete m b) a := by
  funext x
  unfold mapDelete
  by_cases h1 : x = a <;> by_cases h2 : x = b <;> simp [h1, h2]

theorem mapDelete_idem {β : Type} (m : String → Option β) (a : String) :
    mapDelete (mapDelete m a) a = mapDelete m a := by
  funext x
  unfold mapDelete
  by_cases h1 : x = a <;> simp [h1]

/-- Deleting the entry of a key that is not in cooldown does not change what the
loop returns nor the counter, and the blacklists it leaves agree away from it. -/
theorem keyLoop_mapDelete (keys : List String) (now : Int) (k : String) :
    ∀ (r c : Nat) (bl : String → Option Int), cooling bl now k = false →
      (keyLoop keys now r c (mapDelete bl k)).1 = (keyLoop keys now r c bl).1
      ∧ (keyLoop keys now r c (mapDelete bl k)).2.1 = (keyLoop keys now r c bl).2.1
      ∧ (keyLoop keys now r c (mapDelete bl k)).2.2
          = mapDelete (keyLoop keys now r c bl).2.2 k := by
  intro r
  induction r with
  | zero => intro c bl _; exact ⟨rfl, rfl, rfl⟩
  | succ r ih =>
    intro c bl hk
    unfold keyLoop
    simp only
    cases hkey : keys[(c + 1) % uint64Size % keys.length]? with
    | none => exact ⟨rfl, rfl, rfl⟩
    | some key =>
      simp only
      by_cases hkk : key = k
      · subst hkk
        have hdel : mapDelete bl key key = none := by simp [mapDelete]
        rw [hdel]
        unfold cooling at hk
        cases hb : bl key with
        | none => simp [mapDelete_of_none bl key hb]
        | some t =>
          rw [hb] at hk
          simp only [decide_eq_false_iff_not] at hk
          simp [hk, mapDelete_idem]
      · have hsame : mapDelete bl k key = bl key := by simp [mapDelete, hkk]
        rw [hsame]
        cases hb : bl key with
        | none => exact ⟨rfl, rfl, rfl⟩
        | some t =>
          simp only
          by_cases hlt : now < t
          · simp only [hlt, if_true]
            exact ih _ bl hk
          · simp only [hlt, if_false, true_and]
            exact mapDelete_comm bl k key

/-- The claim of `keyLoop_mapDelete` for a whole call. -/
theorem GetAvailableKey_mapDelete (u : Upstream) (now : Int) (s : State) (k : String)
    (hk : cooling s.blacklist now k = false) :
    (GetAvailableKey u now { s with blacklist := mapDelete s.blacklist k }).1
        = (GetAvailableKey u now s).1
    ∧ (GetAvailableKey u now { s with blacklist := mapDelete s.blacklist k }).2.upstreamStates
        = (GetAvailableKey u now s).2.upstreamStates
    ∧ (GetAvailableKey u now { s with blacklist := mapDelete s.blacklist k }).2.blacklist
        = mapDelete (GetAvailableKey u now s).2.blacklist k := by
  obtain ⟨h1, h2, h3⟩ :=
    keyLoop_mapDelete u.Keys now k u.Keys.length ((s.upstreamStates u.Name).getD 0) s.blacklist hk
  unfold GetAvailableKey
  by_cases hn : u.Keys.length = 0
  · simp [hn]
  · simp only [hn, if_false, h1, h2, h3]
    cases keyLoop u.Keys now u.Keys.length ((s.upstreamStates u.Name).getD 0) s.blacklist with
    | mk a b => cases a <;> exact ⟨rfl, rfl, rfl⟩

/-- A returned key is never in cooldown, is one of the upstream's keys, and has no
blacklist entry after the call. -/
theorem GetAvailableKey_key_sound (u : Upstream) (now : Int) (s : State) (k : String)
    (h : (GetAvailableKey u now s).1 = KeyResult.key k) :
    k ∈ u.Keys ∧ cooling s.blacklist now k = false
      ∧ (GetAvailableKey u now s).2.blacklist k = none := by
  by_cases hn : u.Keys.length = 0
  · simp [GetAvailableKey, hn] at h
  · rcases GetAvailableKey_cases u now s (by omega) with ⟨_, msg, hm⟩ | ⟨j, k1, _, _, h3, h4, _, h6⟩
    · rw [hm] at h; simp at h
    · rw [h6] at h
      simp only [KeyResult.key.injEq] at h
      subst h
      refine ⟨List.getElem?_mem h3, h4, ?_⟩
      rw [h6]
      simp [mapDelete]

/-! ## Key rotator: errors, selection order, cooldown -/

/-- C2, amended: on a non-empty key list, if every key is in cooldown (a blacklist
entry with expiry strictly after `now`) the call returns an error; and when the
counter does not wrap during the call (`c + len(keys) < 2 ^ 64`) it returns an
error if and only if every key is in cooldown, and otherwise returns one of the
keys. -/
theorem GetAvailableKey_error_iff_all_cooling (u : Upstream) (now : Int) (s : State)
    (hne : u.Keys ≠ []) :
    ((∀ k ∈ u.Keys, cooling s.blacklist now k = true) →
        (GetAvailableKey u now s).1.isError = true)
    ∧ (counterOf s u.Name + u.Keys.length < uint64Size →
        ((GetAvailableKey u now s).1.isError = true
          ↔ ∀ k ∈ u.Keys, cooling s.blacklist now k = true)
        ∧ (¬ (∀ k ∈ u.Keys, cooling s.blacklist now k = true) →
            ∃ k ∈ u.Keys, (GetAvailableKey u now s).1 = KeyResult.key k)) := by
  have hn : 0 < u.Keys.length := List.length_pos.mpr hne
  rcases GetAvailableKey_cases u now s hn with ⟨hall, msg, hm⟩ | ⟨j, k1, _, _, h3, h4, _, h6⟩
  · refine ⟨fun _ => by rw [hm]; rfl, fun hw => ?_⟩
    have hcool : ∀ k ∈ u.Keys, cooling s.blacklist now k = true := by
      intro k hk
      obtain ⟨h, hh, hget⟩ := List.getElem_of_mem hk
      obtain ⟨i, hi1, hi2, hi3⟩ := triedIdx_covers (counterOf s u.Name) u.Keys.length h hh hw
      obtain ⟨k2, hk2, hc2⟩ := hall i hi1 (by omega)
      rw [hi3, List.getElem?_eq_getElem hh, hget] at hk2
      simp only [Option.some.injEq] at hk2
      rw [hk2]; exact hc2
    exact ⟨⟨fun _ => hcool, fun _ => by rw [hm]; rfl⟩, fun hnot => absurd hcool hnot⟩
  · have hmem : k1 ∈ u.Keys := List.getElem?_mem h3
    have hnot : ¬ (∀ k ∈ u.Keys, cooling s.blacklist now k = true) := by
      intro hall
      rw [hall k1 hmem] at h4
      exact absurd h4 (by simp)
    refine ⟨fun hall => absurd hall hnot, fun _ => ⟨⟨?_, fun hall => absurd hall hnot⟩, ?_⟩⟩
    · intro herr; rw [h6] at herr; simp [KeyResult.isError] at herr
    · intro _; exact ⟨k1, hmem, by rw [h6]⟩

/-- C2, witness: three keys, a fresh state. -/
theorem GetAvailableKey_error_iff_all_cooling_witness :
    threeKeys.Keys ≠ [] ∧ counterOf State.init threeKeys.Name + threeKeys.Keys.length < uint64Size
    ∧ (((GetAvailableKey threeKeys 0 State.init).1.isError = true
          ↔ ∀ k ∈ threeKeys.Keys, cooling State.init.blacklist 0 k = true)
        ∧ (¬ (∀ k ∈ threeKeys.Keys, cooling State.init.blacklist 0 k = true) →
            ∃ k ∈ threeKeys.Keys, (GetAvailableKey threeKeys 0 State.init).1 = KeyResult.key k)) :=
  ⟨by decide, by decide,
   (GetAvailableKey_error_iff_all_cooling threeKeys 0 State.init (by decide)).2 (by decide)⟩

/-- C2, counterexample: with the counter at `2 ^ 64 - 2` and three keys the three
tried indices are 0, 0 and 1, so the call returns an error although key `c` has no
blacklist entry. -/
theorem GetAvailableKey_error_with_healthy_key :
    (GetAvailableKey threeKeys 0 nearWrapState).1.isError = true
    ∧ "c" ∈ threeKeys.Keys ∧ nearWrapState.blacklist "c" = none := by
  decide

/-- C3, amended: a returned key is the key at the first of the tried indices
`((c + 1) % 2 ^ 64) % n`, `((c + 2) % 2 ^ 64) % n`, ... (at most `n` of them) whose
key is not in cooldown; when `c + n < 2 ^ 64` these are `(c + 1) % n`,
`(c + 2) % n`, ...; the key is one of the upstream's keys and is not in cooldown;
and on a never-used upstream with at least two keys and an empty blacklist the
call returns `keys[1]`. -/
theorem GetAvailableKey_returns_first_available (u : Upstream) (now : Int) (s : State) :
    (∀ k, (GetAvailableKey u now s).1 = KeyResult.key k →
        (∃ j, 1 ≤ j ∧ j ≤ u.Keys.length
            ∧ u.Keys[triedIdx (counterOf s u.Name) u.Keys.length j]? = some k
            ∧ cooling s.blacklist now k = false
            ∧ ∀ i, 1 ≤ i → i < j →
                ∃ k1, u.Keys[triedIdx (counterOf s u.Name) u.Keys.length i]? = some k1
                  ∧ cooling s.blacklist now k1 = true)
        ∧ (counterOf s u.Name + u.Keys.length < uint64Size →
            ∃ j, 1 ≤ j ∧ j ≤ u.Keys.length
              ∧ u.Keys[(counterOf s u.Name + j) % u.Keys.length]? = some k
              ∧ cooling s.blacklist now k = false
              ∧ ∀ i, 1 ≤ i → i < j →
                  ∃ k1, u.Keys[(counterOf s u.Name + i) % u.Keys.length]? = some k1
                    ∧ cooling s.blacklist now k1 = true)
        ∧ k ∈ u.Keys ∧ cooling s.blacklist now k = false)
    ∧ (s.upstreamStates u.Name = none → (∀ x, s.blacklist x = none) → 2 ≤ u.Keys.length →
        ∃ k, u.Keys[1]? = some k ∧ (GetAvailableKey u now s).1 = KeyResult.key k) := by
  constructor
  · intro k hk
    have hsound := GetAvailableKey_key_sound u now s k hk
    by_cases hn : u.Keys.length = 0
    · simp [GetAvailableKey, hn] at hk
    · rcases GetAvailableKey_cases u now s (by omega) with
        ⟨_, msg, hm⟩ | ⟨j, k1, h1, h2, h3, h4, h5, h6⟩
      · rw [hm] at hk; simp at hk
      · rw [h6] at hk
        simp only [KeyResult.key.injEq] at hk
        subst hk
        refine ⟨⟨j, h1, h2, h3, h4, h5⟩, fun hw => ⟨j, h1, h2, ?_, h4, ?_⟩, hsound.1, hsound.2.1⟩
        · rw [← triedIdx_nowrap _ _ _ (by omega)]; exact h3
        · intro i hi1 hi2
          rw [← triedIdx_nowrap _ _ _ (by omega)]
          exact h5 i hi1 hi2
  · intro hfresh hbl h2
    have hc0 : counterOf s u.Name = 0 := by simp [counterOf, hfresh]
    have hnc : ∀ x, cooling s.blacklist now x = false := by
      intro x; simp [cooling, hbl x]
    have ht1 : triedIdx 0 u.Keys.length 1 = 1 := by
      have e1 : (0 + 1) % uint64Size = 1 := by decide
      have e2 : 1 % u.Keys.length = 1 := Nat.mod_eq_of_lt (by omega)
      unfold triedIdx
      rw [e1, e2]
    rcases GetAvailableKey_cases u now s (by omega) with
      ⟨hall, _, _⟩ | ⟨j, k1, h1, _, h3, _, h5, h6⟩
    · obtain ⟨k2, _, hk2⟩ := hall 1 (le_refl _) (by omega)
      rw [hnc k2] at hk2
      exact absurd hk2 (by simp)
    · have hj : j = 1 := by
        by_contra hne
        obtain ⟨k2, _, hk2⟩ := h5 1 (le_refl _) (by omega)
        rw [hnc k2] at hk2
        exact absurd hk2 (by simp)
      subst hj
      rw [hc0, ht1] at h3
      exact ⟨k1, h3, by rw [h6]⟩

/-- C3, witness: the first call on a fresh state with three keys returns `b`. -/
theorem GetAvailableKey_returns_first_available_witness :
    (GetAvailableKey threeKeys 0 State.init).1 = KeyResult.key "b"
    ∧ State.init.upstreamStates threeKeys.Name = none
    ∧ (∀ x, State.init.blacklist x = none) ∧ 2 ≤ threeKeys.Keys.length
    ∧ ("b" ∈ threeKeys.Keys ∧ cooling State.init.blacklist 0 "b" = false)
    ∧ ∃ k, threeKeys.Keys[1]? = some k
        ∧ (GetAvailableKey threeKeys 0 State.init).1 = KeyResult.key k :=
  ⟨by decide, rfl, fun _ => rfl, by decide,
   ((GetAvailableKey_returns_first_available threeKeys 0 State.init).1 "b" (by decide)).2.2,
   (GetAvailableKey_returns_first_available threeKeys 0 State.init).2 rfl (fun _ => rfl)
     (by decide)⟩

/-- C3, counterexample: with the counter at `c = 2 ^ 64 - 1` and three keys, none
blacklisted, the first index of the cyclic order is `(c + 1) % 3 = 1`, whose key
is `b`, but the call returns `keys[0] = a`. -/
theorem GetAvailableKey_wraps_to_index_zero :
    (counterOf lastCounterState threeKeys.Name + 1) % threeKeys.Keys.length = 1
    ∧ threeKeys.Keys[1]? = some "b" ∧ cooling lastCounterState.blacklist 0 "b" = false
    ∧ (GetAvailableKey threeKeys 0 lastCounterState).1 = KeyResult.key "a" := by
  decide

/-- C4: once `blacklist[k] = untilT` is stored, a call at an instant before
`untilT` never returns `k`, for any upstream; a call at an instant from `untilT`
on behaves as if the entry were absent (same result and counter, and the same
blacklist apart from the entry of `k`), and when it returns `k` the entry of `k`
is gone afterwards. -/
theorem GetAvailableKey_cooldown (u : Upstream) (now : Int) (s : State) (k : String)
    (untilT : Int) :
    (now < untilT → (GetAvailableKey u now (blacklistStore s k untilT)).1 ≠ KeyResult.key k)
    ∧ (untilT ≤ now →
        (GetAvailableKey u now (blacklistStore s k untilT)).1
            = (GetAvailableKey u now (blacklistDelete s k)).1
        ∧ (GetAvailableKey u now (blacklistStore s k untilT)).2.upstreamStates
            = (GetAvailableKey u now (blacklistDelete s k)).2.upstreamStates
        ∧ mapDelete (GetAvailableKey u now (blacklistStore s k untilT)).2.blacklist k
            = (GetAvailableKey u now (blacklistDelete s k)).2.blacklist
        ∧ ((GetAvailableKey u now (blacklistStore s k untilT)).1 = KeyResult.key k →
            (GetAvailableKey u now (blacklistStore s k untilT)).2.blacklist k = none)) := by
  constructor
  · intro hlt hret
    have h := (GetAvailableKey_key_sound u now _ k hret).2.1
    simp [cooling, blacklistStore, mapStore, hlt] at h
  · intro hge
    have hk : cooling (blacklistStore s k untilT).blacklist now k = false := by
      simp [cooling, blacklistStore, mapStore, hge]
    have hsame : ({ blacklistStore s k untilT with
          blacklist := mapDelete (blacklistStore s k untilT).blacklist k } : State)
        = blacklistDelete s k := by
      have e : mapDelete (mapStore s.blacklist k untilT) k = mapDelete s.blacklist k := by
        funext x
        by_cases hx : x = k <;> simp [mapDelete, mapStore, hx]
      simp only [blacklistDelete, blacklistStore, e]
    obtain ⟨h1, h2, h3⟩ := GetAvailableKey_mapDelete u now (blacklistStore s k untilT) k hk
    rw [hsame] at h1 h2 h3
    exact ⟨h1.symm, h2.symm, h3.symm,
      fun hret => (GetAvailableKey_key_sound u now _ k hret).2.2⟩

/-- C4, witness: key `a` stored until instant 10 is not returned at instant 3, and
at instant 10 the call behaves as without the entry. -/
theorem GetAvailableKey_cooldown_witness :
    ((3 : Int) < 10 ∧
      (GetAvailableKey threeKeys 3 (blacklistStore lastCounterState "a" 10)).1
        ≠ KeyResult.key "a")
    ∧ ((10 : Int) ≤ 10 ∧
      (GetAvailableKey threeKeys 10 (blacklistStore lastCounterState "a" 10)).1
        = (GetAvailableKey threeKeys 10 (blacklistDelete lastCounterState "a")).1) :=
  ⟨⟨by decide, (GetAvailableKey_cooldown threeKeys 3 lastCounterState "a" 10).1 (by decide)⟩,
   ⟨by decide,
    ((GetAvailableKey_cooldown threeKeys 10 lastCounterState "a" 10).2 (by decide)).1⟩⟩

/-! ## Counting residues in an interval -/

/-- Shifting a window of `n` consecutive numbers by one keeps the number of its
members with residue `h` modulo `n`. -/
theorem countP_residue_shift (n h t : Nat) :
    (List.range' (t + 1) n).countP (fun j => decide (j % n = h))
      = (List.range' t n).countP (fun j => decide (j % n = h)) := by
  have e := congrArg (List.countP (fun j => decide (j % n = h)))
    ((List.range'_succ t n 1).symm.trans (List.range'_1_concat t n))
  rw [List.countP_cons, List.countP_append, List.countP_cons, List.countP_nil] at e
  simp only [Nat.add_mod_right, Nat.zero_add] at e
  omega

/-- A window of `n` consecutive numbers holds exactly one with residue `h < n`. -/
theorem countP_residue_window (n h : Nat) (hh : h < n) (t : Nat) :
    (List.range' t n).countP (fun j => decide (j % n = h)) = 1 := by
  induction t with
  | zero =>
    rw [← List.range_eq_range']
    have hc : (List.range n).countP (fun j => decide (j % n = h))
        = (List.range n).countP (fun j => j == h) := by
      apply List.countP_congr
      intro x hx
      rw [List.mem_range] at hx
      simp [Nat.mod_eq_of_lt hx]
    rw [hc]
    exact List.count_eq_one_of_mem (List.nodup_range n) (List.mem_range.mpr hh)
  | succ t ih => rw [countP_residue_shift, ih]

/-- In `n * q` consecutive numbers exactly `q` have residue `h < n`. -/
theorem countP_residue_periods (n h : Nat) (hh : h < n) (q t : Nat) :
    (List.range' t (n * q)).countP (fun j => decide (j % n = h)) = q := by
  induction q with
  | zero => simp
  | succ q ih =>
    have e : List.range' t (n * (q + 1))
        = List.range' t (n * q) ++ List.range' (t + n * q) n := by
      rw [List.range'_append_1]; congr 1; rw [Nat.mul_succ]; omega
    rw [e, List.countP_append, ih, countP_residue_window n h hh]

/-- In `L` consecutive numbers the count of those with residue `h < n` is
`L / n` or `L / n + 1`. -/
theorem countP_residue_bounds (n h : Nat) (hh : h < n) (t L : Nat) :
    L / n ≤ (List.range' t L).countP (fun j => decide (j % n = h))
    ∧ (List.range' t L).countP (fun j => decide (j % n = h)) ≤ L / n + 1 := by
  have hn : 0 < n := by omega
  have e : List.range' t L
      = List.range' t (n * (L / n)) ++ List.range' (t + n * (L / n)) (L % n) := by
    rw [List.range'_append_1]; congr 1
    have := Nat.div_add_mod L n; omega
  have hshort : (List.range' (t + n * (L / n)) (L % n)).countP (fun j => decide (j % n = h))
      ≤ 1 := by
    have hsub : (List.range' (t + n * (L / n)) (L % n)).Sublist
        (List.range' (t + n * (L / n)) n) :=
      List.range'_sublist_right.mpr (le_of_lt (Nat.mod_lt L hn))
    exact le_of_le_of_eq (List.Sublist.countP_le _ hsub)
      (countP_residue_window n h hh (t + n * (L / n)))
  rw [e, List.countP_append, countP_residue_periods n h hh]
  omega

/-! ## Sums of counts -/

/-- Over a list without duplicates the indicator of one of its members sums to 1. -/
theorem sum_indicator_of_mem {α : Type} [DecidableEq α] (y : α) :
    ∀ (H : List α), H.Nodup → y ∈ H → (H.map (fun x => if y = x then 1 else 0)).sum = 1
  | [], _, hy => by simp at hy
  | a :: H, hnd, hy => by
    rw [List.nodup_cons] at hnd
    rw [List.map_cons, List.sum_cons]
    by_cases hya : y = a
    · subst hya
      have hz : (H.map (fun x => if y = x then 1 else 0)).sum = 0 := by
        apply List.sum_eq_zero
        intro x hx
        rw [List.mem_map] at hx
        obtain ⟨z, hz, rfl⟩ := hx
        have : y ≠ z := fun e => hnd.1 (e ▸ hz)
        simp [this]
      simp [hz]
    · have hyH : y ∈ H := by
        rcases List.mem_cons.mp hy with e | e
        · exact absurd e hya
        · exact e
      rw [sum_indicator_of_mem y H hnd.2 hyH]
      simp [hya]

/-- When every member of `rs` is in the duplicate-free list `H`, the counts in `rs`
of the members of `H` add up to the length of `rs`. -/
theorem sum_count_eq_length {α : Type} [DecidableEq α] (H : List α) (hnd : H.Nodup) :
    ∀ (rs : List α), (∀ x ∈ rs, x ∈ H) → (H.map (fun x => rs.count x)).sum = rs.length
  | [], _ => by simp
  | y :: rs, hsub => by
    have ih := sum_count_eq_length H hnd rs (fun x hx => hsub x (List.mem_cons_of_mem _ hx))
    have hy := sum_indicator_of_mem y H hnd (hsub y (List.mem_cons_self _ _))
    have e : (H.map (fun x => (y :: rs).count x))
        = H.map (fun x => rs.count x + (if y = x then 1 else 0)) := by
      apply List.map_congr_left
      intro x _
      rw [List.count_cons]
      simp
    rw [e, List.sum_map_add, ih, hy, List.length_cons]

/-- A sum of `K` numbers each `q` or `q + 1`. -/
theorem sum_bounds_of_near (q : Nat) :
    ∀ (xs : List Nat), (∀ x ∈ xs, q ≤ x ∧ x ≤ q + 1) →
      xs.length * q ≤ xs.sum ∧ xs.sum ≤ xs.length * q + xs.length
  | [], _ => by simp
  | a :: xs, h => by
    have ih := sum_bounds_of_near q xs (fun x hx => h x (List.mem_cons_of_mem _ hx))
    have ha := h a (List.mem_cons_self _ _)
    rw [List.sum_cons, List.length_cons, Nat.succ_mul]
    omega

/-- If `N` is the sum of `K` numbers each `q` or `q + 1`, every one of them lies
between `N / K` rounded down and `N / K` rounded up. -/
theorem near_equal_share (q : Nat) (xs : List Nat) (hall : ∀ x ∈ xs, q ≤ x ∧ x ≤ q + 1)
    (a : Nat) (ha : a ∈ xs) :
    xs.sum / xs.length ≤ a ∧ a ≤ (xs.sum + xs.length - 1) / xs.length := by
  have hpos : 0 < xs.length := List.length_pos_of_mem ha
  have hb := sum_bounds_of_near q (xs.erase a)
    (fun x hx => hall x (List.mem_of_mem_erase hx))
  have hsum : a + (xs.erase a).sum = xs.sum := List.sum_erase ha
  have hlen : (xs.erase a).length = xs.length - 1 := List.length_erase_of_mem ha
  have haq := hall a ha
  rw [hlen] at hb
  obtain ⟨K, hK⟩ : ∃ K, xs.length = K + 1 := ⟨xs.length - 1, by omega⟩
  rw [hK] at hb ⊢
  simp only [Nat.add_sub_cancel] at hb
  constructor
  · have e : (a + 1) * (K + 1) = a * K + a + K + 1 := by ring
    have h2 : K * q ≤ a * K := by rw [Nat.mul_comm a K]; exact Nat.mul_le_mul_left K haq.1
    have key : xs.sum < (a + 1) * (K + 1) := by omega
    exact Nat.le_of_lt_succ ((Nat.div_lt_iff_lt_mul (by omega)).mpr key)
  · have e : a * (K + 1) = a * K + a := by ring
    have h2 : a * K ≤ K * q + K := by
      rw [Nat.mul_comm a K, ← Nat.mul_succ]; exact Nat.mul_le_mul_left K haq.2
    have key : a * (K + 1) ≤ xs.sum + (K + 1) - 1 := by omega
    exact (Nat.le_div_iff_mul_le (by omega)).mpr key


/-! ## Rotation fairness -/

theorem cooling_mapDelete (bl : String → Option Int) (now : Int) (k : String)
    (hk : cooling bl now k = false) : cooling (mapDelete bl k) now = cooling bl now := by
  funext x
  by_cases hx : x = k
  · subst hx; rw [hk]; simp [cooling, mapDelete]
  · simp [cooling, mapDelete, hx]

theorem callsOf_length (u : Upstream) (now : Int) :
    ∀ (N : Nat) (s : State), (callsOf u now N s).1.length = N
  | 0, _ => rfl
  | N + 1, s => by
    unfold callsOf
    simp only [List.length_cons]
    rw [callsOf_length u now N]

/-- One call without wraparound on an upstream with a key out of cooldown: it
returns a key, moves the counter from `c` to some `c + j`, keeps the cooldown
status of every key, and the key is the only pick among the counters passed. -/
theorem GetAvailableKey_nowrap (u : Upstream) (now : Int) (s : State)
    (hn : 0 < u.Keys.length) (hw : counterOf s u.Name + u.Keys.length < uint64Size)
    (hh : ∃ k ∈ u.Keys, cooling s.blacklist now k = false) :
    ∃ j k, 1 ≤ j ∧ j ≤ u.Keys.length
      ∧ (GetAvailableKey u now s).1 = KeyResult.key k
      ∧ counterOf (GetAvailableKey u now s).2 u.Name = counterOf s u.Name + j
      ∧ cooling (GetAvailableKey u now s).2.blacklist now = cooling s.blacklist now
      ∧ (List.range' (counterOf s u.Name + 1) j).filterMap (pickAt u.Keys s.blacklist now)
          = [KeyResult.key k] := by
  rcases GetAvailableKey_cases u now s hn with ⟨hall, _, _⟩ | ⟨j, k, h1, h2, h3, h4, h5, h6⟩
  · exfalso
    obtain ⟨k, hk, hkc⟩ := hh
    obtain ⟨h, hlt, hget⟩ := List.getElem_of_mem hk
    obtain ⟨i, hi1, hi2, hi3⟩ := triedIdx_covers (counterOf s u.Name) u.Keys.length h hlt hw
    obtain ⟨k2, hk2, hc2⟩ := hall i hi1 (by omega)
    rw [hi3, List.getElem?_eq_getElem hlt, hget] at hk2
    simp only [Option.some.injEq] at hk2
    rw [← hk2, hkc] at hc2
    exact absurd hc2 (by simp)
  · refine ⟨j, k, h1, h2, by rw [h6], ?_, ?_, ?_⟩
    · rw [h6]
      simp only [counterOf, mapStore, if_true, Option.getD_some]
      exact Nat.mod_eq_of_lt (by unfold counterOf at hw; omega)
    · rw [h6]; exact cooling_mapDelete _ _ _ h4
    · obtain ⟨j0, rfl⟩ : ∃ j0, j = j0 + 1 := ⟨j - 1, by omega⟩
      rw [List.range'_1_concat, List.filterMap_append]
      have hfirst : (List.range' (counterOf s u.Name + 1) j0).filterMap
          (pickAt u.Keys s.blacklist now) = [] := by
        rw [List.filterMap_eq_nil_iff]
        intro m hm
        rw [List.mem_range'_1] at hm
        obtain ⟨k1, hk1, hc1⟩ := h5 (m - counterOf s u.Name) (by omega) (by omega)
        rw [triedIdx_nowrap _ _ _ (by omega)] at hk1
        have hm2 : counterOf s u.Name + (m - counterOf s u.Name) = m := by omega
        rw [hm2] at hk1
        simp [pickAt, hk1, hc1]
      rw [triedIdx_nowrap _ _ _ (by omega)] at h3
      have hlast : pickAt u.Keys s.blacklist now (counterOf s u.Name + 1 + j0)
          = some (KeyResult.key k) := by
        have hm2 : counterOf s u.Name + 1 + j0 = counterOf s u.Name + (j0 + 1) := by omega
        rw [hm2]
        simp [pickAt, h3, h4]
      rw [hfirst]
      simp [hlast]

/-- The results of `N` calls without wraparound are the picks at the counters
`c + 1, ..., c + L` for some `L ≤ N * n`. -/
theorem callsOf_trace (u : Upstream) (now : Int) (hn : 0 < u.Keys.length) :
    ∀ (N : Nat) (s : State),
      counterOf s u.Name + N * u.Keys.length < uint64Size →
      (∃ k ∈ u.Keys, cooling s.blacklist now k = false) →
      ∃ L, (callsOf u now N s).1
          = (List.range' (counterOf s u.Name + 1) L).filterMap (pickAt u.Keys s.blacklist now)
  | 0, s, _, _ => ⟨0, rfl⟩
  | N + 1, s, hw, hh => by
    have hw1 : counterOf s u.Name + u.Keys.length < uint64Size := by
      rw [Nat.succ_mul] at hw; omega
    obtain ⟨j, k, h1, h2, hres, hcnt, hcool, hpick⟩ := GetAvailableKey_nowrap u now s hn hw1 hh
    have hh2 : ∃ k ∈ u.Keys, cooling (GetAvailableKey u now s).2.blacklist now k = false := by
      rw [hcool]; exact hh
    have hw2 : counterOf (GetAvailableKey u now s).2 u.Name + N * u.Keys.length
        < uint64Size := by
      rw [hcnt]; rw [Nat.succ_mul] at hw; omega
    obtain ⟨L, hL⟩ := callsOf_trace u now hn N (GetAvailableKey u now s).2 hw2 hh2
    refine ⟨L + j, ?_⟩
    have hpk : pickAt u.Keys (GetAvailableKey u now s).2.blacklist now
        = pickAt u.Keys s.blacklist now := by
      funext m
      unfold pickAt
      rw [hcool]
    rw [hcnt, hpk] at hL
    unfold callsOf
    simp only
    rw [hL, hres, ← List.range'_append_1, List.filterMap_append, hpick]
    have e : counterOf s u.Name + j + 1 = counterOf s u.Name + 1 + j := by omega
    rw [e]
    rfl

/-- Over counters without wraparound, the picks of a key that is out of cooldown
and sits at index `h` of a duplicate-free key list are the counters of residue `h`. -/
theorem count_pick_eq_residue (keys : List String) (bl : String → Option Int) (now : Int)
    (hnd : keys.Nodup) (k : String) (h : Nat) (hh : h < keys.length)
    (hget : keys[h]? = some k) (hk : cooling bl now k = false) (l : List Nat) :
    (l.filterMap (pickAt keys bl now)).count (KeyResult.key k)
      = l.countP (fun j => decide (j % keys.length = h)) := by
  rw [List.count_filterMap]
  apply List.countP_congr
  intro j _
  have hj : j % keys.length < keys.length := Nat.mod_lt _ (by omega)
  simp only [beq_iff_eq, decide_eq_true_eq]
  constructor
  · intro hp
    unfold pickAt at hp
    rw [List.getElem?_eq_getElem hj] at hp
    simp only at hp
    split at hp
    · exact absurd hp (by simp)
    · simp only [Option.some.injEq, KeyResult.key.injEq] at hp
      rw [List.getElem?_eq_getElem hh, Option.some.injEq] at hget
      exact (List.Nodup.getElem_inj_iff hnd).mp (hp.trans hget.symm)
  · intro e
    unfold pickAt
    rw [e, hget]
    simp [hk]

/-- C1: rotation fairness. For an upstream whose keys are pairwise distinct, of
which exactly `K ≥ 1` are out of cooldown at the fixed instant `now`, and a counter
that cannot wrap during `N` sequential calls (`c + N * len(keys) < 2 ^ 64`), every
key out of cooldown is returned at least `N / K` rounded down and at most `N / K`
rounded up times, and no key in cooldown is returned. -/
theorem rotation_fairness (u : Upstream) (now : Int) (s : State) (N K : Nat)
    (hnd : u.Keys.Nodup)
    (hK : (u.Keys.filter (fun k => !cooling s.blacklist now k)).length = K)
    (hK1 : 1 ≤ K)
    (hw : counterOf s u.Name + N * u.Keys.length < uint64Size) :
    (∀ k ∈ u.Keys, cooling s.blacklist now k = false →
        N / K ≤ (callsOf u now N s).1.count (KeyResult.key k)
        ∧ (callsOf u now N s).1.count (KeyResult.key k) ≤ (N + K - 1) / K)
    ∧ (∀ k, cooling s.blacklist now k = true →
        KeyResult.key k ∉ (callsOf u now N s).1) := by
  -- a key out of cooldown exists
  have hhealthy : ∃ k ∈ u.Keys, cooling s.blacklist now k = false := by
    have hpos : 0 < (u.Keys.filter (fun k => !cooling s.blacklist now k)).length := by omega
    obtain ⟨k, hk⟩ := List.exists_mem_of_length_pos hpos
    rw [List.mem_filter] at hk
    exact ⟨k, hk.1, by simpa using hk.2⟩
  have hn : 0 < u.Keys.length := by
    obtain ⟨k, hk, _⟩ := hhealthy
    exact List.length_pos_of_mem hk
  obtain ⟨L, hL⟩ := callsOf_trace u now hn N s hw hhealthy
  have hlen := callsOf_length u now N s
  -- every result is a key out of cooldown
  have hmem : ∀ r ∈ (callsOf u now N s).1,
      ∃ k ∈ u.Keys, cooling s.blacklist now k = false ∧ r = KeyResult.key k := by
    intro r hr
    rw [hL, List.mem_filterMap] at hr
    obtain ⟨j, _, hj⟩ := hr
    unfold pickAt at hj
    split at hj
    · next k hk =>
      split at hj
      · exact absurd hj (by simp)
      · next hc =>
        simp only [Option.some.injEq] at hj
        exact ⟨k, List.getElem?_mem hk, by simpa using hc, hj.symm⟩
    · exact absurd hj (by simp)
  constructor
  · intro k hk hkc
    -- the counts of the keys out of cooldown
    have hH : ((u.Keys.filter (fun k => !cooling s.blacklist now k)).map KeyResult.key).Nodup :=
      (hnd.filter _).map (fun a b e => by simpa using e)
    have hsum := sum_count_eq_length _ hH (callsOf u now N s).1 (by
      intro r hr
      obtain ⟨k1, hk1, hc1, rfl⟩ := hmem r hr
      exact List.mem_map.mpr ⟨k1, List.mem_filter.mpr ⟨hk1, by simp [hc1]⟩, rfl⟩)
    rw [List.map_map, hlen] at hsum
    have hall : ∀ x ∈ (u.Keys.filter (fun k => !cooling s.blacklist now k)).map
        ((fun x => (callsOf u now N s).1.count x) ∘ KeyResult.key),
        L / u.Keys.length ≤ x ∧ x ≤ L / u.Keys.length + 1 := by
      intro x hx
      rw [List.mem_map] at hx
      obtain ⟨k1, hk1, rfl⟩ := hx
      rw [List.mem_filter] at hk1
      obtain ⟨h, hlt, hget⟩ := List.getElem_of_mem hk1.1
      have hget2 : u.Keys[h]? = some k1 := by rw [List.getElem?_eq_getElem hlt, hget]
      simp only [Function.comp]
      rw [hL, count_pick_eq_residue u.Keys s.blacklist now hnd k1 h hlt hget2
        (by simpa using hk1.2)]
      exact countP_residue_bounds u.Keys.length h hlt _ L
    have hin : (callsOf u now N s).1.count (KeyResult.key k)
        ∈ (u.Keys.filter (fun k => !cooling s.blacklist now k)).map
          ((fun x => (callsOf u now N s).1.count x) ∘ KeyResult.key) :=
      List.mem_map.mpr ⟨k, List.mem_filter.mpr ⟨hk, by simp [hkc]⟩, rfl⟩
    have hshare := near_equal_share _ _ hall _ hin
    rw [hsum, List.length_map, hK] at hshare
    exact hshare
  · intro k hkc hin
    obtain ⟨k1, _, hc1, he⟩ := hmem _ hin
    simp only [KeyResult.key.injEq] at he
    rw [he, hc1] at hkc
    exact absurd hkc (by simp)

/-- C1, witness: three distinct keys, `a` blacklisted until instant 10, five calls at
instant 0 from a fresh counter. -/
theorem rotation_fairness_witness :
    threeKeys.Keys.Nodup
    ∧ (threeKeys.Keys.filter
        (fun k => !cooling (blacklistStore State.init "a" 10).blacklist 0 k)).length = 2
    ∧ (∀ k ∈ threeKeys.Keys, cooling (blacklistStore State.init "a" 10).blacklist 0 k = false →
        5 / 2 ≤ (callsOf threeKeys 0 5 (blacklistStore State.init "a" 10)).1.count
                  (KeyResult.key k)
        ∧ (callsOf threeKeys 0 5 (blacklistStore State.init "a" 10)).1.count (KeyResult.key k)
            ≤ (5 + 2 - 1) / 2) :=
  ⟨by decide, by decide,
   (rotation_fairness threeKeys 0 (blacklistStore State.init "a" 10) 5 2 (by decide)
      (by decide) (by decide) (by decide)).1⟩

/-! ## Forwarder: classification of the upstream status and retry budget -/

theorem sendNotification_blacklist (webhookURL upstream model : String) (statusCode : Int)
    (content : String) (now : Int) (s : State) :
    (sendNotification webhookURL upstream model statusCode content now s).blacklist
      = s.blacklist := by
  unfold sendNotification
  split
  · rfl
  · simp only
    split
    · split <;> rfl
    · rfl

theorem retryableStatus_iff (st : Int) :
    retryableStatus st = true ↔ (st = 401 ∨ st = 429 ∨ st ≥ 500) := by
  simp [retryableStatus, or_assoc]

theorem GetAvailableKey_in_range (u : Upstream) (now : Int) (s : State) :
    (GetAvailableKey u now s).1 ≠ KeyResult.indexOutOfRange := by
  by_cases hn : u.Keys.length = 0
  · simp [GetAvailableKey, hn]
  · rcases GetAvailableKey_cases u now s (by omega) with ⟨_, msg, hm⟩ | ⟨j, k, _, _, _, _, _, h6⟩
    · rw [hm]; simp
    · rw [h6]; simp

/-- C5, amended: a pass that obtained status `st` with credential `k` is a
retryable failure if and only if `st = 401`, `st = 429` or `st ≥ 500`; in exactly
that case `blacklist[k]` is set to the instant of the store plus the `int64`
duration `time.Duration(cool_down_minutes) * time.Minute`, which is
`cool_down_minutes` minutes whenever that fits in 64 bits, and no other blacklist
entry changes; for every other status the handler returns with the response
relayed under status `st` and the state, blacklist included, as the key
acquisition left it. -/
theorem attemptPass_status_classification (upstream : Upstream) (srvCfg : ServerConfig)
    (body projectName modelName : String) (env : ForwardEnv) (retry : Nat) (s s1 : State)
    (k : String) (st : Int)
    (hkey : GetAvailableKey upstream (env.attempt retry).nowKey s = (KeyResult.key k, s1))
    (hurl : env.urlParseOk = true) (hreq : env.newRequestOk = true)
    (hres : (env.attempt retry).result = DoResult.response st) :
    ((attemptPass upstream srvCfg body projectName modelName env retry s).isFailed = true
        ↔ (st = 401 ∨ st = 429 ∨ st ≥ 500))
    ∧ ((st = 401 ∨ st = 429 ∨ st ≥ 500) →
        (attemptPass upstream srvCfg body projectName modelName env retry s).state.blacklist k
            = some ((env.attempt retry).nowStore + coolDown srvCfg)
        ∧ ∀ x, x ≠ k →
            (attemptPass upstream srvCfg body projectName modelName env retry s).state.blacklist x
              = s1.blacklist x)
    ∧ (-(2 ^ 63) ≤ srvCfg.CoolDownMinutes * minuteNs
        ∧ srvCfg.CoolDownMinutes * minuteNs < 2 ^ 63 →
        coolDown srvCfg = srvCfg.CoolDownMinutes * minuteNs)
    ∧ (¬ (st = 401 ∨ st = 429 ∨ st ≥ 500) →
        attemptPass upstream srvCfg body projectName modelName env retry s
            = PassResult.finished
                { reply := Reply.relayed st, state := s1, attempts := 1,
                  calls := [{ Upstream := upstream.Name, Key := k, Body := body }] }
        ∧ ∀ remaining lastErr,
            (retryLoop upstream srvCfg body projectName modelName env (remaining + 1) retry
              lastErr s).reply = Reply.relayed st
            ∧ (retryLoop upstream srvCfg body projectName modelName env (remaining + 1) retry
              lastErr s).state = s1) := by
  by_cases hst : retryableStatus st = true
  · have hpass : attemptPass upstream srvCfg body projectName modelName env retry s
        = PassResult.failed [{ Upstream := upstream.Name, Key := k, Body := body }]
            ("status " ++ toString st)
            (sendNotification srvCfg.NotificationWebhook upstream.Name modelName st
              (alertMsg upstream.Name st k projectName modelName (env.attempt retry).clockText)
              (env.attempt retry).nowNotify
              (blacklistStore s1 k ((env.attempt retry).nowStore + coolDown srvCfg))) := by
      unfold attemptPass
      simp only [hkey, hurl, hreq, hres, hst, Bool.not_true, if_true]
      rfl
    have hiff := (retryableStatus_iff st).mp hst
    refine ⟨⟨fun _ => hiff, fun _ => by rw [hpass]; rfl⟩, fun _ => ?_, ?_,
      fun hnot => absurd hiff hnot⟩
    · rw [hpass]
      simp only [PassResult.state, sendNotification_blacklist, blacklistStore, mapStore]
      exact ⟨by simp, fun x hx => by simp [hx]⟩
    · intro hfit
      unfold coolDown wrapInt64
      rw [Int.emod_eq_of_lt (by omega) (by omega)]
      omega
  · have hst2 : retryableStatus st = false := by simpa using hst
    have hpass : attemptPass upstream srvCfg body projectName modelName env retry s
        = PassResult.finished
            { reply := Reply.relayed st, state := s1, attempts := 1,
              calls := [{ Upstream := upstream.Name, Key := k, Body := body }] } := by
      unfold attemptPass
      simp only [hkey, hurl, hreq, hres, hst2, Bool.not_true]
      rfl
    have hiff : ¬ (st = 401 ∨ st = 429 ∨ st ≥ 500) := fun h => hst ((retryableStatus_iff st).mpr h)
    refine ⟨⟨fun h => ?_, fun h => absurd h hiff⟩, fun h => absurd h hiff, ?_, fun _ => ⟨hpass, ?_⟩⟩
    · rw [hpass] at h; simp [PassResult.isFailed] at h
    · intro hfit
      unfold coolDown wrapInt64
      rw [Int.emod_eq_of_lt (by omega) (by omega)]
      omega
    · intro remaining lastErr
      unfold retryLoop
      rw [hpass]
      exact ⟨rfl, rfl⟩

/-- C5, witness: status 500 obtained with key `b` on a fresh state. -/
theorem attemptPass_status_classification_witness :
    GetAvailableKey threeKeys ((alwaysStatus 500).attempt 0).nowKey State.init
        = (KeyResult.key "b", (GetAvailableKey threeKeys 0 State.init).2)
    ∧ ((attemptPass threeKeys (serverWith 0 5) "" "P" "gpt-x" (alwaysStatus 500) 0
          State.init).isFailed = true
        ↔ ((500 : Int) = 401 ∨ (500 : Int) = 429 ∨ (500 : Int) ≥ 500)) :=
  ⟨Prod.ext (by decide) rfl,
   (attemptPass_status_classification threeKeys (serverWith 0 5) "" "P" "gpt-x"
      (alwaysStatus 500) 0 State.init (GetAvailableKey threeKeys 0 State.init).2 "b" 500
      (Prod.ext (by decide) rfl) rfl rfl rfl).1⟩

/-- C5, counterexample: with `cool_down_minutes = 153722868` the product with
`time.Minute` exceeds the `int64` range, and after a status 500 obtained at instant
0 the key `b` is blacklisted until an instant far before 0 instead of
`0 + 153722868` minutes. -/
theorem coolDown_overflow :
    (forwardWithRetry threeKeys (serverWith 0 153722868) "" "P" "gpt-x" (alwaysStatus 500)
        State.init).state.blacklist "b" = some (-9223371993709551616)
    ∧ (0 : Int) + 153722868 * minuteNs = 9223372080000000000 := by
  decide

/-- A pass that ends the handler counts one key acquisition and never answers 503. -/
theorem attemptPass_finished (upstream : Upstream) (srvCfg : ServerConfig)
    (body projectName modelName : String) (env : ForwardEnv) (retry : Nat) (s : State)
    (r : HandlerResult)
    (h : attemptPass upstream srvCfg body projectName modelName env retry s
          = PassResult.finished r) :
    r.attempts = 1 ∧ r.reply.status ≠ some 503 := by
  unfold attemptPass at h
  simp only at h
  split at h
  · simp only [PassResult.finished.injEq] at h; subst h; exact ⟨rfl, by simp [Reply.status]⟩
  · exact absurd h (by simp)
  · exact absurd h (by simp)
  · split at h
    · simp only [PassResult.finished.injEq] at h; subst h; exact ⟨rfl, by simp [Reply.status]⟩
    · split at h
      · simp only [PassResult.finished.injEq] at h; subst h
        exact ⟨rfl, by simp [Reply.status]⟩
      · split at h
        · simp only [PassResult.finished.injEq] at h; subst h
          exact ⟨rfl, by simp [Reply.status]⟩
        · simp only [PassResult.finished.injEq] at h; subst h
          exact ⟨rfl, by simp [Reply.status]⟩
        · exact absurd h (by simp)
        · next st _ =>
          split at h
          · exact absurd h (by simp)
          · next hst =>
            simp only [PassResult.finished.injEq] at h; subst h
            refine ⟨rfl, ?_⟩
            simp only [Reply.status, ne_eq, Option.some.injEq]
            intro e
            exact hst ((retryableStatus_iff st).mpr (by omega))

/-- The retry loop entered with `remaining = MaxRetries + 1 - retry` passes left. -/
theorem retryLoop_budget (upstream : Upstream) (srvCfg : ServerConfig)
    (body projectName modelName : String) (env : ForwardEnv) :
    ∀ (remaining retry : Nat) (lastErr : Option String) (s : State),
      (remaining : Int) = srvCfg.MaxRetries + 1 - retry →
      (retryLoop upstream srvCfg body projectName modelName env remaining retry lastErr
          s).attempts ≤ remaining
      ∧ (allPassesFail upstream srvCfg body projectName modelName env remaining retry s = true →
          (retryLoop upstream srvCfg body projectName modelName env remaining retry lastErr
              s).attempts = remaining
          ∧ (retryLoop upstream srvCfg body projectName modelName env remaining retry lastErr
              s).reply.status = some 503)
      ∧ ((retryLoop upstream srvCfg body projectName modelName env remaining retry lastErr
              s).reply.status = some 503 →
          allPassesFail upstream srvCfg body projectName modelName env remaining retry s
            = true) := by
  intro remaining
  induction remaining with
  | zero =>
    intro retry lastErr s _
    exact ⟨le_refl _, fun _ => ⟨rfl, rfl⟩, fun _ => rfl⟩
  | succ n ih =>
    intro retry lastErr s hinv
    unfold retryLoop allPassesFail
    cases hp : attemptPass upstream srvCfg body projectName modelName env retry s with
    | finished r =>
      obtain ⟨h1, h2⟩ := attemptPass_finished _ _ _ _ _ _ _ _ _ hp
      simp only
      exact ⟨by omega, fun hf => absurd hf (by simp), fun h => absurd h h2⟩
    | noKey err s1 =>
      simp only
      by_cases hlt : (retry : Int) < srvCfg.MaxRetries
      · simp only [hlt, if_true]
        obtain ⟨i1, i2, i3⟩ := ih (retry + 1) (some err) s1 (by push_cast; omega)
        refine ⟨?_, fun hf => ⟨?_, ?_⟩, fun h => i3 h⟩
        · simp only [afterAttempt]; omega
        · simp only [afterAttempt]; rw [(i2 hf).1]
        · exact (i2 hf).2
      · simp only [hlt, if_false]
        have hn : n = 0 := by omega
        subst hn
        exact ⟨le_refl _, fun _ => ⟨rfl, rfl⟩, fun _ => rfl⟩
    | failed cs err s1 =>
      simp only
      by_cases hlt : (retry : Int) < srvCfg.MaxRetries
      · simp only [hlt, if_true]
        obtain ⟨i1, i2, i3⟩ := ih (retry + 1) (some err) s1 (by push_cast; omega)
        refine ⟨?_, fun hf => ⟨?_, ?_⟩, fun h => i3 h⟩
        · simp only [afterAttempt]; omega
        · simp only [afterAttempt]; rw [(i2 hf).1]
        · exact (i2 hf).2
      · simp only [hlt, if_false]
        have hn : n = 0 := by omega
        subst hn
        exact ⟨le_refl _, fun _ => ⟨rfl, rfl⟩, fun _ => rfl⟩

theorem nextRetry_of_lt (retry : Int) (h0 : -(2 ^ 63) ≤ retry) (h1 : retry < 2 ^ 63 - 1) :
    nextRetry retry = retry + 1 := by
  unfold nextRetry wrapInt64
  rw [Int.emod_eq_of_lt (by omega) (by omega)]
  omega

theorem nextRetry_range (retry : Int) :
    -(2 ^ 63) ≤ nextRetry retry ∧ nextRetry retry ≤ 2 ^ 63 - 1 := by
  unfold nextRetry wrapInt64
  have h1 := Int.emod_nonneg (retry + 1 + 2 ^ 63) (by norm_num : (2 : Int) ^ 64 ≠ 0)
  have h2 := Int.emod_lt_of_pos (retry + 1 + 2 ^ 63) (by norm_num : (0 : Int) < 2 ^ 64)
  constructor <;> omega

/-- For `MaxRetries` below the largest `int`, the loop followed with its 64-bit
variable returns what `retryLoop` computes, as soon as the fuel covers the passes
left and the last test of the loop condition. -/
theorem retryLoop64_ended (upstream : Upstream) (srvCfg : ServerConfig)
    (body projectName modelName : String) (env : ForwardEnv)
    (hmax : srvCfg.MaxRetries < 2 ^ 63 - 1) :
    ∀ (fuel pass : Nat) (lastErr : Option String) (s : State),
      (pass : Int) ≤ srvCfg.MaxRetries + 1 →
      srvCfg.MaxRetries + 1 - pass < fuel →
      retryLoop64 upstream srvCfg body projectName modelName env fuel pass pass lastErr s
        = LoopRun.ended (retryLoop upstream srvCfg body projectName modelName env
            (srvCfg.MaxRetries + 1 - pass).toNat pass lastErr s) := by
  intro fuel
  induction fuel with
  | zero =>
    intro pass lastErr s h1 h2
    exfalso
    simp only [Nat.cast_zero] at h2
    omega
  | succ n ih =>
    intro pass lastErr s h1 h2
    rw [retryLoop64]
    by_cases hle : (pass : Int) ≤ srvCfg.MaxRetries
    · rw [if_pos hle]
      have hk : (srvCfg.MaxRetries + 1 - pass).toNat = (srvCfg.MaxRetries - pass).toNat + 1 := by
        omega
      have hnext : nextRetry (pass : Int) = ((pass + 1 : Nat) : Int) := by
        rw [nextRetry_of_lt _ (by omega) (by omega)]
        push_cast
        rfl
      have hih := fun (e : Option String) (s1 : State) =>
        ih (pass + 1) e s1 (by push_cast; omega) (by push_cast; push_cast at h2; omega)
      have hrest : ∀ (e : String) (s1 : State),
          retryLoop upstream srvCfg body projectName modelName env
              (srvCfg.MaxRetries + 1 - ((pass + 1 : Nat) : Int)).toNat (pass + 1) (some e) s1
            = if (pass : Int) < srvCfg.MaxRetries then
                retryLoop upstream srvCfg body projectName modelName env
                  (srvCfg.MaxRetries - pass).toNat (pass + 1) (some e) s1
              else retriesExhausted upstream srvCfg projectName modelName env (some e) s1 := by
        intro e s1
        have hk2 : (srvCfg.MaxRetries + 1 - ((pass + 1 : Nat) : Int)).toNat
            = (srvCfg.MaxRetries - pass).toNat := by
          push_cast
          omega
        rw [hk2]
        by_cases hlt : (pass : Int) < srvCfg.MaxRetries
        · rw [if_pos hlt]
        · rw [if_neg hlt]
          have h0 : (srvCfg.MaxRetries - pass).toNat = 0 := by omega
          rw [h0]
          rfl
      rw [hk, retryLoop]
      cases hp : attemptPass upstream srvCfg body projectName modelName env pass s with
      | finished r => rfl
      | noKey e s1 =>
        simp only
        rw [hnext, hih, hrest]
        rfl
      | failed cs e s1 =>
        simp only
        by_cases hlt : (pass : Int) < srvCfg.MaxRetries
        · rw [if_pos hlt, if_pos hlt, hnext, hih, hrest, if_pos hlt]
          rfl
        · rw [if_neg hlt, if_neg hlt]
    · rw [if_neg hle]
      have h0 : (srvCfg.MaxRetries + 1 - pass).toNat = 0 := by omega
      rw [h0]
      rfl

/-- With `MaxRetries` the largest `int`, the loop variable never exceeds it: on an
upstream without keys every pass ends with the `continue` of line 550, and the loop
is still running after any number of passes. -/
theorem retryLoop64_without_keys (upstream : Upstream) (srvCfg : ServerConfig)
    (body projectName modelName : String) (env : ForwardEnv)
    (hkeys : upstream.Keys = []) (hmax : srvCfg.MaxRetries = 2 ^ 63 - 1) :
    ∀ (fuel pass : Nat) (retry : Int) (lastErr : Option String) (s : State),
      retry ≤ 2 ^ 63 - 1 →
      retryLoop64 upstream srvCfg body projectName modelName env fuel pass retry lastErr s
        = LoopRun.running fuel := by
  intro fuel
  induction fuel with
  | zero =>
    intro pass retry lastErr s _
    rfl
  | succ n ih =>
    intro pass retry lastErr s hr
    rw [retryLoop64, if_pos (by rw [hmax]; exact hr)]
    have hp : attemptPass upstream srvCfg body projectName modelName env pass s
        = PassResult.noKey ("上游 '" ++ upstream.Name ++ "' 未配置 Key") s := by
      unfold attemptPass GetAvailableKey
      simp [hkeys]
    rw [hp]
    simp only
    rw [ih (pass + 1) (nextRetry retry) _ s (nextRetry_range retry).2]
    rfl

/-- C6, amended: retry budget. For `0 ≤ max_retries < 2 ^ 63 - 1`, `forwardWithRetry`
makes at most `1 + max_retries` key acquisitions; when every pass is a retryable
failure it makes exactly `1 + max_retries` and answers 503; and it answers 503 only
then. A pass whose upstream call does not end with `io.EOF` is a retryable failure
exactly when no key is available, or the upstream call made with the key fails with
an error other than that of the request context, or it is answered with status 401,
429 or at least 500. The loop followed with its 64-bit variable returns that very
result once it is given `max_retries + 2` steps. -/
theorem forwardWithRetry_budget (upstream : Upstream) (srvCfg : ServerConfig)
    (body projectName modelName : String) (env : ForwardEnv) (s : State)
    (hmr : 0 ≤ srvCfg.MaxRetries) (hmax : srvCfg.MaxRetries < 2 ^ 63 - 1) :
    ((forwardWithRetry upstream srvCfg body projectName modelName env s).attempts : Int)
        ≤ 1 + srvCfg.MaxRetries
    ∧ (allPassesFail upstream srvCfg body projectName modelName env
          (srvCfg.MaxRetries + 1).toNat 0 s = true →
        ((forwardWithRetry upstream srvCfg body projectName modelName env s).attempts : Int)
            = 1 + srvCfg.MaxRetries
        ∧ (forwardWithRetry upstream srvCfg body projectName modelName env s).reply.status
            = some 503)
    ∧ ((forwardWithRetry upstream srvCfg body projectName modelName env s).reply.status
          = some 503 →
        allPassesFail upstream srvCfg body projectName modelName env
          (srvCfg.MaxRetries + 1).toNat 0 s = true)
    ∧ (∀ retry s0, (env.attempt retry).result ≠ DoResult.eof →
        ((attemptPass upstream srvCfg body projectName modelName env retry s0).isFailed = true
        ↔ ((GetAvailableKey upstream (env.attempt retry).nowKey s0).1.isError = true
            ∨ ((∃ k, (GetAvailableKey upstream (env.attempt retry).nowKey s0).1
                      = KeyResult.key k)
                ∧ env.urlParseOk = true ∧ env.newRequestOk = true
                ∧ ((∃ err, (env.attempt retry).result = DoResult.networkError err)
                    ∨ ∃ st, (env.attempt retry).result = DoResult.response st
                        ∧ (st = 401 ∨ st = 429 ∨ st ≥ 500))))))
    ∧ (∀ fuel : Nat, srvCfg.MaxRetries + 1 < fuel →
        forwardWithRetry64 upstream srvCfg body projectName modelName env fuel s
          = LoopRun.ended (forwardWithRetry upstream srvCfg body projectName modelName env s)) := by
  have hinv : (((srvCfg.MaxRetries + 1).toNat : Nat) : Int) = srvCfg.MaxRetries + 1 - (0 : Nat) := by
    rw [Int.toNat_of_nonneg (by omega)]; simp
  obtain ⟨h1, h2, h3⟩ := retryLoop_budget upstream srvCfg body projectName modelName env
    (srvCfg.MaxRetries + 1).toNat 0 none s hinv
  have hcast : (((srvCfg.MaxRetries + 1).toNat : Nat) : Int) = 1 + srvCfg.MaxRetries := by
    rw [Int.toNat_of_nonneg (by omega)]; omega
  refine ⟨?_, fun hf => ⟨?_, (h2 hf).2⟩, h3, ?_, ?_⟩
  · unfold forwardWithRetry
    rw [← hcast]
    exact_mod_cast h1
  · unfold forwardWithRetry
    rw [← hcast, (h2 hf).1]
  · intro retry s0 hne
    unfold attemptPass
    simp only
    rcases hg : GetAvailableKey upstream (env.attempt retry).nowKey s0 with ⟨kr, s1⟩
    cases kr with
    | indexOutOfRange =>
      exact absurd (congrArg Prod.fst hg) (GetAvailableKey_in_range _ _ _)
    | notConfigured msg => simp [PassResult.isFailed, KeyResult.isError]
    | allCooling msg => simp [PassResult.isFailed, KeyResult.isError]
    | key k =>
      simp only [KeyResult.isError, false_or, KeyResult.key.injEq, exists_eq', true_and]
      cases hu : env.urlParseOk <;> cases hr : env.newRequestOk <;>
        simp [PassResult.isFailed]
      cases hres : (env.attempt retry).result with
      | eof => exact absurd hres hne
      | contextError => simp [PassResult.isFailed]
      | networkError err => simp [PassResult.isFailed]
      | response st =>
        by_cases hst : retryableStatus st = true
        · simp [PassResult.isFailed, hst, (retryableStatus_iff st).mp hst]
        · have hst2 : retryableStatus st = false := by simpa using hst
          have hno : ¬ (st = 401 ∨ st = 429 ∨ st ≥ 500) :=
            fun h => hst ((retryableStatus_iff st).mpr h)
          simp only [hst2]
          simp [PassResult.isFailed, hno]
  · intro fuel hfuel
    have := retryLoop64_ended upstream srvCfg body projectName modelName env hmax fuel 0 none s
      (by simp only [Nat.cast_zero]; omega) (by simp only [Nat.cast_zero]; omega)
    simp only [Nat.cast_zero, sub_zero] at this
    exact this

/-- C6, witness: no retries allowed, the upstream answers 500. -/
theorem forwardWithRetry_budget_witness :
    (0 : Int) ≤ (serverWith 0 5).MaxRetries
    ∧ (serverWith 0 5).MaxRetries < 2 ^ 63 - 1
    ∧ allPassesFail threeKeys (serverWith 0 5) "" "P" "gpt-x" (alwaysStatus 500)
        ((serverWith 0 5).MaxRetries + 1).toNat 0 State.init = true
    ∧ ((forwardWithRetry threeKeys (serverWith 0 5) "" "P" "gpt-x" (alwaysStatus 500)
          State.init).attempts : Int) = 1 + (serverWith 0 5).MaxRetries
    ∧ (forwardWithRetry threeKeys (serverWith 0 5) "" "P" "gpt-x" (alwaysStatus 500)
          State.init).reply.status = some 503 :=
  ⟨by decide, by decide, by decide,
   ((forwardWithRetry_budget threeKeys (serverWith 0 5) "" "P" "gpt-x" (alwaysStatus 500)
      State.init (by decide) (by decide)).2.1 (by decide))⟩

/-- C6, counterexample. With `max_retries = 2 ^ 63 - 1`, the largest `int`, and an
upstream without keys, every pass ends with the `continue` of line 550 and the loop
variable wraps instead of exceeding `max_retries`: after `2 ^ 63 + 1` key
acquisitions, one more than `1 + max_retries`, the loop is still running. And with
`max_retries = 2`, when the upstream closes the connection of the first call, a
transport error that is not the client's, the handler returns after that one
attempt and answers nothing, where three attempts and a 503 are claimed. -/
theorem retry_budget_exceeded_and_cut_short :
    forwardWithRetry64 noKeys (serverWith (2 ^ 63 - 1) 5) "" "P" "gpt-x" (alwaysStatus 500)
        (2 ^ 63 + 1) State.init = LoopRun.running (2 ^ 63 + 1)
    ∧ (((2 ^ 63 + 1 : Nat) : Int) > 1 + (serverWith (2 ^ 63 - 1) 5).MaxRetries)
    ∧ (upstreamCloses.attempt 0).result = DoResult.eof
    ∧ (forwardWithRetry threeKeys (serverWith 2 5) "" "P" "gpt-x" upstreamCloses
        State.init).attempts = 1
    ∧ (forwardWithRetry threeKeys (serverWith 2 5) "" "P" "gpt-x" upstreamCloses
        State.init).reply = Reply.disconnected
    ∧ (forwardWithRetry threeKeys (serverWith 2 5) "" "P" "gpt-x" upstreamCloses
        State.init).reply.status ≠ some 503 := by
  refine ⟨?_, by decide, by decide, by decide, by decide, by decide⟩
  exact retryLoop64_without_keys noKeys (serverWith (2 ^ 63 - 1) 5) "" "P" "gpt-x"
    (alwaysStatus 500) rfl rfl (2 ^ 63 + 1) 0 0 none State.init (by norm_num)

/-! ## Request handler: authentication, authorization, routing -/

theorem hasModel_iff (m : String) (l : List String) : hasModel m l = true ↔ m ∈ l := by
  induction l with
  | nil => simp [hasModel]
  | cons x xs ih =>
    unfold hasModel
    by_cases h : x = m
    · simp [h]
    · simp only [h, if_false, ih, List.mem_cons]
      constructor
      · intro hm; exact Or.inr hm
      · rintro (e | hm)
        · exact absurd e.symm h
        · exact hm

theorem isAllowed_iff (m : String) (l : List String) :
    isAllowed m l = true ↔ ("*" ∈ l ∨ m ∈ l) := by
  induction l with
  | nil => simp [isAllowed]
  | cons x xs ih =>
    unfold isAllowed
    by_cases h : x = "*" ∨ x = m
    · simp only [h, if_true, List.mem_cons, true_iff]
      rcases h with h | h
      · exact Or.inl (Or.inl h.symm)
      · exact Or.inr (Or.inl h.symm)
    · simp only [h, if_false, ih, List.mem_cons]
      have h1 : ¬ "*" = x := fun e => h (Or.inl e.symm)
      have h2 : ¬ m = x := fun e => h (Or.inr e.symm)
      simp [h1, h2]

theorem supportsModel_iff (m : String) (l : List String) :
    supportsModel m l = true ↔ ("*" ∈ l ∨ m ∈ l) := by
  induction l with
  | nil => simp [supportsModel]
  | cons x xs ih =>
    unfold supportsModel
    by_cases h : x = "*" ∨ x = m
    · simp only [h, if_true, List.mem_cons, true_iff]
      rcases h with h | h
      · exact Or.inl (Or.inl h.symm)
      · exact Or.inr (Or.inl h.symm)
    · simp only [h, if_false, ih, List.mem_cons]
      have h1 : ¬ "*" = x := fun e => h (Or.inl e.symm)
      have h2 : ¬ m = x := fun e => h (Or.inr e.symm)
      simp [h1, h2]

theorem splitColon2_cases (s : String) :
    (∃ a b, splitColon2 s = [a, b]) ∨ splitColon2 s = [s] := by
  unfold splitColon2
  cases cutAt ':' s.data with
  | none => exact Or.inr rfl
  | some p => exact Or.inl ⟨_, _, rfl⟩

/-- The effective model computed by `handleRequest` is the one of `effectiveModel`. -/
theorem resolveAlias_snd (autoModels : List (String × String)) (reqModel : String) :
    (resolveAlias autoModels reqModel).2 = effectiveModel autoModels reqModel := by
  unfold resolveAlias effectiveModel realModelOf
  cases autoLookup reqModel autoModels with
  | none => rfl
  | some v =>
    rcases splitColon2_cases v with ⟨a, b, h⟩ | h <;> simp [h]

theorem cutAt_colon (a b : List Char) (ha : ':' ∉ a) :
    cutAt ':' (a ++ ':' :: b) = some (a, b) := by
  induction a with
  | nil => simp [cutAt]
  | cons c cs ih =>
    have hc : c ≠ ':' := fun e => ha (by simp [e])
    have hcs : ':' ∉ cs := fun e => ha (List.mem_cons_of_mem _ e)
    simp [cutAt, hc, ih hcs]

/-- An alias target `U:M` with no colon in `U` pins upstream `U` with model `M`. -/
theorem resolveAlias_pinned (autoModels : List (String × String)) (reqModel U M : String)
    (hU : ':' ∉ U.data) (hlook : autoLookup reqModel autoModels = some (U ++ ":" ++ M)) :
    resolveAlias autoModels reqModel = (U, M) := by
  have hsplit : splitColon2 (U ++ ":" ++ M) = [U, M] := by
    unfold splitColon2
    have hd : (U ++ ":" ++ M).data = U.data ++ ':' :: M.data := by
      simp [String.data_append]
    rw [hd, cutAt_colon _ _ hU]
  unfold resolveAlias
  rw [hlook]
  simp only [hsplit]

theorem scanPass_none (m : String) :
    ∀ (us : List Upstream), (∀ u ∈ us, m ∉ u.Models) → scanPass m us = none
  | [], _ => rfl
  | u :: us, h => by
    have hu : hasModel m u.Models = false := by
      have := h u (List.mem_cons_self _ _)
      rw [← hasModel_iff] at this
      simpa using this
    unfold scanPass
    rw [hu]
    exact scanPass_none m us (fun v hv => h v (List.mem_cons_of_mem _ hv))

/-- The scan returns the lowest-index upstream whose models hold `m`. -/
theorem scanPass_first (m : String) :
    ∀ (us : List Upstream) (i : Nat) (u : Upstream), us[i]? = some u → m ∈ u.Models →
      (∀ j v, j < i → us[j]? = some v → m ∉ v.Models) → scanPass m us = some u
  | [], i, u, hi, _, _ => by simp at hi
  | v :: us, 0, u, hi, hm, _ => by
    simp only [List.getElem?_cons_zero, Option.some.injEq] at hi
    subst hi
    unfold scanPass
    rw [(hasModel_iff m v.Models).mpr hm]
    rfl
  | v :: us, i + 1, u, hi, hm, hbefore => by
    have hv : hasModel m v.Models = false := by
      have := hbefore 0 v (by omega) (List.getElem?_cons_zero ..)
      rw [← hasModel_iff] at this
      simpa using this
    unfold scanPass
    rw [hv]
    simp only [List.getElem?_cons_succ] at hi
    exact scanPass_first m us i u hi hm
      (fun j w hj hw => hbefore (j + 1) w (by omega) (by simpa using hw))

theorem pinnedPass_none (name model : String) :
    ∀ (us : List Upstream), (∀ u ∈ us, u.Name ≠ name) → pinnedPass name model us = none
  | [], _ => rfl
  | u :: us, h => by
    unfold pinnedPass
    rw [if_neg (h u (List.mem_cons_self _ _))]
    exact pinnedPass_none name model us (fun v hv => h v (List.mem_cons_of_mem _ hv))

/-- The pinned pass looks at the lowest-index upstream with the pinned name only. -/
theorem pinnedPass_first (name model : String) :
    ∀ (us : List Upstream) (i : Nat) (u : Upstream), us[i]? = some u → u.Name = name →
      (∀ j v, j < i → us[j]? = some v → v.Name ≠ name) →
      pinnedPass name model us = if supportsModel model u.Models then some u else none
  | [], i, u, hi, _, _ => by simp at hi
  | v :: us, 0, u, hi, hn, _ => by
    simp only [List.getElem?_cons_zero, Option.some.injEq] at hi
    subst hi
    unfold pinnedPass
    rw [if_pos hn]
  | v :: us, i + 1, u, hi, hn, hbefore => by
    unfold pinnedPass
    rw [if_neg (hbefore 0 v (by omega) (List.getElem?_cons_zero ..))]
    simp only [List.getElem?_cons_succ] at hi
    exact pinnedPass_first name model us i u hi hn
      (fun j w hj hw => hbefore (j + 1) w (by omega) (by simpa using hw))

theorem pinnedPass_name (name model : String) :
    ∀ (us : List Upstream) (u : Upstream), pinnedPass name model us = some u → u.Name = name
  | [], u, h => by simp [pinnedPass] at h
  | v :: us, u, h => by
    unfold pinnedPass at h
    by_cases hv : v.Name = name
    · rw [if_pos hv] at h
      split at h
      · simp only [Option.some.injEq] at h; rw [← h]; exact hv
      · exact absurd h (by simp)
    · rw [if_neg hv] at h
      exact pinnedPass_name name model us u h

/-- What a pass that ends the handler answers, and where its calls go. -/
theorem attemptPass_finished_reply (upstream : Upstream) (srvCfg : ServerConfig)
    (body projectName modelName : String) (env : ForwardEnv) (retry : Nat) (s : State)
    (r : HandlerResult)
    (h : attemptPass upstream srvCfg body projectName modelName env retry s
          = PassResult.finished r) :
    (∀ c msg, r.reply = Reply.abortJSON c msg → c = 500)
    ∧ (∀ d, r.reply ≠ Reply.models d)
    ∧ ∀ c ∈ r.calls, c.Upstream = upstream.Name := by
  unfold attemptPass at h
  simp only at h
  split at h
  · simp only [PassResult.finished.injEq] at h; subst h; simp
  · exact absurd h (by simp)
  · exact absurd h (by simp)
  · split at h
    · simp only [PassResult.finished.injEq] at h; subst h; simp
    · split at h
      · simp only [PassResult.finished.injEq] at h; subst h; simp
      · split at h
        · simp only [PassResult.finished.injEq] at h; subst h; simp
        · simp only [PassResult.finished.injEq] at h; subst h; simp
        · exact absurd h (by simp)
        · split at h
          · exact absurd h (by simp)
          · simp only [PassResult.finished.injEq] at h; subst h; simp

theorem attemptPass_failed_calls (upstream : Upstream) (srvCfg : ServerConfig)
    (body projectName modelName : String) (env : ForwardEnv) (retry : Nat) (s s1 : State)
    (cs : List OutboundCall) (err : String)
    (h : attemptPass upstream srvCfg body projectName modelName env retry s
          = PassResult.failed cs err s1) :
    ∀ c ∈ cs, c.Upstream = upstream.Name := by
  unfold attemptPass at h
  simp only at h
  split at h
  · exact absurd h (by simp)
  · exact absurd h (by simp)
  · exact absurd h (by simp)
  · split at h
    · exact absurd h (by simp)
    · split at h
      · exact absurd h (by simp)
      · split at h
        · exact absurd h (by simp)
        · exact absurd h (by simp)
        · simp only [PassResult.failed.injEq] at h; rw [← h.1]; simp
        · split at h
          · simp only [PassResult.failed.injEq] at h; rw [← h.1]; simp
          · exact absurd h (by simp)

/-- The answers `forwardWithRetry` can write itself carry status 500 or 503, and
every upstream call it makes goes to the upstream it was given. -/
theorem retryLoop_reply_calls (upstream : Upstream) (srvCfg : ServerConfig)
    (body projectName modelName : String) (env : ForwardEnv) :
    ∀ (remaining retry : Nat) (lastErr : Option String) (s : State),
      (∀ c msg, (retryLoop upstream srvCfg body projectName modelName env remaining retry
          lastErr s).reply = Reply.abortJSON c msg → c = 500)
      ∧ (∀ d, (retryLoop upstream srvCfg body projectName modelName env remaining retry
          lastErr s).reply ≠ Reply.models d)
      ∧ ∀ c ∈ (retryLoop upstream srvCfg body projectName modelName env remaining retry
          lastErr s).calls, c.Upstream = upstream.Name := by
  intro remaining
  induction remaining with
  | zero =>
    intro retry lastErr s
    simp [retryLoop, retriesExhausted]
  | succ n ih =>
    intro retry lastErr s
    unfold retryLoop
    cases hp : attemptPass upstream srvCfg body projectName modelName env retry s with
    | finished r => exact attemptPass_finished_reply _ _ _ _ _ _ _ _ _ hp
    | noKey err s1 =>
      simp only
      split
      · obtain ⟨i1, i2, i3⟩ := ih (retry + 1) (some err) s1
        refine ⟨i1, i2, ?_⟩
        intro c hc
        simp only [afterAttempt, List.nil_append] at hc
        exact i3 c hc
      · refine ⟨by simp [afterAttempt, retriesExhausted],
          by simp [afterAttempt, retriesExhausted], ?_⟩
        intro c hc
        simp [afterAttempt, retriesExhausted] at hc
    | failed cs err s1 =>
      have hcs := attemptPass_failed_calls _ _ _ _ _ _ _ _ _ _ _ hp
      simp only
      split
      · obtain ⟨i1, i2, i3⟩ := ih (retry + 1) (some err) s1
        refine ⟨i1, i2, ?_⟩
        intro c hc
        simp only [afterAttempt, List.mem_append] at hc
        rcases hc with hc | hc
        · exact hcs c hc
        · exact i3 c hc
      · refine ⟨by simp [afterAttempt, retriesExhausted],
          by simp [afterAttempt, retriesExhausted], ?_⟩
        intro c hc
        simp only [afterAttempt, retriesExhausted, List.append_nil] at hc
        exact hcs c hc

theorem forwardedBody_eq_none (lib : JsonLib) (am : List (String × String))
    (bodyBytes : String) :
    forwardedBody lib am bodyBytes = none
      ↔ ((autoLookup (requestedModel lib bodyBytes) am).isSome = true
          ∧ lib.decodeObject bodyBytes = Decoded.nilMap) := by
  unfold forwardedBody rewriteBody
  by_cases h : (autoLookup (requestedModel lib bodyBytes) am).isSome = true
  · rw [if_pos h]
    cases hd : lib.decodeObject bodyBytes with
    | error => simp
    | nilMap => simp [h]
    | object m =>
      simp only
      cases lib.encodeObject (setMember "model"
        (lib.ofString (resolveAlias am (requestedModel lib bodyBytes)).2) m) <;> simp
  · rw [if_neg h]
    simp [h]

/-- The run of `handleRequest` on a request that is not the model listing, whose
token matches a project with a non-empty name, whose body is read, and on which
lines 445-462 leave the body `fwd`. -/
theorem handleRequest_proxied (lib : JsonLib) (cfg : Config) (req : Request) (nowUnix : Int)
    (env : ForwardEnv) (s : State) (p : ProjectKey) (bodyBytes fwd : String)
    (hproxy : ¬ isModelsRequest req)
    (hauth : findProject (TrimPrefix req.Authorization "Bearer ") cfg.ProjectAuth = some p)
    (hname : p.ProjectName ≠ "")
    (hbody : req.RawData = some bodyBytes)
    (hfwd : forwardedBody lib cfg.Server.AutoModels bodyBytes = some fwd) :
    handleRequest lib cfg req nowUnix env s
      = if isAllowed (resolveAlias cfg.Server.AutoModels (requestedModel lib bodyBytes)).2
            p.AllowedModels = false then
          answer (Reply.abortJSON 403
            ("Model '" ++ (resolveAlias cfg.Server.AutoModels (requestedModel lib bodyBytes)).2
              ++ "' is not allowed for project '" ++ p.ProjectName ++ "'")) s
        else
          match matchUpstream cfg.Upstreams
              (resolveAlias cfg.Server.AutoModels (requestedModel lib bodyBytes)).1
              (resolveAlias cfg.Server.AutoModels (requestedModel lib bodyBytes)).2 with
          | none =>
            answer (noUpstreamReply
              (resolveAlias cfg.Server.AutoModels (requestedModel lib bodyBytes)).1
              (resolveAlias cfg.Server.AutoModels (requestedModel lib bodyBytes)).2) s
          | some u =>
            forwardWithRetry u cfg.Server fwd p.ProjectName
              (resolveAlias cfg.Server.AutoModels (requestedModel lib bodyBytes)).2 env s := by
  unfold isModelsRequest at hproxy
  unfold handleRequest
  rw [if_neg hproxy]
  simp only [hauth, hname, if_false, hbody, hfwd]
  cases isAllowed (resolveAlias cfg.Server.AutoModels (requestedModel lib bodyBytes)).2
      p.AllowedModels <;> simp

/-- The run of `handleRequest` on a request that is not the model listing, whose
token matches a project with a non-empty name, whose body is read, and on which
line 457 panics. -/
theorem handleRequest_faulted (lib : JsonLib) (cfg : Config) (req : Request) (nowUnix : Int)
    (env : ForwardEnv) (s : State) (p : ProjectKey) (bodyBytes : String)
    (hproxy : ¬ isModelsRequest req)
    (hauth : findProject (TrimPrefix req.Authorization "Bearer ") cfg.ProjectAuth = some p)
    (hname : p.ProjectName ≠ "")
    (hbody : req.RawData = some bodyBytes)
    (hfwd : forwardedBody lib cfg.Server.AutoModels bodyBytes = none) :
    handleRequest lib cfg req nowUnix env s = answer Reply.panicked s := by
  unfold isModelsRequest at hproxy
  unfold handleRequest
  rw [if_neg hproxy]
  simp only [hauth, hname, if_false, hbody, hfwd]

/-- The permission check of lines 465-477. For a request that is not the model
listing (`GET /models`), whose token matches a project with a non-empty name, whose
body is read and on which lines 445-462 run without a panic, `handleRequest`
answers 403 itself if and only if the project's `allowed_models` holds neither `*`
nor the effective model (the real model of the alias target when the requested
model is a key of `auto_models`, the requested model otherwise); in particular,
when the requested model is an alias other than `*` whose real model differs from
it, listing only the alias in `allowed_models` yields 403. -/
theorem forbidden_iff_effective_model_not_allowed (lib : JsonLib) (cfg : Config)
    (req : Request) (nowUnix : Int) (env : ForwardEnv) (s : State) (p : ProjectKey)
    (bodyBytes fwd : String)
    (hproxy : ¬ isModelsRequest req)
    (hauth : findProject (TrimPrefix req.Authorization "Bearer ") cfg.ProjectAuth = some p)
    (hname : p.ProjectName ≠ "")
    (hbody : req.RawData = some bodyBytes)
    (hfwd : forwardedBody lib cfg.Server.AutoModels bodyBytes = some fwd) :
    ((∃ msg, (handleRequest lib cfg req nowUnix env s).reply = Reply.abortJSON 403 msg)
      ↔ ("*" ∉ p.AllowedModels
          ∧ effectiveModel cfg.Server.AutoModels (requestedModel lib bodyBytes)
              ∉ p.AllowedModels))
    ∧ (∀ mapVal,
        autoLookup (requestedModel lib bodyBytes) cfg.Server.AutoModels = some mapVal →
        requestedModel lib bodyBytes ≠ "*" →
        realModelOf mapVal ≠ requestedModel lib bodyBytes →
        p.AllowedModels = [requestedModel lib bodyBytes] →
        ∃ msg, (handleRequest lib cfg req nowUnix env s).reply = Reply.abortJSON 403 msg) := by
  have hrun := handleRequest_proxied lib cfg req nowUnix env s p bodyBytes fwd hproxy hauth hname
    hbody hfwd
  have hiff : (∃ msg, (handleRequest lib cfg req nowUnix env s).reply = Reply.abortJSON 403 msg)
      ↔ ("*" ∉ p.AllowedModels
          ∧ effectiveModel cfg.Server.AutoModels (requestedModel lib bodyBytes)
              ∉ p.AllowedModels) := by
    rw [hrun, ← resolveAlias_snd]
    by_cases hal : isAllowed (resolveAlias cfg.Server.AutoModels
        (requestedModel lib bodyBytes)).2 p.AllowedModels = true
    · have hmem := (isAllowed_iff _ _).mp hal
      rw [if_neg (by simp [hal])]
      constructor
      · rintro ⟨msg, hmsg⟩
        exfalso
        cases hm : matchUpstream cfg.Upstreams
            (resolveAlias cfg.Server.AutoModels (requestedModel lib bodyBytes)).1
            (resolveAlias cfg.Server.AutoModels (requestedModel lib bodyBytes)).2 with
        | none =>
          rw [hm] at hmsg
          simp only [answer, noUpstreamReply] at hmsg
          split at hmsg <;> simp at hmsg
        | some u =>
          rw [hm] at hmsg
          have := (retryLoop_reply_calls u cfg.Server _ p.ProjectName _ env _ 0 none s).1 403 msg
            hmsg
          omega
      · rintro ⟨h1, h2⟩
        rcases hmem with h | h
        · exact absurd h h1
        · exact absurd h h2
    · have hal2 : isAllowed (resolveAlias cfg.Server.AutoModels
          (requestedModel lib bodyBytes)).2 p.AllowedModels = false := by simpa using hal
      rw [if_pos hal2]
      refine ⟨fun _ => ?_, fun _ => ⟨_, rfl⟩⟩
      have hno : ¬ ("*" ∈ p.AllowedModels
          ∨ (resolveAlias cfg.Server.AutoModels (requestedModel lib bodyBytes)).2
              ∈ p.AllowedModels) := fun h => hal ((isAllowed_iff _ _).mpr h)
      exact ⟨fun h => hno (Or.inl h), fun h => hno (Or.inr h)⟩
  refine ⟨hiff, ?_⟩
  intro mapVal hlook hstar hreal hallowed
  apply hiff.mpr
  rw [hallowed]
  unfold effectiveModel
  rw [hlook]
  simp only [List.mem_singleton]
  exact ⟨fun e => hstar e.symm, hreal⟩

/-- The permission check on an example: the alias `fast` of `A:gpt-x` asked by a
project allowed `fast` only. -/
theorem forbidden_iff_effective_model_not_allowed_witness :
    ¬ isModelsRequest (postFor "fast")
    ∧ findProject (TrimPrefix (postFor "fast").Authorization "Bearer ")
        (sampleConfig "P" ["fast"] "A:gpt-x").ProjectAuth = some ⟨"P", "t1", ["fast"]⟩
    ∧ forwardedBody sampleJson (sampleConfig "P" ["fast"] "A:gpt-x").Server.AutoModels
        (modelBody "fast") = some (modelBody "gpt-x")
    ∧ ∃ msg, (handleRequest sampleJson (sampleConfig "P" ["fast"] "A:gpt-x") (postFor "fast") 0
        (alwaysStatus 200) State.init).reply = Reply.abortJSON 403 msg :=
  ⟨by decide, by decide, by decide,
   (forbidden_iff_effective_model_not_allowed sampleJson (sampleConfig "P" ["fast"] "A:gpt-x")
      (postFor "fast") 0 (alwaysStatus 200) State.init ⟨"P", "t1", ["fast"]⟩ (modelBody "fast")
      (modelBody "gpt-x") (by decide) (by decide) (by decide) rfl (by decide)).2 "A:gpt-x"
      (by decide) (by decide) (by decide) rfl⟩

/-- C7, the failing input. `auto_models` maps the empty name to `secret`, the
project of token `t1` is allowed `gpt-x` only, and the body is the JSON literal
`null`. The requested model is the empty name, an alias whose real model `secret`
the project may not use, so that 403 is claimed. The handler panics instead at line
457, before the permission check: `json.Unmarshal` returns no error and leaves the
map nil, and the assignment to one of its entries faults. With the body `\x7b\x7d`
the same request reaches the check and is answered with 403. -/
theorem null_body_panics_before_permission_check :
    ¬ isModelsRequest (postBody "null")
    ∧ findProject (TrimPrefix (postBody "null").Authorization "Bearer ")
        (configWithAlias ["gpt-x"] "" "secret").ProjectAuth = some ⟨"P", "t1", ["gpt-x"]⟩
    ∧ requestedModel sampleJson "null" = ""
    ∧ effectiveModel (configWithAlias ["gpt-x"] "" "secret").Server.AutoModels "" = "secret"
    ∧ "*" ∉ ["gpt-x"] ∧ "secret" ∉ ["gpt-x"]
    ∧ sampleJson.decodeObject "null" = Decoded.nilMap
    ∧ (handleRequest sampleJson (configWithAlias ["gpt-x"] "" "secret") (postBody "null") 0
        (alwaysStatus 200) State.init).reply = Reply.panicked
    ∧ (handleRequest sampleJson (configWithAlias ["gpt-x"] "" "secret") (postBody "null") 0
        (alwaysStatus 200) State.init).reply.status ≠ some 403
    ∧ (handleRequest sampleJson (configWithAlias ["gpt-x"] "" "secret")
        (postBody "\x7b\x7d") 0 (alwaysStatus 200) State.init).reply
        = Reply.abortJSON 403 "Model 'secret' is not allowed for project 'P'" := by
  decide

/-- C8, the failing input: the token `t1` matches the only `project_auth` entry,
whose `project_name` is empty; `handleRequest` answers 401 all the same, while
`handleModels` accepts the same token. -/
theorem empty_project_name_unauthorized :
    findProject (TrimPrefix (postFor "gpt-x").Authorization "Bearer ")
        (sampleConfig "" ["*"] "A:gpt-x").ProjectAuth = some ⟨"", "t1", ["*"]⟩
    ∧ (handleRequest sampleJson (sampleConfig "" ["*"] "A:gpt-x") (postFor "gpt-x") 0
        (alwaysStatus 200) State.init).reply
        = Reply.abortJSON 401 "Unauthorized Project Key"
    ∧ (handleRequest sampleJson (sampleConfig "P" ["*"] "A:gpt-x") (postFor "gpt-x") 0
        (alwaysStatus 200) State.init).reply = Reply.relayed 200
    ∧ handleModels (sampleConfig "" ["*"] "A:gpt-x") getModels 0
        = Reply.models [⟨"gpt-x", "model", 0, "A"⟩, ⟨"fast", "model", 0, "system-auto-map"⟩] := by
  decide

/-- C9: unpinned routing is a two-pass scan. With no pinned upstream the target is
the lowest-index upstream whose models hold the effective model `m` exactly, if
there is one; otherwise the lowest-index upstream whose models hold `*`; otherwise
there is none. A request that reaches routing (it is not the model listing, its
token matches a project with a non-empty name, its body is read, lines 445-462 leave
the body `fwd` without a panic, and its effective model is allowed) is forwarded to
that target, and answered with 400 when there is none. -/
theorem unpinned_routing (ups : List Upstream) (m : String) :
    (∀ (i : Nat) (u : Upstream), ups[i]? = some u → m ∈ u.Models →
        (∀ (j : Nat) (v : Upstream), j < i → ups[j]? = some v → m ∉ v.Models) →
        matchUpstream ups "" m = some u)
    ∧ ((∀ u ∈ ups, m ∉ u.Models) →
        ∀ (i : Nat) (u : Upstream), ups[i]? = some u → "*" ∈ u.Models →
          (∀ (j : Nat) (v : Upstream), j < i → ups[j]? = some v → "*" ∉ v.Models) →
          matchUpstream ups "" m = some u)
    ∧ ((∀ u ∈ ups, m ∉ u.Models ∧ "*" ∉ u.Models) → matchUpstream ups "" m = none)
    ∧ (∀ (lib : JsonLib) (cfg : Config) (req : Request) (nowUnix : Int) (env : ForwardEnv)
        (s : State) (p : ProjectKey) (bodyBytes fwd : String),
        cfg.Upstreams = ups → ¬ isModelsRequest req →
        findProject (TrimPrefix req.Authorization "Bearer ") cfg.ProjectAuth = some p →
        p.ProjectName ≠ "" → req.RawData = some bodyBytes →
        forwardedBody lib cfg.Server.AutoModels bodyBytes = some fwd →
        resolveAlias cfg.Server.AutoModels (requestedModel lib bodyBytes) = ("", m) →
        ("*" ∈ p.AllowedModels ∨ m ∈ p.AllowedModels) →
        handleRequest lib cfg req nowUnix env s
          = match matchUpstream ups "" m with
            | some u => forwardWithRetry u cfg.Server fwd p.ProjectName m env s
            | none => answer (Reply.abortJSON 400 ("No upstream found for model: " ++ m)) s) := by
  refine ⟨?_, ?_, ?_, ?_⟩
  · intro i u hi hm hbefore
    unfold matchUpstream
    rw [if_neg (by simp), scanPass_first m ups i u hi hm hbefore]
  · intro hnone i u hi hm hbefore
    unfold matchUpstream
    rw [if_neg (by simp), scanPass_none m ups hnone, scanPass_first "*" ups i u hi hm hbefore]
  · intro hnone
    unfold matchUpstream
    rw [if_neg (by simp), scanPass_none m ups (fun u hu => (hnone u hu).1),
      scanPass_none "*" ups (fun u hu => (hnone u hu).2)]
  · intro lib cfg req nowUnix env s p bodyBytes fwd hups hproxy hauth hname hbody hfwd htarget
      hallowed
    rw [handleRequest_proxied lib cfg req nowUnix env s p bodyBytes fwd hproxy hauth hname hbody
      hfwd, htarget, hups]
    simp only
    rw [if_neg (by simp [(isAllowed_iff m p.AllowedModels).mpr hallowed])]
    cases matchUpstream ups "" m with
    | none => simp [noUpstreamReply]
    | some u => rfl

/-- C9, witness: a wildcard upstream declared first loses to an explicit match
declared second. -/
theorem unpinned_routing_witness :
    [⟨"W", "http://w", ["*"], ["w1"]⟩, threeKeys][1]? = some threeKeys
    ∧ "gpt-x" ∈ threeKeys.Models
    ∧ matchUpstream [⟨"W", "http://w", ["*"], ["w1"]⟩, threeKeys] "" "gpt-x" = some threeKeys :=
  ⟨by decide, by decide,
   (unpinned_routing [⟨"W", "http://w", ["*"], ["w1"]⟩, threeKeys] "gpt-x").1 1 threeKeys
     (by decide) (by decide)
     (fun j v hj hv => by
        have hj0 : j = 0 := by omega
        subst hj0
        simp only [List.getElem?_cons_zero, Option.some.injEq] at hv
        subst hv
        decide)⟩

/-- C10, amended: for a request that reaches routing (it is not the model listing,
its token matches a project with a non-empty name, its body is read, lines 445-462
leave the body `fwd` without a panic, and its effective model is allowed) and whose
model is a key of `auto_models` mapped to `U:M`, with `U` non-empty and free of
colons, the request is forwarded with model `M` to the first upstream named `U` when
its models hold `M` or `*`; it is answered with 400 and nothing is sent when that
upstream supports neither or no upstream is named `U`; and every upstream call made
for the request goes to an upstream named `U`. -/
theorem pinned_routing (lib : JsonLib) (cfg : Config) (req : Request) (nowUnix : Int)
    (env : ForwardEnv) (s : State) (p : ProjectKey) (bodyBytes fwd U M : String)
    (hproxy : ¬ isModelsRequest req)
    (hauth : findProject (TrimPrefix req.Authorization "Bearer ") cfg.ProjectAuth = some p)
    (hname : p.ProjectName ≠ "")
    (hbody : req.RawData = some bodyBytes)
    (hfwd : forwardedBody lib cfg.Server.AutoModels bodyBytes = some fwd)
    (hlook : autoLookup (requestedModel lib bodyBytes) cfg.Server.AutoModels
        = some (U ++ ":" ++ M))
    (hcolon : ':' ∉ U.data) (hU : U ≠ "")
    (hallowed : "*" ∈ p.AllowedModels ∨ M ∈ p.AllowedModels) :
    (∀ (i : Nat) (u : Upstream), cfg.Upstreams[i]? = some u → u.Name = U →
        (∀ (j : Nat) (v : Upstream), j < i → cfg.Upstreams[j]? = some v → v.Name ≠ U) →
        (("*" ∈ u.Models ∨ M ∈ u.Models) →
          handleRequest lib cfg req nowUnix env s
            = forwardWithRetry u cfg.Server fwd p.ProjectName M env s)
        ∧ (¬ ("*" ∈ u.Models ∨ M ∈ u.Models) →
          (∃ msg, (handleRequest lib cfg req nowUnix env s).reply = Reply.abortJSON 400 msg)
          ∧ (handleRequest lib cfg req nowUnix env s).calls = []))
    ∧ ((∀ u ∈ cfg.Upstreams, u.Name ≠ U) →
        (∃ msg, (handleRequest lib cfg req nowUnix env s).reply = Reply.abortJSON 400 msg)
        ∧ (handleRequest lib cfg req nowUnix env s).calls = [])
    ∧ (∀ c ∈ (handleRequest lib cfg req nowUnix env s).calls, c.Upstream = U) := by
  have htarget := resolveAlias_pinned cfg.Server.AutoModels _ U M hcolon hlook
  have hrun := handleRequest_proxied lib cfg req nowUnix env s p bodyBytes fwd hproxy hauth hname
    hbody hfwd
  rw [htarget] at hrun
  simp only at hrun
  rw [if_neg (by simp [(isAllowed_iff M p.AllowedModels).mpr hallowed])] at hrun
  have hmatch : matchUpstream cfg.Upstreams U M = pinnedPass U M cfg.Upstreams := by
    unfold matchUpstream
    rw [if_pos hU]
  rw [hmatch] at hrun
  have h400 : pinnedPass U M cfg.Upstreams = none →
      (∃ msg, (handleRequest lib cfg req nowUnix env s).reply = Reply.abortJSON 400 msg)
      ∧ (handleRequest lib cfg req nowUnix env s).calls = [] := by
    intro hp
    rw [hrun, hp]
    simp [answer, noUpstreamReply, hU]
  refine ⟨?_, fun hnone => h400 (pinnedPass_none U M _ hnone), ?_⟩
  · intro i u hi hn hbefore
    have hp := pinnedPass_first U M cfg.Upstreams i u hi hn hbefore
    constructor
    · intro hsup
      rw [if_pos ((supportsModel_iff M u.Models).mpr hsup)] at hp
      rw [hrun, hp]
    · intro hsup
      have : ¬ supportsModel M u.Models = true :=
        fun h => hsup ((supportsModel_iff M u.Models).mp h)
      rw [if_neg this] at hp
      exact h400 hp
  · intro c hc
    rw [hrun] at hc
    cases hp : pinnedPass U M cfg.Upstreams with
    | none => rw [hp] at hc; simp [answer] at hc
    | some u =>
      rw [hp] at hc
      have := (retryLoop_reply_calls u cfg.Server _ p.ProjectName M env _ 0 none s).2.2 c hc
      rw [this]
      exact pinnedPass_name U M _ u hp

/-- C10, witness: the alias `fast` of `A:gpt-x`. -/
theorem pinned_routing_witness :
    autoLookup (requestedModel sampleJson (modelBody "fast"))
        (sampleConfig "P" ["gpt-x"] "A:gpt-x").Server.AutoModels = some ("A" ++ ":" ++ "gpt-x")
    ∧ forwardedBody sampleJson (sampleConfig "P" ["gpt-x"] "A:gpt-x").Server.AutoModels
        (modelBody "fast") = some (modelBody "gpt-x")
    ∧ ':' ∉ "A".data ∧ "A" ≠ ""
    ∧ ∀ c ∈ (handleRequest sampleJson (sampleConfig "P" ["gpt-x"] "A:gpt-x") (postFor "fast") 0
        (alwaysStatus 200) State.init).calls, c.Upstream = "A" :=
  ⟨by decide, by decide, by decide, by decide,
   (pinned_routing sampleJson (sampleConfig "P" ["gpt-x"] "A:gpt-x") (postFor "fast") 0
      (alwaysStatus 200) State.init ⟨"P", "t1", ["gpt-x"]⟩ (modelBody "fast")
      (modelBody "gpt-x") "A" "gpt-x"
      (by decide) (by decide) (by decide) rfl (by decide) (by decide) (by decide) (by decide)
      (by decide)).2.2⟩

/-- C10, counterexample: the alias `fast` is mapped to `:gpt-x`, a value holding a
colon whose text before the colon is empty; the request is forwarded to upstream
`A`, whose name differs from that text. -/
theorem empty_pin_is_unpinned :
    autoLookup (requestedModel sampleJson (modelBody "fast"))
        (sampleConfig "P" ["gpt-x"] ":gpt-x").Server.AutoModels = some ("" ++ ":" ++ "gpt-x")
    ∧ (handleRequest sampleJson (sampleConfig "P" ["gpt-x"] ":gpt-x") (postFor "fast") 0
        (alwaysStatus 200) State.init).calls
        = [{ Upstream := "A", Key := "b", Body := modelBody "gpt-x" }]
    ∧ (handleRequest sampleJson (sampleConfig "P" ["gpt-x"] ":gpt-x") (postFor "fast") 0
        (alwaysStatus 200) State.init).reply = Reply.relayed 200
    ∧ "A" ≠ "" := by
  decide

/-! ## Key rotator: index safety -/

/-- C19, amended: on an empty key list `GetAvailableKey` returns its error and
leaves the state untouched (no counter is created, no index computed); on a
non-empty key list it never indexes out of range, every index it computes is below
`len(keys)`, it makes `j` attempts for some `1 ≤ j ≤ len(keys)`, and the counter
after the call is `(c + j) % 2 ^ 64`, which exceeds the counter `c` before it by
`j` when `c + len(keys) < 2 ^ 64`. -/
theorem GetAvailableKey_index_safe (u : Upstream) (now : Int) (s : State) :
    (u.Keys = [] →
        (∃ msg, (GetAvailableKey u now s).1 = KeyResult.notConfigured msg)
        ∧ (GetAvailableKey u now s).2 = s)
    ∧ (u.Keys ≠ [] →
        (GetAvailableKey u now s).1 ≠ KeyResult.indexOutOfRange
        ∧ ∃ j, 1 ≤ j ∧ j ≤ u.Keys.length
            ∧ (∀ i, 1 ≤ i → i ≤ j → triedIdx (counterOf s u.Name) u.Keys.length i < u.Keys.length)
            ∧ counterOf (GetAvailableKey u now s).2 u.Name
                = (counterOf s u.Name + j) % uint64Size
            ∧ (counterOf s u.Name + u.Keys.length < uint64Size →
                counterOf (GetAvailableKey u now s).2 u.Name = counterOf s u.Name + j)) := by
  constructor
  · intro hnil
    simp [GetAvailableKey, hnil]
  · intro hne
    have hn : 0 < u.Keys.length := List.length_pos.mpr hne
    refine ⟨GetAvailableKey_in_range u now s, ?_⟩
    have hidx : ∀ i, triedIdx (counterOf s u.Name) u.Keys.length i < u.Keys.length :=
      fun i => Nat.mod_lt _ hn
    rcases GetAvailableKey_cases u now s hn with ⟨_, msg, hm⟩ | ⟨j, k, h1, h2, _, _, _, h6⟩
    · refine ⟨u.Keys.length, hn, le_refl _, fun i _ _ => hidx i, ?_, fun hw => ?_⟩
      · rw [hm]; simp [counterOf, mapStore]
      · rw [hm]
        simp only [counterOf, mapStore, if_true, Option.getD_some]
        exact Nat.mod_eq_of_lt (by unfold counterOf at hw; exact hw)
    · refine ⟨j, h1, h2, fun i _ _ => hidx i, ?_, fun hw => ?_⟩
      · rw [h6]; simp [counterOf, mapStore]
      · rw [h6]
        simp only [counterOf, mapStore, if_true, Option.getD_some]
        exact Nat.mod_eq_of_lt (by unfold counterOf at hw; omega)

/-- C19, witness: three keys and a fresh state. -/
theorem GetAvailableKey_index_safe_witness :
    threeKeys.Keys ≠ []
    ∧ (GetAvailableKey threeKeys 0 State.init).1 ≠ KeyResult.indexOutOfRange :=
  ⟨by decide, ((GetAvailableKey_index_safe threeKeys 0 State.init).2 (by decide)).1⟩

/-- C19, counterexample: with the counter at `2 ^ 64 - 1` the call leaves it at 0,
below its value before the call. -/
theorem counter_decreases_at_wraparound :
    counterOf lastCounterState threeKeys.Name = 2 ^ 64 - 1
    ∧ counterOf (GetAvailableKey threeKeys 0 lastCounterState).2 threeKeys.Name = 0 := by
  decide

/-! ## Notifier: the five-minute window and the record key -/

theorem timeSub_lt_window (t u : Int) :
    timeSub t u < 5 * minuteNs ↔ t - u < 5 * minuteNs := by
  unfold timeSub minuteNs
  norm_num

/-- A call that is not held back stores the record and starts one delivery. -/
theorem sendNotification_sent (w u m : String) (c : Int) (content : String) (now : Int)
    (s : State) (hw : w ≠ "")
    (hrec : ∀ r, s.notifyRecords (getNotifyKey u m c) = some r → 5 * minuteNs ≤ now - r.LastSent) :
    sendNotification w u m c content now s
      = { s with notifyRecords := mapStore s.notifyRecords (getNotifyKey u m c)
                   { Upstream := u, ModelName := m, StatusCode := c, LastSent := now },
                 deliveries := s.deliveries
                   ++ [{ key := getNotifyKey u m c, content := content }] } := by
  unfold sendNotification
  rw [if_neg hw]
  simp only
  cases h : s.notifyRecords (getNotifyKey u m c) with
  | none => rfl
  | some r =>
    have := hrec r h
    simp only
    rw [if_neg (by rw [timeSub_lt_window]; omega)]

/-- A call within five minutes of the recorded instant changes nothing. -/
theorem sendNotification_held (w u m : String) (c : Int) (content : String) (now : Int)
    (s : State) (r : NotificationRecord)
    (hrec : s.notifyRecords (getNotifyKey u m c) = some r)
    (hlt : now - r.LastSent < 5 * minuteNs) :
    sendNotification w u m c content now s = s := by
  unfold sendNotification
  split
  · rfl
  · simp only [hrec]
    rw [if_pos ((timeSub_lt_window _ _).mpr hlt)]

/-- A call starts at most one delivery. -/
theorem sendNotification_deliveries_le (w u m : String) (c : Int) (content : String)
    (now : Int) (s : State) :
    (sendNotification w u m c content now s).deliveries = s.deliveries
    ∨ (sendNotification w u m c content now s
        = { s with notifyRecords := mapStore s.notifyRecords (getNotifyKey u m c)
                     { Upstream := u, ModelName := m, StatusCode := c, LastSent := now },
                   deliveries := s.deliveries
                     ++ [{ key := getNotifyKey u m c, content := content }] }) := by
  unfold sendNotification
  split
  · exact Or.inl rfl
  · simp only
    split
    · split
      · exact Or.inl rfl
      · exact Or.inr rfl
    · exact Or.inr rfl

/-- C11, amended: two calls of `sendNotification` for the same triple with a
non-empty webhook, at `t1` and then at `t2`. If `t2 - t1 < 5` minutes the two calls
start at most one delivery, in every state. If moreover the first call is not held
back (no record for the triple, or a last-sent instant at least 5 minutes before
`t1`), it stores `t1` and starts one delivery, and the second call starts none and
leaves the record at `t1`. If `t2 - t1 ≥ 5` minutes and the recorded last-sent
instant, if any, is not after `t1`, the second call stores `t2` and starts a
delivery. -/
theorem sendNotification_dedup (w u m : String) (c : Int) (content1 content2 : String)
    (t1 t2 : Int) (s : State) (hw : w ≠ "") :
    (0 ≤ t2 - t1 → t2 - t1 < 5 * minuteNs →
        (sendNotification w u m c content2 t2
            (sendNotification w u m c content1 t1 s)).deliveries.length
          ≤ s.deliveries.length + 1)
    ∧ ((∀ r, s.notifyRecords (getNotifyKey u m c) = some r → 5 * minuteNs ≤ t1 - r.LastSent) →
        0 ≤ t2 - t1 → t2 - t1 < 5 * minuteNs →
        (sendNotification w u m c content1 t1 s).deliveries
            = s.deliveries ++ [{ key := getNotifyKey u m c, content := content1 }]
        ∧ (sendNotification w u m c content1 t1 s).notifyRecords (getNotifyKey u m c)
            = some { Upstream := u, ModelName := m, StatusCode := c, LastSent := t1 }
        ∧ sendNotification w u m c content2 t2 (sendNotification w u m c content1 t1 s)
            = sendNotification w u m c content1 t1 s)
    ∧ (5 * minuteNs ≤ t2 - t1 →
        (∀ r, s.notifyRecords (getNotifyKey u m c) = some r → r.LastSent ≤ t1) →
        (sendNotification w u m c content2 t2
            (sendNotification w u m c content1 t1 s)).notifyRecords (getNotifyKey u m c)
          = some { Upstream := u, ModelName := m, StatusCode := c, LastSent := t2 }
        ∧ (sendNotification w u m c content2 t2
            (sendNotification w u m c content1 t1 s)).deliveries
          = (sendNotification w u m c content1 t1 s).deliveries
              ++ [{ key := getNotifyKey u m c, content := content2 }]) := by
  refine ⟨?_, ?_, ?_⟩
  · intro _ hlt
    rcases sendNotification_deliveries_le w u m c content1 t1 s with h1 | h1
    · rcases sendNotification_deliveries_le w u m c content2 t2
        (sendNotification w u m c content1 t1 s) with h2 | h2
      · rw [h2, h1]; omega
      · rw [h2]; simp only [List.length_append, List.length_singleton]; rw [h1]
    · have hheld : sendNotification w u m c content2 t2 (sendNotification w u m c content1 t1 s)
          = sendNotification w u m c content1 t1 s := by
        apply sendNotification_held w u m c content2 t2 _
          { Upstream := u, ModelName := m, StatusCode := c, LastSent := t1 }
        · rw [h1]; simp [mapStore]
        · exact hlt
      rw [hheld, h1]
      simp
  · intro hrec _ hlt
    have h1 := sendNotification_sent w u m c content1 t1 s hw hrec
    have hstored : (sendNotification w u m c content1 t1 s).notifyRecords (getNotifyKey u m c)
        = some { Upstream := u, ModelName := m, StatusCode := c, LastSent := t1 } := by
      rw [h1]; simp [mapStore]
    exact ⟨by rw [h1], hstored, sendNotification_held w u m c content2 t2 _ _ hstored hlt⟩
  · intro hge hrec
    have hrec1 : ∀ r, (sendNotification w u m c content1 t1 s).notifyRecords
        (getNotifyKey u m c) = some r → 5 * minuteNs ≤ t2 - r.LastSent := by
      intro r hr
      rcases sendNotification_deliveries_le w u m c content1 t1 s with h1 | h1
      · -- the first call was held back: the record is the one of `s`
        have hsame : sendNotification w u m c content1 t1 s = s := by
          unfold sendNotification at h1 ⊢
          rw [if_neg hw] at h1 ⊢
          simp only at h1 ⊢
          split
          · split
            · rfl
            · next h3 h4 =>
              simp only [h3, h4, if_false] at h1
              exact absurd h1 (by simp)
          · next h3 =>
            simp only [h3] at h1
            exact absurd h1 (by simp)
        rw [hsame] at hr
        have := hrec r hr
        omega
      · rw [h1] at hr
        simp only [mapStore, if_true, Option.some.injEq] at hr
        rw [← hr]
        exact hge
    have h2 := sendNotification_sent w u m c content2 t2 _ hw hrec1
    rw [h2]
    simp [mapStore]

/-- C11, witness: two calls one minute apart on a fresh state. -/
theorem sendNotification_dedup_witness :
    "http://hook" ≠ "" ∧ (0 : Int) ≤ 60000000000 - 0 ∧ (60000000000 : Int) - 0 < 5 * minuteNs
    ∧ (sendNotification "http://hook" "A" "gpt-x" 500 "second" 60000000000
          (sendNotification "http://hook" "A" "gpt-x" 500 "first" 0 State.init)).deliveries.length
        ≤ State.init.deliveries.length + 1 :=
  ⟨by decide, by decide, by decide,
   (sendNotification_dedup "http://hook" "A" "gpt-x" 500 "first" "second" 0 60000000000
      State.init (by decide)).1 (by decide) (by decide)⟩

/-- C11, counterexample: a notification for the triple was sent at instant 0. A call
at minute 4 is held back and leaves the record at 0; a second call at minute 6, two
minutes after the first, starts a delivery and stores minute 6. -/
theorem second_call_within_window_sends :
    (sendNotification "http://hook" "A" "gpt-x" 500 "t1" 240000000000 notifiedAtZero).deliveries
        = [{ key := "A|gpt-x|500", content := "first" }]
    ∧ (0 : Int) ≤ 360000000000 - 240000000000
    ∧ (360000000000 : Int) - 240000000000 < 5 * minuteNs
    ∧ (sendNotification "http://hook" "A" "gpt-x" 500 "t2" 360000000000
          (sendNotification "http://hook" "A" "gpt-x" 500 "t1" 240000000000
            notifiedAtZero)).deliveries
        = [{ key := "A|gpt-x|500", content := "first" },
           { key := "A|gpt-x|500", content := "t2" }]
    ∧ (sendNotification "http://hook" "A" "gpt-x" 500 "t2" 360000000000
          (sendNotification "http://hook" "A" "gpt-x" 500 "t1" 240000000000
            notifiedAtZero)).notifyRecords "A|gpt-x|500"
        = some { Upstream := "A", ModelName := "gpt-x", StatusCode := 500,
                 LastSent := 360000000000 } := by
  decide

/-- C12, the failing input: the triples `("a|b", "c", 500)` and `("a", "b|c", 500)`
differ and have the same key, so a notification for the second, one nanosecond after
one for the first was recorded, is held back. -/
theorem getNotifyKey_collision :
    (("a|b", "c", (500 : Int)) : String × String × Int) ≠ ("a", "b|c", 500)
    ∧ getNotifyKey "a|b" "c" 500 = getNotifyKey "a" "b|c" 500
    ∧ (sendNotification "http://hook" "a" "b|c" 500 "second" 1
          (sendNotification "http://hook" "a|b" "c" 500 "first" 0 State.init)).deliveries
        = [{ key := "a|b|c|500", content := "first" }] := by
  decide

/-! ## Notifications of a request that fails on every pass -/

/-- The most significant decimal digit of a positive number is not zero. -/
theorem toDigitsCore_head (fuel : Nat) :
    ∀ (n : Nat) (ds : List Char), 0 < n → n < fuel →
      ∃ d rest, 1 ≤ d ∧ d < 10 ∧ Nat.toDigitsCore 10 fuel n ds = Nat.digitChar d :: rest := by
  induction fuel with
  | zero => intro n ds _ h; omega
  | succ fuel ih =>
    intro n ds hpos hlt
    unfold Nat.toDigitsCore
    simp only
    by_cases h0 : n / 10 = 0
    · rw [if_pos h0]
      exact ⟨n % 10, ds, by omega, Nat.mod_lt _ (by omega), rfl⟩
    · rw [if_neg h0]
      exact ih (n / 10) _ (by omega) (by omega)

theorem digitChar_ne_zero (d : Nat) (h1 : 1 ≤ d) (h2 : d < 10) : Nat.digitChar d ≠ '0' := by
  interval_cases d <;> decide

theorem toString_pos_ne_zero (st : Int) (h : 0 < st) : toString st ≠ "0" := by
  obtain ⟨n, rfl⟩ : ∃ n : Nat, st = (n : Int) := ⟨st.toNat, (Int.toNat_of_nonneg (by omega)).symm⟩
  have hn : 0 < n := by omega
  obtain ⟨d, rest, h1, h2, hd⟩ := toDigitsCore_head (n + 1) n [] hn (by omega)
  intro e
  have e2 : (Nat.toDigits 10 n) = ['0'] := by
    have : (toString (n : Int)) = (Nat.toDigits 10 n).asString := rfl
    rw [this] at e
    exact congrArg String.data e
  unfold Nat.toDigits at e2
  rw [hd] at e2
  simp only [List.cons.injEq] at e2
  exact digitChar_ne_zero d h1 h2 e2.1

theorem string_append_cancel (a x y : String) (h : a ++ x = a ++ y) : x = y := by
  have := congrArg String.data h
  simp only [String.data_append] at this
  exact String.ext (List.append_cancel_left this)

/-- The record key of a positive status differs from the key of status 0. -/
theorem getNotifyKey_ne_final (u m : String) (st : Int) (h : 0 < st) :
    getNotifyKey u m st ≠ getNotifyKey u m 0 := by
  unfold getNotifyKey
  intro e
  exact toString_pos_ne_zero st h (string_append_cancel _ _ _ e)

theorem GetAvailableKey_notifier_untouched (u : Upstream) (now : Int) (s : State) :
    (GetAvailableKey u now s).2.notifyRecords = s.notifyRecords
    ∧ (GetAvailableKey u now s).2.deliveries = s.deliveries := by
  unfold GetAvailableKey
  split
  · exact ⟨rfl, rfl⟩
  · simp only
    split <;> exact ⟨rfl, rfl⟩

/-- A pass in which the URL and the request are built and the upstream, when
called, answers with the retryable status `st`: it fails, either without a key and
with the notifier untouched, or after one call and one `sendNotification` for
`(upstream, model, st)`. -/
theorem attemptPass_same_status (upstream : Upstream) (srvCfg : ServerConfig)
    (body projectName modelName : String) (env : ForwardEnv) (retry : Nat) (s : State)
    (st : Int) (hst : retryableStatus st = true)
    (hurl : env.urlParseOk = true) (hreq : env.newRequestOk = true)
    (hres : (env.attempt retry).result = DoResult.response st) :
    (∃ msg s1, s1.notifyRecords = s.notifyRecords ∧ s1.deliveries = s.deliveries
        ∧ attemptPass upstream srvCfg body projectName modelName env retry s
            = PassResult.noKey msg s1)
    ∨ (∃ k s1, s1.notifyRecords = s.notifyRecords ∧ s1.deliveries = s.deliveries
        ∧ attemptPass upstream srvCfg body projectName modelName env retry s
            = PassResult.failed [{ Upstream := upstream.Name, Key := k, Body := body }]
                ("status " ++ toString st)
                (sendNotification srvCfg.NotificationWebhook upstream.Name modelName st
                  (alertMsg upstream.Name st k projectName modelName
                    (env.attempt retry).clockText)
                  (env.attempt retry).nowNotify s1)) := by
  have hpres := GetAvailableKey_notifier_untouched upstream (env.attempt retry).nowKey s
  have hrange := GetAvailableKey_in_range upstream (env.attempt retry).nowKey s
  unfold attemptPass
  simp only
  rcases hg : GetAvailableKey upstream (env.attempt retry).nowKey s with ⟨kr, s1⟩
  rw [hg] at hpres hrange
  cases kr with
  | indexOutOfRange => exact absurd rfl hrange
  | notConfigured msg => exact Or.inl ⟨msg, s1, hpres.1, hpres.2, rfl⟩
  | allCooling msg => exact Or.inl ⟨msg, s1, hpres.1, hpres.2, rfl⟩
  | key k =>
    refine Or.inr ⟨k, blacklistStore s1 k ((env.attempt retry).nowStore + coolDown srvCfg),
      hpres.1, hpres.2, ?_⟩
    simp only [hurl, hreq, hres, hst, Bool.not_true, if_true]
    rfl

/-- The retry loop when the upstream answers every call with the same retryable
status `st > 0`, the clock readings of the notifier lie within five minutes, and the
state holds no record for `(upstream, model, 0)`: the loop ends with the 503 answer;
with a record for `(upstream, model, st)` written during the request it adds the
final delivery only; without one it adds either the final delivery only, having
made no call, or both deliveries. -/
theorem retryLoop_same_status (upstream : Upstream) (srvCfg : ServerConfig)
    (body projectName modelName : String) (env : ForwardEnv) (st : Int) (D : List Delivery)
    (hweb : srvCfg.NotificationWebhook ≠ "")
    (hst : retryableStatus st = true)
    (hurl : env.urlParseOk = true) (hreq : env.newRequestOk = true)
    (hres : ∀ i : Nat, (i : Int) ≤ srvCfg.MaxRetries →
      (env.attempt i).result = DoResult.response st)
    (hshort : ∀ i j : Nat, (i : Int) ≤ srvCfg.MaxRetries → (j : Int) ≤ srvCfg.MaxRetries →
      (env.attempt j).nowNotify - (env.attempt i).nowNotify < 5 * minuteNs) :
    ∀ (remaining retry : Nat) (lastErr : Option String) (s : State),
      (remaining : Int) = srvCfg.MaxRetries + 1 - retry →
      s.notifyRecords (getNotifyKey upstream.Name modelName 0) = none →
      (∃ e, (retryLoop upstream srvCfg body projectName modelName env remaining retry lastErr
          s).reply = Reply.unavailable ("Retries exhausted. Last error: " ++ e))
      ∧ ((∃ (i : Nat) (c1 : String), (i : Int) ≤ srvCfg.MaxRetries
            ∧ s.notifyRecords (getNotifyKey upstream.Name modelName st)
                = some { Upstream := upstream.Name, ModelName := modelName, StatusCode := st,
                         LastSent := (env.attempt i).nowNotify }
            ∧ s.deliveries = D ++ [{ key := getNotifyKey upstream.Name modelName st,
                                     content := c1 }]) →
          ∃ c1 c2, (retryLoop upstream srvCfg body projectName modelName env remaining retry
              lastErr s).state.deliveries
            = D ++ [{ key := getNotifyKey upstream.Name modelName st, content := c1 },
                    { key := getNotifyKey upstream.Name modelName 0, content := c2 }])
      ∧ (s.notifyRecords (getNotifyKey upstream.Name modelName st) = none → s.deliveries = D →
          (retryLoop upstream srvCfg body projectName modelName env remaining retry lastErr
              s).calls = []
          ∨ ∃ c1 c2, (retryLoop upstream srvCfg body projectName modelName env remaining retry
              lastErr s).state.deliveries
            = D ++ [{ key := getNotifyKey upstream.Name modelName st, content := c1 },
                    { key := getNotifyKey upstream.Name modelName 0, content := c2 }]) := by
  have hpos : 0 < st := by
    rcases (retryableStatus_iff st).mp hst with h | h | h <;> omega
  have hne := getNotifyKey_ne_final upstream.Name modelName st hpos
  -- the code after the loop starts the final delivery
  have hfinal : ∀ (lastErr : Option String) (s : State),
      s.notifyRecords (getNotifyKey upstream.Name modelName 0) = none →
      (retriesExhausted upstream srvCfg projectName modelName env lastErr s).state.deliveries
        = s.deliveries ++ [{ key := getNotifyKey upstream.Name modelName 0,
                             content := failMsg projectName modelName lastErr }] := by
    intro lastErr s h0
    unfold retriesExhausted
    simp only
    rw [sendNotification_sent _ _ _ _ _ _ _ hweb (fun r hr => by rw [h0] at hr; simp at hr)]
  intro remaining
  induction remaining with
  | zero =>
    intro retry lastErr s _ h0
    refine ⟨⟨errText lastErr, rfl⟩, ?_, ?_⟩
    · rintro ⟨i, c1, _, _, hD⟩
      refine ⟨c1, failMsg projectName modelName lastErr, ?_⟩
      show (retriesExhausted upstream srvCfg projectName modelName env lastErr s).state.deliveries
        = _
      rw [hfinal lastErr s h0, hD]
      simp
    · intro _ _
      exact Or.inl rfl
  | succ n ih =>
    intro retry lastErr s hinv h0
    have hretry : (retry : Int) ≤ srvCfg.MaxRetries := by omega
    -- what follows a failed pass, from a state with no record for status 0
    have hnext : ∀ (cs : List OutboundCall) (err : String) (s1 : State),
        s1.notifyRecords (getNotifyKey upstream.Name modelName 0) = none →
        (∃ e, (afterAttempt cs
            (if (retry : Int) < srvCfg.MaxRetries then
              retryLoop upstream srvCfg body projectName modelName env n (retry + 1)
                (some err) s1
            else retriesExhausted upstream srvCfg projectName modelName env (some err) s1)).reply
            = Reply.unavailable ("Retries exhausted. Last error: " ++ e))
        ∧ ((∃ (i : Nat) (c1 : String), (i : Int) ≤ srvCfg.MaxRetries
              ∧ s1.notifyRecords (getNotifyKey upstream.Name modelName st)
                  = some { Upstream := upstream.Name, ModelName := modelName, StatusCode := st,
                           LastSent := (env.attempt i).nowNotify }
              ∧ s1.deliveries = D ++ [{ key := getNotifyKey upstream.Name modelName st,
                                        content := c1 }]) →
            ∃ c1 c2, (afterAttempt cs
                (if (retry : Int) < srvCfg.MaxRetries then
                  retryLoop upstream srvCfg body projectName modelName env n (retry + 1)
                    (some err) s1
                else retriesExhausted upstream srvCfg projectName modelName env (some err)
                  s1)).state.deliveries
              = D ++ [{ key := getNotifyKey upstream.Name modelName st, content := c1 },
                      { key := getNotifyKey upstream.Name modelName 0, content := c2 }])
        ∧ (s1.notifyRecords (getNotifyKey upstream.Name modelName st) = none →
            s1.deliveries = D → cs = [] →
            (afterAttempt cs
                (if (retry : Int) < srvCfg.MaxRetries then
                  retryLoop upstream srvCfg body projectName modelName env n (retry + 1)
                    (some err) s1
                else retriesExhausted upstream srvCfg projectName modelName env (some err)
                  s1)).calls = []
            ∨ ∃ c1 c2, (afterAttempt cs
                (if (retry : Int) < srvCfg.MaxRetries then
                  retryLoop upstream srvCfg body projectName modelName env n (retry + 1)
                    (some err) s1
                else retriesExhausted upstream srvCfg projectName modelName env (some err)
                  s1)).state.deliveries
              = D ++ [{ key := getNotifyKey upstream.Name modelName st, content := c1 },
                      { key := getNotifyKey upstream.Name modelName 0, content := c2 }]) := by
      intro cs err s1 h01
      by_cases hlt : (retry : Int) < srvCfg.MaxRetries
      · simp only [hlt, if_true, afterAttempt]
        obtain ⟨i1, i2, i3⟩ := ih (retry + 1) (some err) s1 (by push_cast; omega) h01
        refine ⟨i1, i2, ?_⟩
        intro hk hD hcs
        rcases i3 hk hD with h | h
        · left; rw [hcs, h]; rfl
        · exact Or.inr h
      · simp only [hlt, if_false, afterAttempt]
        refine ⟨⟨err, rfl⟩, ?_, ?_⟩
        · rintro ⟨i, c1, _, _, hD⟩
          refine ⟨c1, failMsg projectName modelName (some err), ?_⟩
          rw [hfinal (some err) s1 h01, hD]
          simp
        · intro _ _ hcs
          left
          rw [hcs]
          rfl
    unfold retryLoop
    rcases attemptPass_same_status upstream srvCfg body projectName modelName env retry s st hst
        hurl hreq (hres retry hretry) with
      ⟨msg, s1, hr1, hd1, hp⟩ | ⟨k, s1, hr1, hd1, hp⟩
    · -- no key: the notifier is untouched
      rw [hp]
      simp only
      obtain ⟨n1, n2, n3⟩ := hnext [] msg s1 (by rw [hr1]; exact h0)
      refine ⟨n1, ?_, ?_⟩
      · rintro ⟨i, c1, hi, hrec, hD⟩
        exact n2 ⟨i, c1, hi, by rw [hr1]; exact hrec, by rw [hd1]; exact hD⟩
      · intro hk hD
        exact n3 (by rw [hr1]; exact hk) (by rw [hd1]; exact hD) rfl
    · -- one call, answered with `st`
      rw [hp]
      simp only
      refine ⟨?_, ?_, ?_⟩
      · refine (hnext _ _ _ ?_).1
        rcases sendNotification_deliveries_le srvCfg.NotificationWebhook upstream.Name modelName
            st (alertMsg upstream.Name st k projectName modelName (env.attempt retry).clockText)
            (env.attempt retry).nowNotify s1 with h | h
        · -- held back or not, the record of status 0 is as before
          by_cases hk : ∃ r, s1.notifyRecords (getNotifyKey upstream.Name modelName st) = some r
              ∧ (env.attempt retry).nowNotify - r.LastSent < 5 * minuteNs
          · obtain ⟨r, hr, hlt⟩ := hk
            rw [sendNotification_held _ _ _ _ _ _ _ r hr hlt, hr1]
            exact h0
          · rw [sendNotification_sent _ _ _ _ _ _ _ hweb (by
              intro r hr
              by_contra hcon
              exact hk ⟨r, hr, by omega⟩)]
            simp only [mapStore, if_neg (Ne.symm hne)]
            rw [hr1]; exact h0
        · rw [h]
          simp only [mapStore, if_neg (Ne.symm hne)]
          rw [hr1]; exact h0
      · -- a record written during the request holds the notification back
        rintro ⟨i, c1, hi, hrec, hD⟩
        have hheld := sendNotification_held srvCfg.NotificationWebhook upstream.Name modelName
          st (alertMsg upstream.Name st k projectName modelName (env.attempt retry).clockText)
          (env.attempt retry).nowNotify s1 _ (by rw [hr1]; exact hrec)
          (hshort i retry hi hretry)
        rw [hheld]
        exact (hnext _ _ s1 (by rw [hr1]; exact h0)).2.1
          ⟨i, c1, hi, by rw [hr1]; exact hrec, by rw [hd1]; exact hD⟩
      · -- no record yet: the notification is sent
        intro hk hD
        right
        have hsent := sendNotification_sent srvCfg.NotificationWebhook upstream.Name modelName
          st (alertMsg upstream.Name st k projectName modelName (env.attempt retry).clockText)
          (env.attempt retry).nowNotify s1 hweb
          (by intro r hr; rw [hr1, hk] at hr; exact absurd hr (by simp))
        rw [hsent]
        refine (hnext _ _ _ ?_).2.1 ⟨retry,
          alertMsg upstream.Name st k projectName modelName (env.attempt retry).clockText,
          hretry, ?_, ?_⟩
        · simp only [mapStore, if_neg (Ne.symm hne)]
          rw [hr1]; exact h0
        · simp [mapStore]
        · simp only
          rw [hd1, hD]

/-- C17: a request that fails on every pass. With a non-empty webhook, no prior
notification record, `max_retries ≥ 0`, the URL and the request built, the upstream
answering every call with the same status `st` (401, 429 or at least 500), the
clock readings of the notifier within five minutes of each other, and at least one
upstream call made, `forwardWithRetry` starts exactly two deliveries: one for
`(upstream, model, st)` and then one for `(upstream, model, 0)`; and the client gets
the 503 answer, whose message starts with `Retries exhausted`. -/
theorem failed_request_notifications (upstream : Upstream) (srvCfg : ServerConfig)
    (body projectName modelName : String) (env : ForwardEnv) (s : State) (st : Int)
    (hweb : srvCfg.NotificationWebhook ≠ "")
    (hrec : ∀ k, s.notifyRecords k = none)
    (_hmr : 0 ≤ srvCfg.MaxRetries)
    (hst : st = 401 ∨ st = 429 ∨ st ≥ 500)
    (hurl : env.urlParseOk = true) (hreq : env.newRequestOk = true)
    (hres : ∀ i : Nat, (i : Int) ≤ srvCfg.MaxRetries →
      (env.attempt i).result = DoResult.response st)
    (hshort : ∀ i j : Nat, (i : Int) ≤ srvCfg.MaxRetries → (j : Int) ≤ srvCfg.MaxRetries →
      (env.attempt j).nowNotify - (env.attempt i).nowNotify < 5 * minuteNs)
    (hreach : (forwardWithRetry upstream srvCfg body projectName modelName env s).calls ≠ []) :
    (∃ c1 c2, (forwardWithRetry upstream srvCfg body projectName modelName env s).state.deliveries
        = s.deliveries ++ [{ key := getNotifyKey upstream.Name modelName st, content := c1 },
                           { key := getNotifyKey upstream.Name modelName 0, content := c2 }])
    ∧ (∃ rest, (forwardWithRetry upstream srvCfg body projectName modelName env s).reply
        = Reply.unavailable ("Retries exhausted" ++ rest))
    ∧ (forwardWithRetry upstream srvCfg body projectName modelName env s).reply.status
        = some 503 := by
  have hinv : (((srvCfg.MaxRetries + 1).toNat : Nat) : Int)
      = srvCfg.MaxRetries + 1 - ((0 : Nat) : Int) := by
    rw [Int.toNat_of_nonneg (by omega)]; simp
  obtain ⟨⟨e, he⟩, _, h3⟩ := retryLoop_same_status upstream srvCfg body projectName modelName
    env st s.deliveries hweb ((retryableStatus_iff st).mpr hst) hurl hreq hres hshort
    (srvCfg.MaxRetries + 1).toNat 0 none s hinv (hrec _)
  have hreply : (forwardWithRetry upstream srvCfg body projectName modelName env s).reply
      = Reply.unavailable ("Retries exhausted. Last error: " ++ e) := he
  refine ⟨?_, ⟨". Last error: " ++ e, ?_⟩, by rw [hreply]; rfl⟩
  · rcases h3 (hrec _) rfl with h | h
    · exact absurd h hreach
    · exact h
  · rw [hreply]
    congr 1

/-- C17, witness: no retry allowed, the upstream answers 500; the two deliveries are
those for `A|gpt-x|500` and `A|gpt-x|0`, and the client sees 503. -/
theorem failed_request_notifications_witness :
    (serverWith 0 5).NotificationWebhook ≠ ""
    ∧ (forwardWithRetry threeKeys (serverWith 0 5) "" "P" "gpt-x" (alwaysStatus 500)
        State.init).calls ≠ []
    ∧ (∃ c1 c2, (forwardWithRetry threeKeys (serverWith 0 5) "" "P" "gpt-x" (alwaysStatus 500)
          State.init).state.deliveries
        = State.init.deliveries
            ++ [{ key := getNotifyKey threeKeys.Name "gpt-x" 500, content := c1 },
                { key := getNotifyKey threeKeys.Name "gpt-x" 0, content := c2 }])
    ∧ (forwardWithRetry threeKeys (serverWith 0 5) "" "P" "gpt-x" (alwaysStatus 500)
        State.init).reply.status = some 503 :=
  ⟨by decide, by decide,
   (failed_request_notifications threeKeys (serverWith 0 5) "" "P" "gpt-x" (alwaysStatus 500)
      State.init 500 (by decide) (fun _ => rfl) (by decide) (by decide) rfl rfl
      (fun _ _ => rfl)
      (fun _ _ _ _ => (by decide : (0 : Int) - 0 < 5 * minuteNs)) (by decide)).1,
   (failed_request_notifications threeKeys (serverWith 0 5) "" "P" "gpt-x" (alwaysStatus 500)
      State.init 500 (by decide) (fun _ => rfl) (by decide) (by decide) rfl rfl
      (fun _ _ => rfl)
      (fun _ _ _ _ => (by decide : (0 : Int) - 0 < 5 * minuteNs)) (by decide)).2.2⟩

/-! ## Headers: hop-by-hop names are never copied -/

theorem addValues_other (canon : String → String) (k name : String) (hne : canon k ≠ name) :
    ∀ (vv : List String) (dst : Header), addValues canon k vv dst name = dst name
  | [], _ => rfl
  | v :: vs, dst => by
    unfold addValues
    rw [addValues_other canon k name hne vs]
    simp [headerAdd, mapStore, Ne.symm hne]

theorem addValues_same (canon : String → String) (k : String) :
    ∀ (vv : List String) (dst : Header),
      (addValues canon k vv dst (canon k)).getD [] = (dst (canon k)).getD [] ++ vv
  | [], _ => by simp [addValues]
  | v :: vs, dst => by
    unfold addValues
    rw [addValues_same canon k vs]
    simp [headerAdd, mapStore]

/-- What `copyHeaders` leaves under each name. -/
theorem copyHeaders_values (canon : String → String) (name : String) :
    ∀ (src : List (String × List String)) (dst : Header),
      (copyHeaders canon src dst name).getD []
        = (dst name).getD [] ++ copiedValues canon name src
  | [], _ => by simp [copyHeaders, copiedValues]
  | (k, vv) :: rest, dst => by
    unfold copyHeaders copiedValues
    by_cases hh : canon k ∈ hopByHopNames
    · simp only [isHopByHop, hh, decide_True, if_true, not_true_eq_false, false_and, if_false,
        List.nil_append]
      exact copyHeaders_values canon name rest dst
    · simp only [isHopByHop, hh, decide_False, Bool.false_eq_true, if_false, not_false_eq_true,
        true_and]
      rw [copyHeaders_values canon name rest]
      by_cases hk : canon k = name
      · subst hk
        rw [addValues_same, if_pos rfl, List.append_assoc]
      · rw [addValues_other canon k name hk, if_neg hk, List.nil_append]

/-- The entry of a hop-by-hop name is left as it was. -/
theorem copyHeaders_hop_untouched (canon : String → String) (name : String)
    (hname : name ∈ hopByHopNames) :
    ∀ (src : List (String × List String)) (dst : Header),
      copyHeaders canon src dst name = dst name
  | [], _ => rfl
  | (k, vv) :: rest, dst => by
    unfold copyHeaders
    by_cases hh : canon k ∈ hopByHopNames
    · simp only [isHopByHop, hh, decide_True, if_true]
      exact copyHeaders_hop_untouched canon name hname rest dst
    · simp only [isHopByHop, hh, decide_False, Bool.false_eq_true, if_false]
      rw [copyHeaders_hop_untouched canon name hname rest]
      exact addValues_other canon k name (fun e => hh (e ▸ hname)) vv dst

theorem copiedValues_infix (canon : String → String) (k : String) (vv : List String)
    (hk : canon k ∉ hopByHopNames) :
    ∀ (src : List (String × List String)), (k, vv) ∈ src →
      ∃ pre post, copiedValues canon (canon k) src = pre ++ vv ++ post
  | [], h => by simp at h
  | (k1, vv1) :: rest, h => by
    unfold copiedValues
    rcases List.mem_cons.mp h with e | e
    · simp only [Prod.mk.injEq] at e
      obtain ⟨e1, e2⟩ := e
      subst e1 e2
      exact ⟨[], copiedValues canon (canon k) rest, by simp [hk]⟩
    · obtain ⟨pre, post, hpp⟩ := copiedValues_infix canon k vv hk rest e
      exact ⟨(if canon k1 ∉ hopByHopNames ∧ canon k1 = canon k then vv1 else []) ++ pre, post,
        by rw [hpp]; simp [List.append_assoc]⟩

/-- C13: hop-by-hop stripping. Whatever the canonical form of a name is, and so
whatever the letter case of the names in the source: `copyHeaders` leaves the entry
of each of the eight hop-by-hop names as it was, so a destination that holds none
of them still holds none; under every name the destination holds its former values
followed by the values of the source headers with that canonical name that are not
hop-by-hop; and every such source header has all its values, in their order, in a
row among the values appended under its canonical name. -/
theorem copyHeaders_strips_hop_by_hop (canon : String → String)
    (src : List (String × List String)) (dst : Header) :
    (∀ name ∈ hopByHopNames, copyHeaders canon src dst name = dst name)
    ∧ ((∀ name ∈ hopByHopNames, dst name = none) →
        ∀ name ∈ hopByHopNames, copyHeaders canon src dst name = none)
    ∧ (∀ name, (copyHeaders canon src dst name).getD []
        = (dst name).getD [] ++ copiedValues canon name src)
    ∧ (∀ k vv, (k, vv) ∈ src → canon k ∉ hopByHopNames →
        ∃ pre post, (copyHeaders canon src dst (canon k)).getD []
          = (dst (canon k)).getD [] ++ (pre ++ vv ++ post)) := by
  refine ⟨fun name hname => copyHeaders_hop_untouched canon name hname src dst, ?_,
    fun name => copyHeaders_values canon name src dst, ?_⟩
  · intro hdst name hname
    rw [copyHeaders_hop_untouched canon name hname src dst]
    exact hdst name hname
  · intro k vv hmem hk
    obtain ⟨pre, post, hpp⟩ := copiedValues_infix canon k vv hk src hmem
    exact ⟨pre, post, by rw [copyHeaders_values, hpp]⟩

/-- C13, witness: names in mixed letter case copied into an empty destination. -/
theorem copyHeaders_strips_hop_by_hop_witness :
    (∀ name ∈ hopByHopNames, (fun _ => none : Header) name = none)
    ∧ (∀ name ∈ hopByHopNames,
        copyHeaders CanonicalHeaderKey mixedCaseHeaders (fun _ => none) name = none)
    ∧ copyHeaders CanonicalHeaderKey mixedCaseHeaders (fun _ => none) "X-Trace"
        = some ["1", "2"]
    ∧ isHopByHop CanonicalHeaderKey "transfer-Encoding" = true :=
  ⟨fun _ _ => rfl,
   (copyHeaders_strips_hop_by_hop CanonicalHeaderKey mixedCaseHeaders (fun _ => none)).2.1
     (fun _ _ => rfl),
   by decide, by decide⟩

/-! ## Model listing: content of the list -/

/-- The loop over the models of one upstream: it keeps the list free of duplicate
ids, appends entries owned by the upstream for models of that upstream that are not
`*`, are permitted and were not listed, and lists every such model. -/
theorem listModelsOf_spec (allowAll : Bool) (allowed : List String) (owner : String)
    (nowUnix : Int) :
    ∀ (ms : List String) (out : List ModelResponse) (seen : List String),
      (∀ x, x ∈ seen ↔ x ∈ out.map ModelResponse.ID) → (out.map ModelResponse.ID).Nodup →
      (∀ x, x ∈ (listModelsOf allowAll allowed owner nowUnix ms (out, seen)).2
          ↔ x ∈ (listModelsOf allowAll allowed owner nowUnix ms (out, seen)).1.map
              ModelResponse.ID)
      ∧ ((listModelsOf allowAll allowed owner nowUnix ms (out, seen)).1.map
          ModelResponse.ID).Nodup
      ∧ (∃ new, (listModelsOf allowAll allowed owner nowUnix ms (out, seen)).1 = out ++ new
          ∧ ∀ e ∈ new, e.OwnedBy = owner ∧ e.ID ∈ ms ∧ e.ID ≠ "*"
              ∧ (allowAll || hasModel e.ID allowed) = true
              ∧ e.ID ∉ out.map ModelResponse.ID)
      ∧ (∀ m ∈ ms, m ≠ "*" → (allowAll || hasModel m allowed) = true →
          m ∈ (listModelsOf allowAll allowed owner nowUnix ms (out, seen)).1.map
            ModelResponse.ID) := by
  intro ms
  induction ms with
  | nil =>
    intro out seen hseen hnd
    exact ⟨hseen, hnd, ⟨[], by simp [listModelsOf], by simp⟩, by simp⟩
  | cons m ms ih =>
    intro out seen hseen hnd
    have hcases :
        (listModelsOf allowAll allowed owner nowUnix (m :: ms) (out, seen)
            = listModelsOf allowAll allowed owner nowUnix ms (out, seen)
          ∧ (m ≠ "*" → (allowAll || hasModel m allowed) = true →
              m ∈ out.map ModelResponse.ID))
        ∨ (m ≠ "*" ∧ (allowAll || hasModel m allowed) = true
          ∧ m ∉ out.map ModelResponse.ID
          ∧ listModelsOf allowAll allowed owner nowUnix (m :: ms) (out, seen)
              = listModelsOf allowAll allowed owner nowUnix ms
                  (out ++ [{ ID := m, Object := "model", Created := nowUnix, OwnedBy := owner }],
                   m :: seen)) := by
      by_cases hstar : m = "*"
      · exact Or.inl ⟨by simp [listModelsOf, hstar], fun h => absurd hstar h⟩
      · by_cases hs : hasModel m seen = true
        · exact Or.inl ⟨by simp [listModelsOf, hstar, hs],
            fun _ _ => (hseen m).mp ((hasModel_iff m seen).mp hs)⟩
        · have hs2 : hasModel m seen = false := by simpa using hs
          by_cases hperm : (allowAll || hasModel m allowed) = true
          · refine Or.inr ⟨hstar, hperm,
              fun h => hs ((hasModel_iff m seen).mpr ((hseen m).mpr h)), ?_⟩
            conv_lhs => unfold listModelsOf
            simp [hstar, hs2, hperm]
          · refine Or.inl ⟨?_, fun _ h => absurd h hperm⟩
            conv_lhs => unfold listModelsOf
            simp [hstar, hs2, hperm]
    rcases hcases with ⟨heq, hm⟩ | ⟨hstar, hperm, hnot, heq⟩
    · -- the accumulator is left as it is
      obtain ⟨i1, i2, ⟨new, i3, i4⟩, i5⟩ := ih out seen hseen hnd
      rw [heq]
      refine ⟨i1, i2, ⟨new, i3, fun e he => ?_⟩, fun x hx hstar hperm => ?_⟩
      · obtain ⟨a, b, c, d, f⟩ := i4 e he
        exact ⟨a, List.mem_cons_of_mem _ b, c, d, f⟩
      · rcases List.mem_cons.mp hx with e | e
        · subst e
          rw [i3, List.map_append]
          exact List.mem_append_left _ (hm hstar hperm)
        · exact i5 x e hstar hperm
    · -- the model is appended
      obtain ⟨i1, i2, ⟨new, i3, i4⟩, i5⟩ := ih
        (out ++ [{ ID := m, Object := "model", Created := nowUnix, OwnedBy := owner }])
        (m :: seen)
        (by intro x; simp only [List.mem_cons, List.map_append, List.map_cons, List.map_nil,
              List.mem_append, List.mem_singleton, hseen x]; tauto)
        (by
          rw [List.map_append, List.nodup_append]
          refine ⟨hnd, by simp, ?_⟩
          intro a ha hb
          simp only [List.map_cons, List.map_nil, List.mem_singleton] at hb
          subst hb
          exact hnot ha)
      rw [heq]
      refine ⟨i1, i2, ⟨{ ID := m, Object := "model", Created := nowUnix, OwnedBy := owner }
        :: new, by rw [i3]; simp, fun e he => ?_⟩, fun x hx hxs hxp => ?_⟩
      · rcases List.mem_cons.mp he with e1 | e1
        · subst e1
          exact ⟨rfl, List.mem_cons_self _ _, hstar, hperm, hnot⟩
        · obtain ⟨a, b, c, d, f⟩ := i4 e e1
          refine ⟨a, List.mem_cons_of_mem _ b, c, d, fun h => f ?_⟩
          rw [List.map_append]
          exact List.mem_append_left _ h
      · rcases List.mem_cons.mp hx with e1 | e1
        · subst e1
          rw [i3]
          simp
        · exact i5 x e1 hxs hxp

/-- The loop over the upstreams: the entries it appends are owned by the first
upstream that lists their id, and it lists every permitted model other than `*` of
every upstream. -/
theorem listPhysical_spec (allowAll : Bool) (allowed : List String) (nowUnix : Int) :
    ∀ (us : List Upstream) (out : List ModelResponse) (seen : List String),
      (∀ x, x ∈ seen ↔ x ∈ out.map ModelResponse.ID) → (out.map ModelResponse.ID).Nodup →
      (∀ x, x ∈ (listPhysical allowAll allowed nowUnix us (out, seen)).2
          ↔ x ∈ (listPhysical allowAll allowed nowUnix us (out, seen)).1.map ModelResponse.ID)
      ∧ ((listPhysical allowAll allowed nowUnix us (out, seen)).1.map ModelResponse.ID).Nodup
      ∧ (∃ new, (listPhysical allowAll allowed nowUnix us (out, seen)).1 = out ++ new
          ∧ ∀ e ∈ new, e.ID ≠ "*" ∧ (allowAll || hasModel e.ID allowed) = true
              ∧ e.ID ∉ out.map ModelResponse.ID
              ∧ ∃ (i : Nat) (u : Upstream), us[i]? = some u ∧ e.ID ∈ u.Models
                  ∧ e.OwnedBy = u.Name
                  ∧ ∀ (j : Nat) (v : Upstream), j < i → us[j]? = some v → e.ID ∉ v.Models)
      ∧ (∀ u ∈ us, ∀ m ∈ u.Models, m ≠ "*" → (allowAll || hasModel m allowed) = true →
          m ∈ (listPhysical allowAll allowed nowUnix us (out, seen)).1.map ModelResponse.ID) := by
  intro us
  induction us with
  | nil =>
    intro out seen hseen hnd
    exact ⟨hseen, hnd, ⟨[], by simp [listPhysical], by simp⟩, by simp⟩
  | cons u us ih =>
    intro out seen hseen hnd
    obtain ⟨a1, a2, ⟨new1, a3, a4⟩, a5⟩ :=
      listModelsOf_spec allowAll allowed u.Name nowUnix u.Models out seen hseen hnd
    rcases hr : listModelsOf allowAll allowed u.Name nowUnix u.Models (out, seen) with
      ⟨out1, seen1⟩
    rw [hr] at a1 a2 a3 a5
    simp only at a1 a2 a3 a5
    obtain ⟨b1, b2, ⟨new2, b3, b4⟩, b5⟩ := ih out1 seen1 a1 a2
    have hstep : listPhysical allowAll allowed nowUnix (u :: us) (out, seen)
        = listPhysical allowAll allowed nowUnix us (out1, seen1) := by
      conv_lhs => unfold listPhysical
      rw [hr]
    rw [hstep]
    refine ⟨b1, b2, ⟨new1 ++ new2, by rw [b3, a3, List.append_assoc], fun e he => ?_⟩,
      fun v hv m hm hstar hperm => ?_⟩
    · rcases List.mem_append.mp he with h | h
      · obtain ⟨c1, c2, c3, c4, c5⟩ := a4 e h
        exact ⟨c3, c4, c5, 0, u, List.getElem?_cons_zero .., c2, c1,
          fun j _ hj _ => absurd hj (by omega)⟩
      · obtain ⟨c1, c2, c3, i, w, c4, c5, c6, c7⟩ := b4 e h
        have hnotu : e.ID ∉ u.Models := fun hin => c3 (a5 e.ID hin c1 c2)
        refine ⟨c1, c2, fun hin => c3 ?_, i + 1, w, by simpa using c4, c5, c6, ?_⟩
        · rw [a3, List.map_append]
          exact List.mem_append_left _ hin
        · intro j x hj hx
          cases j with
          | zero =>
            simp only [List.getElem?_cons_zero, Option.some.injEq] at hx
            rw [← hx]; exact hnotu
          | succ j =>
            simp only [List.getElem?_cons_succ] at hx
            exact c7 j x (by omega) hx
    · rcases List.mem_cons.mp hv with e | e
      · subst e
        rw [b3, List.map_append]
        exact List.mem_append_left _ (a5 m hm hstar hperm)
      · exact b5 v e m hm hstar hperm

/-- The loop over the aliases: the entries it appends are owned by
`system-auto-map` and are alias keys whose real model is permitted, and it lists
every such alias key. -/
theorem listAuto_spec (allowAll : Bool) (allowed : List String) (nowUnix : Int) :
    ∀ (am : List (String × String)) (out : List ModelResponse) (seen : List String),
      (∀ x, x ∈ seen ↔ x ∈ out.map ModelResponse.ID) → (out.map ModelResponse.ID).Nodup →
      ((listAuto allowAll allowed nowUnix am (out, seen)).1.map ModelResponse.ID).Nodup
      ∧ (∃ new, (listAuto allowAll allowed nowUnix am (out, seen)).1 = out ++ new
          ∧ ∀ e ∈ new, e.OwnedBy = "system-auto-map" ∧ e.ID ∉ out.map ModelResponse.ID
              ∧ ∃ v, (e.ID, v) ∈ am
                  ∧ (allowAll || hasModel (realModelOf v) allowed) = true)
      ∧ (∀ a v, (a, v) ∈ am → (allowAll || hasModel (realModelOf v) allowed) = true →
          a ∈ (listAuto allowAll allowed nowUnix am (out, seen)).1.map ModelResponse.ID) := by
  intro am
  induction am with
  | nil =>
    intro out seen _ hnd
    exact ⟨hnd, ⟨[], by simp [listAuto], by simp⟩, by simp⟩
  | cons kv am ih =>
    obtain ⟨a, v⟩ := kv
    intro out seen hseen hnd
    have hcases :
        (listAuto allowAll allowed nowUnix ((a, v) :: am) (out, seen)
            = listAuto allowAll allowed nowUnix am (out, seen)
          ∧ ((allowAll || hasModel (realModelOf v) allowed) = true →
              a ∈ out.map ModelResponse.ID))
        ∨ ((allowAll || hasModel (realModelOf v) allowed) = true
          ∧ a ∉ out.map ModelResponse.ID
          ∧ listAuto allowAll allowed nowUnix ((a, v) :: am) (out, seen)
              = listAuto allowAll allowed nowUnix am
                  (out ++ [{ ID := a, Object := "model", Created := nowUnix,
                             OwnedBy := "system-auto-map" }], a :: seen)) := by
      by_cases hperm : (allowAll || hasModel (realModelOf v) allowed) = true
      · by_cases hs : hasModel a seen = true
        · refine Or.inl ⟨?_, fun _ => (hseen a).mp ((hasModel_iff a seen).mp hs)⟩
          conv_lhs => unfold listAuto
          simp [hs]
        · have hs2 : hasModel a seen = false := by simpa using hs
          refine Or.inr ⟨hperm, fun h => hs ((hasModel_iff a seen).mpr ((hseen a).mpr h)), ?_⟩
          conv_lhs => unfold listAuto
          simp [hperm, hs2]
      · refine Or.inl ⟨?_, fun h => absurd h hperm⟩
        have hperm2 : (allowAll || hasModel (realModelOf v) allowed) = false := by
          simpa using hperm
        conv_lhs => unfold listAuto
        simp [hperm2]
    rcases hcases with ⟨heq, hm⟩ | ⟨hperm, hnot, heq⟩
    · obtain ⟨i2, ⟨new, i3, i4⟩, i5⟩ := ih out seen hseen hnd
      rw [heq]
      refine ⟨i2, ⟨new, i3, fun e he => ?_⟩, fun x w hx hxp => ?_⟩
      · obtain ⟨c1, c2, w, c3, c4⟩ := i4 e he
        exact ⟨c1, c2, w, List.mem_cons_of_mem _ c3, c4⟩
      · rcases List.mem_cons.mp hx with e | e
        · simp only [Prod.mk.injEq] at e
          obtain ⟨e1, e2⟩ := e
          subst e1 e2
          rw [i3, List.map_append]
          exact List.mem_append_left _ (hm hxp)
        · exact i5 x w e hxp
    · obtain ⟨i2, ⟨new, i3, i4⟩, i5⟩ := ih
        (out ++ [{ ID := a, Object := "model", Created := nowUnix,
                   OwnedBy := "system-auto-map" }])
        (a :: seen)
        (by intro x; simp only [List.mem_cons, List.map_append, List.map_cons, List.map_nil,
              List.mem_append, List.mem_singleton, hseen x]; tauto)
        (by
          rw [List.map_append, List.nodup_append]
          refine ⟨hnd, by simp, ?_⟩
          intro b hb hb2
          simp only [List.map_cons, List.map_nil, List.mem_singleton] at hb2
          subst hb2
          exact hnot hb)
      rw [heq]
      refine ⟨i2, ⟨{ ID := a, Object := "model", Created := nowUnix,
                     OwnedBy := "system-auto-map" } :: new, by rw [i3]; simp,
        fun e he => ?_⟩, fun x w hx hxp => ?_⟩
      · rcases List.mem_cons.mp he with e1 | e1
        · subst e1
          exact ⟨rfl, hnot, v, List.mem_cons_self _ _, hperm⟩
        · obtain ⟨c1, c2, w, c3, c4⟩ := i4 e e1
          refine ⟨c1, fun h => c2 ?_, w, List.mem_cons_of_mem _ c3, c4⟩
          rw [List.map_append]
          exact List.mem_append_left _ h
      · rcases List.mem_cons.mp hx with e | e
        · simp only [Prod.mk.injEq] at e
          obtain ⟨e1, e2⟩ := e
          subst e1 e2
          rw [i3]
          simp
        · exact i5 x w e hxp

theorem permitted_iff (allowed : List String) (m : String) :
    (hasModel "*" allowed || hasModel m allowed) = true ↔ ("*" ∈ allowed ∨ m ∈ allowed) := by
  rw [Bool.or_eq_true, hasModel_iff, hasModel_iff]

/-- The list of `handleModels` for a caller whose token matches project `p`: the
entries taken from the upstreams followed by the entries taken from the aliases. -/
theorem handleModels_listing (cfg : Config) (req : Request) (nowUnix : Int) (p : ProjectKey)
    (hauth : findProject (TrimPrefix req.Authorization "Bearer ") cfg.ProjectAuth = some p) :
    ∃ phys auto, handleModels cfg req nowUnix = Reply.models (phys ++ auto)
      ∧ ((phys ++ auto).map ModelResponse.ID).Nodup
      ∧ (∀ e ∈ phys, e.ID ≠ "*" ∧ ("*" ∈ p.AllowedModels ∨ e.ID ∈ p.AllowedModels)
          ∧ ∃ (i : Nat) (u : Upstream), cfg.Upstreams[i]? = some u ∧ e.ID ∈ u.Models
              ∧ e.OwnedBy = u.Name
              ∧ ∀ (j : Nat) (v : Upstream), j < i → cfg.Upstreams[j]? = some v →
                  e.ID ∉ v.Models)
      ∧ (∀ u ∈ cfg.Upstreams, ∀ m ∈ u.Models, m ≠ "*" →
          ("*" ∈ p.AllowedModels ∨ m ∈ p.AllowedModels) → m ∈ phys.map ModelResponse.ID)
      ∧ (∀ e ∈ auto, e.OwnedBy = "system-auto-map" ∧ e.ID ∉ phys.map ModelResponse.ID
          ∧ ∃ v, (e.ID, v) ∈ cfg.Server.AutoModels
              ∧ ("*" ∈ p.AllowedModels ∨ realModelOf v ∈ p.AllowedModels))
      ∧ (∀ a v, (a, v) ∈ cfg.Server.AutoModels →
          ("*" ∈ p.AllowedModels ∨ realModelOf v ∈ p.AllowedModels) →
          a ∈ (phys ++ auto).map ModelResponse.ID) := by
  obtain ⟨a1, a2, ⟨phys, a3, a4⟩, a5⟩ := listPhysical_spec (hasModel "*" p.AllowedModels)
    p.AllowedModels nowUnix cfg.Upstreams [] [] (by simp) (by simp)
  rcases hr : listPhysical (hasModel "*" p.AllowedModels) p.AllowedModels nowUnix cfg.Upstreams
    ([], []) with ⟨out1, seen1⟩
  rw [hr] at a1 a2 a3 a5
  simp only [List.nil_append] at a1 a2 a3 a5
  subst a3
  obtain ⟨b2, ⟨auto, b3, b4⟩, b5⟩ := listAuto_spec (hasModel "*" p.AllowedModels)
    p.AllowedModels nowUnix cfg.Server.AutoModels out1 seen1 a1 a2
  refine ⟨out1, auto, ?_, ?_, ?_, ?_, ?_, ?_⟩
  · unfold handleModels
    simp only [hauth, hr, b3]
  · rw [← b3]; exact b2
  · intro e he
    obtain ⟨c1, c2, _, c4⟩ := a4 e he
    exact ⟨c1, (permitted_iff _ _).mp c2, c4⟩
  · intro u hu m hm hstar hperm
    exact a5 u hu m hm hstar ((permitted_iff _ _).mpr hperm)
  · intro e he
    obtain ⟨c1, c2, v, c3, c4⟩ := b4 e he
    exact ⟨c1, c2, v, c3, (permitted_iff _ _).mp c4⟩
  · intro a v hav hperm
    rw [← b3]
    exact b5 a v hav ((permitted_iff _ _).mpr hperm)

/-- C14: content of the model listing. For a caller whose token matches project
`p`, the list holds an entry with id `m` exactly when `m` is a model other than `*`
of some upstream that the allow-list permits, or an alias key whose target has a
real model that the allow-list permits; no two entries share an id; an entry whose
id is in the first set is owned by the first upstream, in declaration order, that
lists it, alias key or not; every other entry is owned by `system-auto-map`. -/
theorem handleModels_content (cfg : Config) (req : Request) (nowUnix : Int) (p : ProjectKey)
    (hauth : findProject (TrimPrefix req.Authorization "Bearer ") cfg.ProjectAuth = some p) :
    ∃ data, handleModels cfg req nowUnix = Reply.models data
      ∧ (∀ m, m ∈ data.map ModelResponse.ID
          ↔ (inPhysicalSet cfg p.AllowedModels m ∨ inAliasSet cfg p.AllowedModels m))
      ∧ (data.map ModelResponse.ID).Nodup
      ∧ (∀ e ∈ data, inPhysicalSet cfg p.AllowedModels e.ID →
          ∃ (i : Nat) (u : Upstream), cfg.Upstreams[i]? = some u ∧ e.ID ∈ u.Models
            ∧ (∀ (j : Nat) (v : Upstream), j < i → cfg.Upstreams[j]? = some v →
                e.ID ∉ v.Models)
            ∧ e.OwnedBy = u.Name)
      ∧ (∀ e ∈ data, ¬ inPhysicalSet cfg p.AllowedModels e.ID →
          e.OwnedBy = "system-auto-map") := by
  obtain ⟨phys, auto, h1, h2, h3, h4, h5, h6⟩ := handleModels_listing cfg req nowUnix p hauth
  have hphys : ∀ e ∈ phys, inPhysicalSet cfg p.AllowedModels e.ID := by
    intro e he
    obtain ⟨c1, c2, i, u, c3, c4, _, _⟩ := h3 e he
    exact ⟨c1, ⟨u, List.getElem?_mem c3, c4⟩, c2⟩
  have hcover : ∀ m, inPhysicalSet cfg p.AllowedModels m → m ∈ phys.map ModelResponse.ID := by
    rintro m ⟨c1, ⟨u, hu, hm⟩, c2⟩
    exact h4 u hu m hm c1 c2
  refine ⟨phys ++ auto, h1, ?_, h2, ?_, ?_⟩
  · intro m
    constructor
    · intro hm
      rw [List.mem_map] at hm
      obtain ⟨e, he, rfl⟩ := hm
      rcases List.mem_append.mp he with h | h
      · exact Or.inl (hphys e h)
      · obtain ⟨_, _, v, c3, c4⟩ := h5 e h
        exact Or.inr ⟨v, c3, c4⟩
    · rintro (hm | ⟨v, hv, hperm⟩)
      · rw [List.map_append]
        exact List.mem_append_left _ (hcover m hm)
      · exact h6 m v hv hperm
  · intro e he hin
    rcases List.mem_append.mp he with h | h
    · obtain ⟨_, _, i, u, c3, c4, c5, c6⟩ := h3 e h
      exact ⟨i, u, c3, c4, c6, c5⟩
    · exact absurd (hcover e.ID hin) (h5 e h).2.1
  · intro e he hnot
    rcases List.mem_append.mp he with h | h
    · exact absurd (hphys e h) hnot
    · exact (h5 e h).1

/-- C14, witness: the listing of the sample configuration for a caller allowed
`gpt-x`: the upstream model `gpt-x` and the alias `fast`. -/
theorem handleModels_content_witness :
    findProject (TrimPrefix getModels.Authorization "Bearer ")
        (sampleConfig "P" ["gpt-x"] "A:gpt-x").ProjectAuth = some ⟨"P", "t1", ["gpt-x"]⟩
    ∧ handleModels (sampleConfig "P" ["gpt-x"] "A:gpt-x") getModels 0
        = Reply.models [⟨"gpt-x", "model", 0, "A"⟩, ⟨"fast", "model", 0, "system-auto-map"⟩]
    ∧ ∃ data, handleModels (sampleConfig "P" ["gpt-x"] "A:gpt-x") getModels 0 = Reply.models data
        ∧ (data.map ModelResponse.ID).Nodup :=
  ⟨by decide, by decide,
   (handleModels_content (sampleConfig "P" ["gpt-x"] "A:gpt-x") getModels 0
      ⟨"P", "t1", ["gpt-x"]⟩ (by decide)).elim
     (fun data h => ⟨data, h.1, h.2.2.1⟩)⟩

/-- C15, amended: an entry of the listing with id `*` never comes from the models
of an upstream: it is owned through the alias loop (`system-auto-map`, and not in
the first set of C14) and `*` is then a key of `auto_models`; so when `*` is not a
key of `auto_models` no entry has id `*`. -/
theorem handleModels_wildcard_only_as_alias (cfg : Config) (req : Request) (nowUnix : Int)
    (p : ProjectKey)
    (hauth : findProject (TrimPrefix req.Authorization "Bearer ") cfg.ProjectAuth = some p) :
    ∃ data, handleModels cfg req nowUnix = Reply.models data
      ∧ (∀ e ∈ data, e.ID = "*" →
          e.OwnedBy = "system-auto-map"
          ∧ ∃ v, ("*", v) ∈ cfg.Server.AutoModels
              ∧ ("*" ∈ p.AllowedModels ∨ realModelOf v ∈ p.AllowedModels))
      ∧ ((∀ v, ("*", v) ∉ cfg.Server.AutoModels) → ∀ e ∈ data, e.ID ≠ "*") := by
  obtain ⟨phys, auto, h1, _, h3, _, h5, _⟩ := handleModels_listing cfg req nowUnix p hauth
  have hstar : ∀ e ∈ phys ++ auto, e.ID = "*" →
      e.OwnedBy = "system-auto-map"
      ∧ ∃ v, ("*", v) ∈ cfg.Server.AutoModels
          ∧ ("*" ∈ p.AllowedModels ∨ realModelOf v ∈ p.AllowedModels) := by
    intro e he hid
    rcases List.mem_append.mp he with h | h
    · exact absurd hid (h3 e h).1
    · obtain ⟨c1, _, v, c3, c4⟩ := h5 e h
      rw [hid] at c3
      exact ⟨c1, v, c3, c4⟩
  refine ⟨phys ++ auto, h1, hstar, ?_⟩
  intro hno e he hid
  obtain ⟨_, v, hv, _⟩ := hstar e he hid
  exact hno v hv

/-- C15, witness: the sample configuration has no alias named `*`. -/
theorem handleModels_wildcard_only_as_alias_witness :
    findProject (TrimPrefix getModels.Authorization "Bearer ")
        (sampleConfig "P" ["*"] "A:gpt-x").ProjectAuth = some ⟨"P", "t1", ["*"]⟩
    ∧ (∀ v, ("*", v) ∉ (sampleConfig "P" ["*"] "A:gpt-x").Server.AutoModels)
    ∧ ∃ data, handleModels (sampleConfig "P" ["*"] "A:gpt-x") getModels 0 = Reply.models data
        ∧ ((∀ v, ("*", v) ∉ (sampleConfig "P" ["*"] "A:gpt-x").Server.AutoModels) →
            ∀ e ∈ data, e.ID ≠ "*") :=
  ⟨by decide, fun v h => by simp [sampleConfig] at h,
   (handleModels_wildcard_only_as_alias (sampleConfig "P" ["*"] "A:gpt-x") getModels 0
      ⟨"P", "t1", ["*"]⟩ (by decide)).elim
     (fun data h => ⟨data, h.1, h.2.2⟩)⟩

/-- C15, counterexample: with the alias `*` of `A:gpt-x` and a caller allowed
`gpt-x`, the listing holds an entry with id `*`. -/
theorem alias_named_star_is_listed :
    handleModels (configWithAlias ["gpt-x"] "*" "A:gpt-x") getModels 0
      = Reply.models [⟨"gpt-x", "model", 0, "A"⟩, ⟨"*", "model", 0, "system-auto-map"⟩] := by
  decide

/-! ## Listing and authorization -/

/-- A request that is not the model listing is answered with 401 when the matching
project has an empty name. -/
theorem handleRequest_empty_name (lib : JsonLib) (cfg : Config) (req : Request)
    (nowUnix : Int) (env : ForwardEnv) (s : State) (p : ProjectKey)
    (hproxy : ¬ isModelsRequest req)
    (hauth : findProject (TrimPrefix req.Authorization "Bearer ") cfg.ProjectAuth = some p)
    (hname : p.ProjectName = "") :
    (handleRequest lib cfg req nowUnix env s).reply
      = Reply.abortJSON 401 "Unauthorized Project Key" := by
  unfold isModelsRequest at hproxy
  unfold handleRequest
  rw [if_neg hproxy]
  simp only [hauth, hname, if_true]
  rfl

/-- A request whose effective model the project may use is not answered with 403
by the handler. -/
theorem handleRequest_allowed_not_forbidden (lib : JsonLib) (cfg : Config) (req : Request)
    (nowUnix : Int) (env : ForwardEnv) (s : State) (p : ProjectKey) (bodyBytes : String)
    (hproxy : ¬ isModelsRequest req)
    (hauth : findProject (TrimPrefix req.Authorization "Bearer ") cfg.ProjectAuth = some p)
    (hbody : req.RawData = some bodyBytes)
    (hallowed : "*" ∈ p.AllowedModels
      ∨ effectiveModel cfg.Server.AutoModels (requestedModel lib bodyBytes) ∈ p.AllowedModels) :
    ¬ ∃ msg, (handleRequest lib cfg req nowUnix env s).reply = Reply.abortJSON 403 msg := by
  rintro ⟨msg, hmsg⟩
  by_cases hname : p.ProjectName = ""
  · rw [handleRequest_empty_name lib cfg req nowUnix env s p hproxy hauth hname] at hmsg
    simp at hmsg
  · cases hf : forwardedBody lib cfg.Server.AutoModels bodyBytes with
    | none =>
      rw [handleRequest_faulted lib cfg req nowUnix env s p bodyBytes hproxy hauth hname hbody hf]
        at hmsg
      simp [answer] at hmsg
    | some fwd =>
    rw [handleRequest_proxied lib cfg req nowUnix env s p bodyBytes fwd hproxy hauth hname hbody
      hf] at hmsg
    rw [← resolveAlias_snd] at hallowed
    rw [if_neg (by simp [(isAllowed_iff _ _).mpr hallowed])] at hmsg
    cases hm : matchUpstream cfg.Upstreams
        (resolveAlias cfg.Server.AutoModels (requestedModel lib bodyBytes)).1
        (resolveAlias cfg.Server.AutoModels (requestedModel lib bodyBytes)).2 with
    | none =>
      rw [hm] at hmsg
      simp only [answer, noUpstreamReply] at hmsg
      split at hmsg <;> simp at hmsg
    | some u =>
      rw [hm] at hmsg
      have := (retryLoop_reply_calls u cfg.Server _ p.ProjectName _ env _ 0 none s).1 403 msg
        hmsg
      omega

theorem autoLookup_of_mem : ∀ (am : List (String × String)) (a v : String),
    (am.map Prod.fst).Nodup → (a, v) ∈ am → autoLookup a am = some v
  | [], _, _, _, h => by simp at h
  | (a1, v1) :: am, a, v, hnd, h => by
    rw [List.map_cons, List.nodup_cons] at hnd
    unfold autoLookup
    rcases List.mem_cons.mp h with e | e
    · simp only [Prod.mk.injEq] at e
      rw [if_pos e.1.symm, e.2]
    · have hne : a1 ≠ a := by
        intro e1
        apply hnd.1
        rw [e1]
        exact List.mem_map.mpr ⟨(a, v), e, rfl⟩
      rw [if_neg hne]
      exact autoLookup_of_mem am a v hnd.2 e

theorem autoLookup_mem : ∀ (am : List (String × String)) (a v : String),
    autoLookup a am = some v → (a, v) ∈ am
  | [], _, _, h => by simp [autoLookup] at h
  | (a1, v1) :: am, a, v, h => by
    unfold autoLookup at h
    by_cases e : a1 = a
    · rw [if_pos e] at h
      simp only [Option.some.injEq] at h
      rw [e, h]
      exact List.mem_cons_self _ _
    · rw [if_neg e] at h
      exact List.mem_cons_of_mem _ (autoLookup_mem am a v h)

/-- C18, amended: an id that `handleModels` lists for a caller is not rejected with
403 when the same caller asks for it in a proxied request, provided that, when the
id is a key of `auto_models`, the real model of its target is permitted by the
caller's allow-list. With one target per alias key this covers every listed id
outside the first set of C14, that is every id listed as an alias. -/
theorem listed_id_not_forbidden (lib : JsonLib) (cfg : Config) (reqL req : Request)
    (nowL nowUnix : Int) (env : ForwardEnv) (s : State) (p : ProjectKey)
    (bodyBytes : String) (data : List ModelResponse) (e : ModelResponse)
    (hauth : findProject (TrimPrefix reqL.Authorization "Bearer ") cfg.ProjectAuth = some p)
    (hlist : handleModels cfg reqL nowL = Reply.models data) (he : e ∈ data)
    (hsame : req.Authorization = reqL.Authorization)
    (hproxy : ¬ isModelsRequest req) (hbody : req.RawData = some bodyBytes)
    (hmodel : requestedModel lib bodyBytes = e.ID) :
    ((∀ v, autoLookup e.ID cfg.Server.AutoModels = some v →
          "*" ∈ p.AllowedModels ∨ realModelOf v ∈ p.AllowedModels) →
        ¬ ∃ msg, (handleRequest lib cfg req nowUnix env s).reply = Reply.abortJSON 403 msg)
    ∧ ((cfg.Server.AutoModels.map Prod.fst).Nodup →
        ¬ inPhysicalSet cfg p.AllowedModels e.ID →
        ¬ ∃ msg, (handleRequest lib cfg req nowUnix env s).reply = Reply.abortJSON 403 msg) := by
  obtain ⟨phys, auto, h1, _, h3, _, h5, _⟩ := handleModels_listing cfg reqL nowL p hauth
  have hdata : data = phys ++ auto := by
    rw [h1] at hlist
    simp only [Reply.models.injEq] at hlist
    exact hlist.symm
  subst hdata
  have hauth2 : findProject (TrimPrefix req.Authorization "Bearer ") cfg.ProjectAuth = some p := by
    rw [hsame]; exact hauth
  -- the id is permitted whenever it is not an alias key
  have hplain : autoLookup e.ID cfg.Server.AutoModels = none →
      "*" ∈ p.AllowedModels ∨ e.ID ∈ p.AllowedModels := by
    intro hnone
    rcases List.mem_append.mp he with h | h
    · exact (h3 e h).2.1
    · obtain ⟨_, _, v, c3, c4⟩ := h5 e h
      rcases c4 with c4 | c4
      · exact Or.inl c4
      · exfalso
        have : ∀ (am : List (String × String)), (e.ID, v) ∈ am → autoLookup e.ID am ≠ none := by
          intro am
          induction am with
          | nil => intro hm; simp at hm
          | cons kv am ih =>
            obtain ⟨a1, v1⟩ := kv
            intro hm
            unfold autoLookup
            by_cases e1 : a1 = e.ID
            · rw [if_pos e1]; simp
            · rw [if_neg e1]
              rcases List.mem_cons.mp hm with e2 | e2
              · simp only [Prod.mk.injEq] at e2
                exact absurd e2.1.symm e1
              · exact ih e2
        exact this _ c3 hnone
  have hmain : (∀ v, autoLookup e.ID cfg.Server.AutoModels = some v →
        "*" ∈ p.AllowedModels ∨ realModelOf v ∈ p.AllowedModels) →
      ¬ ∃ msg, (handleRequest lib cfg req nowUnix env s).reply = Reply.abortJSON 403 msg := by
    intro halias
    apply handleRequest_allowed_not_forbidden lib cfg req nowUnix env s p bodyBytes hproxy
      hauth2 hbody
    rw [hmodel]
    unfold effectiveModel
    cases hl : autoLookup e.ID cfg.Server.AutoModels with
    | none => exact hplain hl
    | some v => exact halias v hl
  refine ⟨hmain, ?_⟩
  intro hnd hnot
  apply hmain
  intro v hv
  rcases List.mem_append.mp he with h | h
  · exfalso
    obtain ⟨c1, c2, i, u, c3, c4, _, _⟩ := h3 e h
    exact hnot ⟨c1, ⟨u, List.getElem?_mem c3, c4⟩, c2⟩
  · obtain ⟨_, _, w, c3, c4⟩ := h5 e h
    have := autoLookup_of_mem _ _ _ hnd c3
    rw [hv] at this
    simp only [Option.some.injEq] at this
    rw [this]
    exact c4

/-- C18, witness: the alias `fast`, listed for a caller allowed `gpt-x`, is not
rejected with 403. -/
theorem listed_id_not_forbidden_witness :
    handleModels (sampleConfig "P" ["gpt-x"] "A:gpt-x") getModels 0
        = Reply.models [⟨"gpt-x", "model", 0, "A"⟩, ⟨"fast", "model", 0, "system-auto-map"⟩]
    ∧ (∀ v, autoLookup "fast" (sampleConfig "P" ["gpt-x"] "A:gpt-x").Server.AutoModels = some v →
        "*" ∈ ["gpt-x"] ∨ realModelOf v ∈ ["gpt-x"])
    ∧ ¬ ∃ msg, (handleRequest sampleJson (sampleConfig "P" ["gpt-x"] "A:gpt-x") (postFor "fast") 0
        (alwaysStatus 200) State.init).reply = Reply.abortJSON 403 msg :=
  ⟨by decide,
   fun v hv => by
     have e : v = "A:gpt-x" := by
       simp only [sampleConfig, autoLookup, if_true, Option.some.injEq] at hv
       exact hv.symm
     subst e
     decide,
   (listed_id_not_forbidden sampleJson (sampleConfig "P" ["gpt-x"] "A:gpt-x") getModels
      (postFor "fast") 0 0 (alwaysStatus 200) State.init ⟨"P", "t1", ["gpt-x"]⟩
      (modelBody "fast")
      [⟨"gpt-x", "model", 0, "A"⟩, ⟨"fast", "model", 0, "system-auto-map"⟩]
      ⟨"fast", "model", 0, "system-auto-map"⟩
      (by decide) (by decide) (by decide) rfl (by decide) rfl (by decide)).1
     (fun v hv => by
       have e : v = "A:gpt-x" := by
         simp only [sampleConfig, autoLookup, if_true, Option.some.injEq] at hv
         exact hv.symm
       subst e
       decide)⟩

/-- C18, counterexample: `gpt-x` is a model of upstream `A` and also an alias of
`A:secret`. For a caller allowed `gpt-x` the listing holds `gpt-x`, and a proxied
request of the same caller for `gpt-x` is rejected with 403, its effective model
being `secret`. -/
theorem listed_model_shadowed_by_alias_is_forbidden :
    handleModels (configWithAlias ["gpt-x"] "gpt-x" "A:secret") getModels 0
        = Reply.models [⟨"gpt-x", "model", 0, "A"⟩]
    ∧ (postFor "gpt-x").Authorization = getModels.Authorization
    ∧ requestedModel sampleJson (modelBody "gpt-x") = "gpt-x"
    ∧ (handleRequest sampleJson (configWithAlias ["gpt-x"] "gpt-x" "A:secret") (postFor "gpt-x")
        0 (alwaysStatus 200) State.init).reply
        = Reply.abortJSON 403 "Model 'secret' is not allowed for project 'P'" := by
  decide

/-! ## Body rewrite -/

theorem attemptPass_calls_body (upstream : Upstream) (srvCfg : ServerConfig)
    (body projectName modelName : String) (env : ForwardEnv) (retry : Nat) (s : State) :
    (∀ r, attemptPass upstream srvCfg body projectName modelName env retry s
        = PassResult.finished r → ∀ c ∈ r.calls, c.Body = body)
    ∧ (∀ cs err s1, attemptPass upstream srvCfg body projectName modelName env retry s
        = PassResult.failed cs err s1 → ∀ c ∈ cs, c.Body = body) := by
  unfold attemptPass
  simp only
  split
  · exact ⟨fun r h => by simp only [PassResult.finished.injEq] at h; subst h; simp,
      fun cs err s1 h => absurd h (by simp)⟩
  · exact ⟨fun r h => absurd h (by simp), fun cs err s1 h => absurd h (by simp)⟩
  · exact ⟨fun r h => absurd h (by simp), fun cs err s1 h => absurd h (by simp)⟩
  · split
    · exact ⟨fun r h => by simp only [PassResult.finished.injEq] at h; subst h; simp,
        fun cs err s1 h => absurd h (by simp)⟩
    · split
      · exact ⟨fun r h => by simp only [PassResult.finished.injEq] at h; subst h; simp,
          fun cs err s1 h => absurd h (by simp)⟩
      · split
        · exact ⟨fun r h => by simp only [PassResult.finished.injEq] at h; subst h; simp,
            fun cs err s1 h => absurd h (by simp)⟩
        · exact ⟨fun r h => by simp only [PassResult.finished.injEq] at h; subst h; simp,
            fun cs err s1 h => absurd h (by simp)⟩
        · exact ⟨fun r h => absurd h (by simp),
            fun cs err s1 h => by simp only [PassResult.failed.injEq] at h; rw [← h.1]; simp⟩
        · split
          · exact ⟨fun r h => absurd h (by simp),
              fun cs err s1 h => by
                simp only [PassResult.failed.injEq] at h; rw [← h.1]; simp⟩
          · exact ⟨fun r h => by simp only [PassResult.finished.injEq] at h; subst h; simp,
              fun cs err s1 h => absurd h (by simp)⟩

/-- Every upstream call of the retry loop carries the body it was given. -/
theorem retryLoop_calls_body (upstream : Upstream) (srvCfg : ServerConfig)
    (body projectName modelName : String) (env : ForwardEnv) :
    ∀ (remaining retry : Nat) (lastErr : Option String) (s : State),
      ∀ c ∈ (retryLoop upstream srvCfg body projectName modelName env remaining retry
          lastErr s).calls, c.Body = body := by
  intro remaining
  induction remaining with
  | zero =>
    intro retry lastErr s c hc
    simp [retryLoop, retriesExhausted] at hc
  | succ n ih =>
    intro retry lastErr s c hc
    obtain ⟨hfin, hfail⟩ :=
      attemptPass_calls_body upstream srvCfg body projectName modelName env retry s
    unfold retryLoop at hc
    cases hp : attemptPass upstream srvCfg body projectName modelName env retry s with
    | finished r =>
      rw [hp] at hc
      exact hfin r hp c hc
    | noKey err s1 =>
      rw [hp] at hc
      simp only at hc
      split at hc
      · simp only [afterAttempt, List.nil_append] at hc
        exact ih _ _ _ c hc
      · simp [afterAttempt, retriesExhausted] at hc
    | failed cs err s1 =>
      rw [hp] at hc
      simp only at hc
      split at hc
      · simp only [afterAttempt, List.mem_append] at hc
        rcases hc with hc | hc
        · exact hfail cs err s1 hp c hc
        · exact ih _ _ _ c hc
      · simp only [afterAttempt, retriesExhausted, List.append_nil] at hc
        exact hfail cs err s1 hp c hc

theorem insertByKey_perm (e : String × JsonValue) :
    ∀ (l : List (String × JsonValue)), (insertByKey e l).Perm (e :: l)
  | [] => List.Perm.refl _
  | e1 :: rest => by
    unfold insertByKey
    split
    · exact List.Perm.refl _
    · exact ((insertByKey_perm e rest).cons e1).trans (List.Perm.swap e e1 rest)

/-- The entries `json.Marshal` writes are those of the map. -/
theorem sortByKey_perm : ∀ (l : List (String × JsonValue)), (sortByKey l).Perm l
  | [] => List.Perm.refl _
  | e :: rest => by
    unfold sortByKey
    exact (insertByKey_perm e (sortByKey rest)).trans ((sortByKey_perm rest).cons e)

/-- After `m[k] = v` the map holds `v` under `k`. -/
theorem mapGet_setMember_same {β : Type} (k : String) (v : β) :
    ∀ (m : List (String × β)), mapGet k (setMember k v m) = some v
  | [] => by simp [setMember, mapGet]
  | (k1, v1) :: rest => by
    unfold setMember
    by_cases h : k1 = k
    · rw [if_pos h]
      simp [mapGet]
    · rw [if_neg h]
      unfold mapGet
      rw [if_neg h]
      exact mapGet_setMember_same k v rest

/-- After `m[k] = v` the map holds under any other key what it held before. -/
theorem mapGet_setMember_other {β : Type} (k x : String) (v : β) (hx : x ≠ k) :
    ∀ (m : List (String × β)), mapGet x (setMember k v m) = mapGet x m
  | [] => by
    simp only [setMember, mapGet]
    rw [if_neg (fun e => hx e.symm)]
  | (k1, v1) :: rest => by
    unfold setMember
    by_cases h : k1 = k
    · rw [if_pos h]
      unfold mapGet
      rw [if_neg (fun e => hx e.symm), if_neg (fun e => hx (by rw [← e, h]))]
    · rw [if_neg h]
      unfold mapGet
      by_cases h2 : k1 = x
      · rw [if_pos h2, if_pos h2]
      · rw [if_neg h2, if_neg h2]
        exact mapGet_setMember_other k x v hx rest

/-- The keys after `m[k] = v` are `k` and the keys before. -/
theorem setMember_keys {β : Type} (k x : String) (v : β) :
    ∀ (m : List (String × β)),
      x ∈ (setMember k v m).map Prod.fst ↔ (x = k ∨ x ∈ m.map Prod.fst)
  | [] => by simp [setMember]
  | (k1, v1) :: rest => by
    unfold setMember
    by_cases h : k1 = k
    · rw [if_pos h]
      simp only [List.map_cons, List.mem_cons]
      rw [h]
      tauto
    · rw [if_neg h]
      simp only [List.map_cons, List.mem_cons, setMember_keys k x v rest]
      tauto

/-- The assignment `m[k] = v` keeps one entry for each key. -/
theorem setMember_nodup {β : Type} (k : String) (v : β) :
    ∀ (m : List (String × β)), (m.map Prod.fst).Nodup → ((setMember k v m).map Prod.fst).Nodup
  | [], _ => by simp [setMember]
  | (k1, v1) :: rest, hnd => by
    rw [List.map_cons, List.nodup_cons] at hnd
    unfold setMember
    by_cases h : k1 = k
    · rw [if_pos h, List.map_cons, List.nodup_cons]
      exact ⟨by rw [← h]; exact hnd.1, hnd.2⟩
    · rw [if_neg h, List.map_cons, List.nodup_cons]
      refine ⟨?_, setMember_nodup k v rest hnd.2⟩
      intro hin
      rcases (setMember_keys k k1 v rest).mp hin with e | e
      · exact h e
      · exact hnd.1 e

/-- The body left by lines 445-462 when the requested model is an alias. -/
theorem forwardedBody_alias (lib : JsonLib) (am : List (String × String))
    (bodyBytes mapVal : String)
    (hlook : autoLookup (requestedModel lib bodyBytes) am = some mapVal) :
    forwardedBody lib am bodyBytes = rewriteBody lib bodyBytes (realModelOf mapVal) := by
  unfold forwardedBody
  rw [hlook, resolveAlias_snd]
  unfold effectiveModel
  rw [hlook]
  rfl

/-- Every upstream call made for a proxied request carries the body left by lines
445-462. -/
theorem handleRequest_calls_body (lib : JsonLib) (cfg : Config) (req : Request)
    (nowUnix : Int) (env : ForwardEnv) (s : State) (p : ProjectKey) (bodyBytes fwd : String)
    (hproxy : ¬ isModelsRequest req)
    (hauth : findProject (TrimPrefix req.Authorization "Bearer ") cfg.ProjectAuth = some p)
    (hname : p.ProjectName ≠ "")
    (hbody : req.RawData = some bodyBytes)
    (hfwd : forwardedBody lib cfg.Server.AutoModels bodyBytes = some fwd) :
    ∀ c ∈ (handleRequest lib cfg req nowUnix env s).calls, c.Body = fwd := by
  intro c hc
  rw [handleRequest_proxied lib cfg req nowUnix env s p bodyBytes fwd hproxy hauth hname hbody
    hfwd] at hc
  split at hc
  · simp [answer] at hc
  · split at hc
    · simp [answer] at hc
    · exact retryLoop_calls_body _ _ _ _ _ _ _ _ _ _ c hc

/-- C16, amended: the body handed to the upstream when the requested model is an
alias with target `mapVal`. When `json.Unmarshal` decodes the body into the map `m`
and `json.Marshal` encodes the map after the assignment of line 457, the forwarded
body, which every upstream call made for the request carries, is the encoding of a
map that holds the real model of the target under `model` and under every other
key what `m` holds under it, with the keys of `m` and no other key but `model`; so
that, whenever the library decodes its encoding of that map back to the map's
entries, the forwarded body parses as an object with that `model` and those other
members. When `json.Unmarshal` returns an error, or `json.Marshal` does, the body is
forwarded as received. -/
theorem forwarded_body_rewrite (lib : JsonLib) (cfg : Config) (req : Request)
    (nowUnix : Int) (env : ForwardEnv) (s : State) (p : ProjectKey)
    (bodyBytes mapVal : String)
    (hproxy : ¬ isModelsRequest req)
    (hauth : findProject (TrimPrefix req.Authorization "Bearer ") cfg.ProjectAuth = some p)
    (hname : p.ProjectName ≠ "")
    (hbody : req.RawData = some bodyBytes)
    (hlook : autoLookup (requestedModel lib bodyBytes) cfg.Server.AutoModels = some mapVal) :
    (∀ (m : List (String × lib.Val)) (b : String),
        lib.decodeObject bodyBytes = Decoded.object m →
        lib.encodeObject (setMember "model" (lib.ofString (realModelOf mapVal)) m) = some b →
        forwardedBody lib cfg.Server.AutoModels bodyBytes = some b
        ∧ (∀ c ∈ (handleRequest lib cfg req nowUnix env s).calls, c.Body = b)
        ∧ (∃ m1 : List (String × lib.Val), lib.encodeObject m1 = some b
            ∧ mapGet "model" m1 = some (lib.ofString (realModelOf mapVal))
            ∧ (∀ k, k ≠ "model" → mapGet k m1 = mapGet k m)
            ∧ (∀ k, k ≠ "model" → (k ∈ m1.map Prod.fst ↔ k ∈ m.map Prod.fst))
            ∧ ((m.map Prod.fst).Nodup → (m1.map Prod.fst).Nodup))
        ∧ (RoundTrips lib (setMember "model" (lib.ofString (realModelOf mapVal)) m) →
            ∃ m2, lib.decodeObject b = Decoded.object m2
              ∧ mapGet "model" m2 = some (lib.ofString (realModelOf mapVal))
              ∧ ∀ k, k ≠ "model" → mapGet k m2 = mapGet k m))
    ∧ (lib.decodeObject bodyBytes = Decoded.error →
        forwardedBody lib cfg.Server.AutoModels bodyBytes = some bodyBytes
        ∧ ∀ c ∈ (handleRequest lib cfg req nowUnix env s).calls, c.Body = bodyBytes)
    ∧ (∀ (m : List (String × lib.Val)), lib.decodeObject bodyBytes = Decoded.object m →
        lib.encodeObject (setMember "model" (lib.ofString (realModelOf mapVal)) m) = none →
        forwardedBody lib cfg.Server.AutoModels bodyBytes = some bodyBytes
        ∧ ∀ c ∈ (handleRequest lib cfg req nowUnix env s).calls, c.Body = bodyBytes) := by
  have hfwd := forwardedBody_alias lib cfg.Server.AutoModels bodyBytes mapVal hlook
  have hcalls := handleRequest_calls_body lib cfg req nowUnix env s p bodyBytes
  refine ⟨?_, ?_, ?_⟩
  · intro m b hdec henc
    have hb : forwardedBody lib cfg.Server.AutoModels bodyBytes = some b := by
      rw [hfwd]
      unfold rewriteBody
      simp only [hdec, henc]
    refine ⟨hb, hcalls b hproxy hauth hname hbody hb,
      ⟨setMember "model" (lib.ofString (realModelOf mapVal)) m, henc,
        mapGet_setMember_same _ _ m, fun k hk => mapGet_setMember_other _ k _ hk m,
        fun k hk => ?_, setMember_nodup _ _ m⟩, fun hrt => ?_⟩
    · rw [setMember_keys]
      constructor
      · rintro (e | e)
        · exact absurd e hk
        · exact e
      · exact Or.inr
    · obtain ⟨m2, h1, h2⟩ := hrt b henc
      refine ⟨m2, h1, ?_, fun k hk => ?_⟩
      · rw [h2, mapGet_setMember_same]
      · rw [h2, mapGet_setMember_other _ k _ hk]
  · intro hdec
    have hb : forwardedBody lib cfg.Server.AutoModels bodyBytes = some bodyBytes := by
      rw [hfwd]
      unfold rewriteBody
      simp only [hdec]
    exact ⟨hb, hcalls bodyBytes hproxy hauth hname hbody hb⟩
  · intro m hdec henc
    have hb : forwardedBody lib cfg.Server.AutoModels bodyBytes = some bodyBytes := by
      rw [hfwd]
      unfold rewriteBody
      simp only [hdec, henc]
    exact ⟨hb, hcalls bodyBytes hproxy hauth hname hbody hb⟩

/-- The library model decodes its encoding of the map with `model` equal to `gpt-x`
and `seed` equal to 7 back to that map. -/
theorem sampleJson_roundTrips_seed :
    RoundTrips sampleJson [("model", JsonValue.text "gpt-x"), ("seed", JsonValue.int 7)] := by
  intro b hb
  have hb2 : b = "\x7b\"model\":\"gpt-x\",\"seed\":7\x7d" := by
    have h0 : sampleJson.encodeObject [("model", JsonValue.text "gpt-x"), ("seed", JsonValue.int 7)]
        = some "\x7b\"model\":\"gpt-x\",\"seed\":7\x7d" := by decide
    rw [h0] at hb
    exact (Option.some.inj hb).symm
  subst hb2
  exact ⟨[("model", JsonValue.text "gpt-x"), ("seed", JsonValue.int 7)], by decide, fun _ => rfl⟩

/-- C16, witness: the alias `fast` asked with the member `seed` equal to 7. The body
sent to the upstream is `\x7b"model":"gpt-x","seed":7\x7d`, which parses as an object
with `model` equal to `gpt-x` and, under `seed`, what the original body holds. -/
theorem forwarded_body_rewrite_witness :
    ¬ isModelsRequest (postObject (seedObject 7))
    ∧ autoLookup (requestedModel sampleJson (renderObject (seedObject 7)))
        (sampleConfig "P" ["gpt-x"] "A:gpt-x").Server.AutoModels = some "A:gpt-x"
    ∧ sampleJson.decodeObject (renderObject (seedObject 7)) = Decoded.object (seedObject 7)
    ∧ (∀ c ∈ (handleRequest sampleJson (sampleConfig "P" ["gpt-x"] "A:gpt-x")
          (postObject (seedObject 7)) 0 (alwaysStatus 200) State.init).calls,
        c.Body = "\x7b\"model\":\"gpt-x\",\"seed\":7\x7d")
    ∧ (∃ m2, sampleJson.decodeObject "\x7b\"model\":\"gpt-x\",\"seed\":7\x7d"
          = Decoded.object m2
        ∧ mapGet "model" m2 = some (sampleJson.ofString (realModelOf "A:gpt-x"))
        ∧ ∀ k, k ≠ "model" → mapGet k m2 = mapGet k (seedObject 7)) :=
  ⟨by decide, by decide, by decide,
   ((forwarded_body_rewrite sampleJson (sampleConfig "P" ["gpt-x"] "A:gpt-x")
      (postObject (seedObject 7)) 0 (alwaysStatus 200) State.init ⟨"P", "t1", ["gpt-x"]⟩
      (renderObject (seedObject 7)) "A:gpt-x" (by decide) (by decide) (by decide) rfl
      (by decide)).1 (seedObject 7) "\x7b\"model\":\"gpt-x\",\"seed\":7\x7d" (by decide)
      (by decide)).2.1,
   ((forwarded_body_rewrite sampleJson (sampleConfig "P" ["gpt-x"] "A:gpt-x")
      (postObject (seedObject 7)) 0 (alwaysStatus 200) State.init ⟨"P", "t1", ["gpt-x"]⟩
      (renderObject (seedObject 7)) "A:gpt-x" (by decide) (by decide) (by decide) rfl
      (by decide)).1 (seedObject 7) "\x7b\"model\":\"gpt-x\",\"seed\":7\x7d" (by decide)
      (by decide)).2.2.2 sampleJson_roundTrips_seed⟩

/-- C16, counterexample: the body `\x7b"model":"fast","seed":9007199254740993\x7d` is a
JSON object whose `model` is the alias `fast` of `A:gpt-x`. Its member `seed` is
`2 ^ 53 + 1`, which as a `float64` is `2 ^ 53`: the body sent to the upstream is
`\x7b"model":"gpt-x","seed":9007199254740992\x7d`, an object whose member `seed` has
another value than in the original body. -/
theorem big_integer_member_changes :
    renderObject (seedObject 9007199254740993)
        = "\x7b\"model\":\"fast\",\"seed\":9007199254740993\x7d"
    ∧ parseObject "\x7b\"model\":\"fast\",\"seed\":9007199254740993\x7d"
        = some [("model", JsonValue.text "fast"), ("seed", JsonValue.int 9007199254740993)]
    ∧ (handleRequest sampleJson (sampleConfig "P" ["gpt-x"] "A:gpt-x")
        (postObject (seedObject 9007199254740993)) 0 (alwaysStatus 200) State.init).calls
        = [{ Upstream := "A", Key := "b",
             Body := "\x7b\"model\":\"gpt-x\",\"seed\":9007199254740992\x7d" }]
    ∧ parseObject "\x7b\"model\":\"gpt-x\",\"seed\":9007199254740992\x7d"
        = some [("model", JsonValue.text "gpt-x"), ("seed", JsonValue.int 9007199254740992)] := by
  decide

end AiProxy
